import Mathlib

/-!
Verification of the arena allocator in `src/native/viewer/arena.c`.

The C code is shallowly embedded: `size_t` values become `Nat` (64-bit
wraparound is made explicit through `u64`/`u64sub` at the arithmetic sites
where the C could overflow), pointers become `Nat` addresses (`0` is the
null pointer), `malloc` is a bump allocator over a world state, and the
various header shapes (`arenaimp_small_header`, `arenaimp_big_header`,
`arenaimp_common_header`) become tagged entries in per-kind address maps.
Structure offsets are those of the LP64 target the source is written for
(8-byte `size_t` and pointers): `sizeof(arenaimp_t) = 224`, the `big_head`
sentinel at offset 88 and the `big_tail` sentinel at offset 112.

Finalizer function pointers are deeply embedded (`DeferFn`): the one
internal finalizer `arenaimp_defer_free_arena` becomes `DeferFn.freeArena`,
and arbitrary caller-supplied finalizers become `DeferFn.user tag`, whose
invocation is recorded in an event trace and touches no state (the spec's
§5 assumption that external finalizers only affect their own private
state).  `assert` is modelled with NDEBUG semantics: a failed assertion
clears `assertOk` and execution continues, exactly as the compiled release
code would.  Reads or writes through pointers the model cannot resolve set
a `crashed` flag (undefined behaviour in the C).
-/

namespace ArenaC

set_option maxRecDepth 100000
set_option maxHeartbeats 4000000

/-- Two to the sixty-fourth, the modulus of `size_t` arithmetic. -/
def U64 : Nat := 2 ^ 64

/-- Reduce a `Nat` to `size_t` range, for the sites where C multiplies or
adds `size_t` values. -/
def u64 (n : Nat) : Nat := n % U64

/-- C `size_t` subtraction `a - b`, which wraps modulo `2^64`. -/
def u64sub (a b : Nat) : Nat := (a + U64 - b % U64) % U64

/-- The C constant `SIZE_MAX`, used by the defer registry as a list
terminator and failure value. -/
def SIZE_MAX : Nat := U64 - 1

/-- Source line 9: magic tag of freed memory. -/
def ARENAIMP_MAGIC_FREE : Nat := 0x65657266

/-- Source line 10: magic tag of a live arena. -/
def ARENAIMP_MAGIC_ARENA : Nat := 0x6e657261

/-- Source line 11: magic tag of a deferred-allocation header. -/
def ARENAIMP_MAGIC_DEFER : Nat := 0x66656461

/-- Source lines 14-16: `arenaimp_size_classes`, bucket sizes in units of
the quantization step. -/
def arenaimp_size_classes : List Nat := [2, 3, 4, 6, 10, 14, 18, 26, 34, 56]

/-- Source lines 18-22: `arenaimp_size_to_class`, the quantized-size to
size-class index table (57 entries, indices 0 to 56). -/
def arenaimp_size_to_class : List Nat :=
  [0, 0, 0, 1, 2, 3, 3, 4, 4, 4, 4, 5, 5, 5, 5, 6, 6, 6, 6,
   7, 7, 7, 7, 7, 7, 7, 7, 8, 8, 8, 8, 8, 8, 8, 8, 9, 9, 9,
   9, 9, 9, 9, 9, 9, 9, 9, 9, 9, 9, 9, 9, 9, 9, 9, 9, 9, 9]

/-- Source line 25. -/
def ARENAIMP_SIZECLASS_QUANTIZATION : Nat := 8

/-- Source line 26: the number of size classes. -/
def ARENAIMP_NUM_SIZECLASSES : Nat := 10

/-- Source line 27: the largest small footprint (56 * 8). -/
def ARENAIMP_LARGEST_SIZECLASS : Nat := 448

/-- Source line 28. -/
def ARENAIMP_FIRST_PAGE_SIZE : Nat := 512

/-- Source line 29. -/
def ARENAIMP_MAX_PAGE_SIZE : Nat := 4096

/-- LP64 size of `arenaimp_common_header` (a union of `uint64_t` and
`size_t`). -/
def SIZEOF_COMMON_HEADER : Nat := 8

/-- LP64 size of `arenaimp_small_header` (a union of the common header and
one pointer). -/
def SIZEOF_SMALL_HEADER : Nat := 8

/-- LP64 size of `arenaimp_big_header` (two pointers plus the common
header). -/
def SIZEOF_BIG_HEADER : Nat := 24

/-- LP64 size of `arenaimp_defer_header` (two `size_t` fields). -/
def SIZEOF_DEFER_HEADER : Nat := 16

/-- LP64 size of `arenaimp_defer_slot` (a function pointer, a data pointer
and two `size_t` indices). -/
def SIZEOF_DEFER_SLOT : Nat := 32

/-- LP64 size of `arenaimp_t`: eleven 8-byte scalar fields, two 24-byte
ring sentinels, ten 8-byte free-list heads and the padded `bool`. -/
def SIZEOF_ARENAIMP_T : Nat := 224

/-- LP64 size of a pointer; `arena_create` allocates
`sizeof(a) + ARENAIMP_EXTRA_SIZE` bytes for a root arena where `a` is a
pointer variable (source line 134). -/
def SIZEOF_PTR : Nat := 8

/-- Byte offset of the `big_head` sentinel inside `arenaimp_t`. -/
def OFF_BIG_HEAD : Nat := 88

/-- Byte offset of the `big_tail` sentinel inside `arenaimp_t`. -/
def OFF_BIG_TAIL : Nat := 112

/-- Source line 89. -/
def ARENAIMP_INIT_SIZE : Nat := 512

/-- Source line 90: `512 - sizeof(arenaimp_t)`. -/
def ARENAIMP_EXTRA_SIZE : Nat := 512 - SIZEOF_ARENAIMP_T

/-- The quantized size of a footprint: `(n + 7) / 8` as computed on source
line 326 and line 414. -/
def arenaimp_quantize (n : Nat) : Nat :=
  (n + ARENAIMP_SIZECLASS_QUANTIZATION - 1) / ARENAIMP_SIZECLASS_QUANTIZATION

/-- The size-class index of a footprint of `n` bytes, as the source
computes it: index the `arenaimp_size_to_class` table by the quantized
size (source lines 326-327). -/
def sizeToClass (n : Nat) : Nat :=
  (arenaimp_size_to_class.getD (arenaimp_quantize n) 0)

/-- The bucket size in bytes of size class `c` (source line 334):
`arenaimp_size_classes[c] * ARENAIMP_SIZECLASS_QUANTIZATION`. -/
def classBucketBytes (c : Nat) : Nat :=
  (arenaimp_size_classes.getD c 0) * ARENAIMP_SIZECLASS_QUANTIZATION

theorem sizeToClass_le_succ : ∀ n, n < 448 → sizeToClass n ≤ sizeToClass (n + 1) := by
  decide

/-- Monotonicity of the class assignment on the small range. -/
theorem sizeToClass_mono (a b : Nat) (hab : a ≤ b) (hb : b ≤ 448) :
    sizeToClass a ≤ sizeToClass b := by
  induction b with
  | zero => simp [Nat.le_zero.mp hab]
  | succ k ih =>
    rcases Nat.lt_or_ge a (k + 1) with h | h
    · exact le_trans (ih (Nat.lt_succ_iff.mp h) (le_trans (Nat.le_succ k) hb))
        (sizeToClass_le_succ k hb)
    · have hak : a = k + 1 := le_antisymm hab h
      rw [hak]

/-- C4: for every small footprint the table picks the smallest bucket at
least as large as the 8-byte-rounded request, the class index is monotone
in the request, and bucket sizes strictly increase with class index. -/
theorem size_class_table_correct :
    (∀ n, n < 449 →
      8 * arenaimp_quantize n ≤ classBucketBytes (sizeToClass n) ∧
      n ≤ classBucketBytes (sizeToClass n) ∧
      (∀ c, c < sizeToClass n → classBucketBytes c < 8 * arenaimp_quantize n)) ∧
    (∀ a b, a ≤ b → b ≤ 448 → sizeToClass a ≤ sizeToClass b) ∧
    (∀ c, c < ARENAIMP_NUM_SIZECLASSES - 1 →
      classBucketBytes c < classBucketBytes (c + 1)) := by
  refine ⟨?_, fun a b => sizeToClass_mono a b, ?_⟩
  · decide
  · decide

/-- Witness for C4 at a concrete input: a 33-byte footprint quantizes to
5 eighths, lands in class 3 whose bucket is 48 bytes, and the classes of
20 and 100 bytes are ordered. -/
theorem size_class_table_correct_witness :
    sizeToClass 33 = 3 ∧ classBucketBytes 3 = 48 ∧
    8 * arenaimp_quantize 33 ≤ classBucketBytes (sizeToClass 33) ∧
    sizeToClass 20 ≤ sizeToClass 100 := by
  refine ⟨by decide, by decide, (size_class_table_correct.1 33 (by decide)).1,
    size_class_table_correct.2.1 20 100 (by decide) (by decide)⟩

/-! ### Generic growable lists (`arenaimp_alist`, source lines 459-522)

The element type is abstracted to `α` and the buffer behind `data` to a
`List α` whose length is the buffer's capacity in elements.  Only the
first `count` entries are live. -/

/-- The C `arenaimp_alist` pair of a data buffer and a live count. -/
structure AListM (α : Type) where
  data : List α
  count : Nat
  deriving DecidableEq, Repr

/-- Source lines 510-522: `alist_remove_size`.  The guard mirrors
`if (index >= list->count) return false` (the preceding `assert` fires on
the same condition).  `memcpy(dst, src, size)` with
`src = data + index * size` and `dst = data + last * size` copies the
element at `index` over the element at `last`. -/
def alist_remove_size [Inhabited α] (list : AListM α) (index : Nat) :
    Bool × AListM α :=
  if index ≥ list.count then (false, list)
  else
    let last := list.count - 1
    let list1 : AListM α := { list with count := last }
    if index ≠ last then
      (true, { list1 with data := list1.data.set last (list1.data.getD index default) })
    else
      (true, list1)

/-! ### The world state

Pointers are `Nat` addresses (`0` is NULL).  `malloc` is a bump allocator
over `nextAddr` governed by the `mallocOk` oracle.  Each header shape of
the C lives in its own address-keyed association list; the byte payload
behind an allocation is a `List Nat`.  The defer-slot array that the C
stores behind the arena's `defers` pointer is modelled twice: `defers_ptr`
is the pointer value itself (handed to `arealloc` when the table grows)
and `defers` holds the pointed-to slot records, which survive the table's
reallocation exactly because `arealloc` copies the old capacity's bytes. -/

/-- A finalizer function pointer: the internal child-freeing finalizer
`arenaimp_defer_free_arena` (source lines 102-105), or an arbitrary
caller-supplied function identified by a tag, whose invocation is recorded
in the trace and touches no modelled state. -/
inductive DeferFn
  | freeArena
  | user (tag : Nat)
  deriving DecidableEq, Repr

/-- Source lines 37-41: `arenaimp_defer_slot`.  `fn = none` models a NULL
function pointer. -/
structure DeferSlot where
  fn : Option DeferFn
  user : Nat
  prev : Nat
  next : Nat
  deriving DecidableEq, Repr

/-- The all-zero slot, the content fresh table space holds before the
registration code fills it in. -/
def DeferSlot.zero : DeferSlot := ⟨none, 0, 0, 0⟩

/-- Source lines 60-64: `arenaimp_big_header` plus the payload bytes that
follow it. -/
structure BigHdr where
  prev : Nat
  next : Nat
  capacity : Nat
  content : List Nat
  deriving DecidableEq, Repr

/-- Source lines 53-58: `arenaimp_small_header`, a union that is a
capacity (plus payload) while the block is live and a free-list link once
released. -/
inductive SmallHdr
  | active (capacity : Nat) (content : List Nat)
  | freed (next_free : Nat)
  deriving DecidableEq, Repr

/-- Source lines 66-86: `arenaimp_t`. -/
structure ArenaS where
  magic : Nat
  page : Nat
  pos : Nat
  size : Nat
  parent : Nat
  parent_slot : Nat
  next_size : Nat
  defers_ptr : Nat
  defers : List DeferSlot
  num_defers : Nat
  active_defer_head : Nat
  free_defer_head : Nat
  big_head_prev : Nat
  big_head_next : Nat
  big_tail_prev : Nat
  big_tail_next : Nat
  next_free : List Nat
  allocated : Bool
  deriving DecidableEq, Repr

/-- A zeroed `arenaimp_t`, the state `memset(a, 0, sizeof(arenaimp_t))`
leaves behind. -/
def ArenaS.zero : ArenaS :=
  { magic := 0, page := 0, pos := 0, size := 0, parent := 0, parent_slot := 0,
    next_size := 0, defers_ptr := 0, defers := [], num_defers := 0,
    active_defer_head := 0, free_defer_head := 0,
    big_head_prev := 0, big_head_next := 0, big_tail_prev := 0, big_tail_next := 0,
    next_free := List.replicate ARENAIMP_NUM_SIZECLASSES 0, allocated := false }

/-- Observable events of a run. -/
inductive Event
  | freeEv (addr : Nat)
  | finRun (tag user : Nat)
  | teardown (addr : Nat)
  | mallocFail
  deriving DecidableEq, Repr

/-- The world: every modelled heap object, the bump allocator, and the
run's observables. -/
structure World where
  arenas : List (Nat × ArenaS)
  bigs : List (Nat × BigHdr)
  smalls : List (Nat × SmallHdr)
  commons : List (Nat × (Nat × List Nat))
  deferHdrs : List (Nat × (Nat × Nat))
  nextAddr : Nat
  mallocOk : Nat → Bool
  mallocCount : Nat
  trace : List Event
  crashed : Bool
  assertOk : Bool

/-- Insert or overwrite one key of an association list. -/
def setAssoc {β : Type} (m : List (Nat × β)) (k : Nat) (v : β) : List (Nat × β) :=
  match m with
  | [] => [(k, v)]
  | (k1, v1) :: t => if k1 = k then (k, v) :: t else (k1, v1) :: setAssoc t k v

/-- Drop one key of an association list. -/
def removeAssoc {β : Type} (m : List (Nat × β)) (k : Nat) : List (Nat × β) :=
  m.filter (fun p => p.1 != k)

/-- Record undefined behaviour (a wild read or write, a call through a
NULL function pointer, exhausted fuel). -/
def World.crash (w : World) : World := { w with crashed := true }

/-- NDEBUG-style `assert`: record a violated assertion and continue. -/
def World.assertCheck (w : World) (b : Bool) : World :=
  if b then w else { w with assertOk := false }

/-- Append one event to the trace. -/
def World.emit (w : World) (e : Event) : World := { w with trace := w.trace ++ [e] }

/-- Read an `arenaimp_t` at an address. -/
def getArena (w : World) (a : Nat) : Option ArenaS := w.arenas.lookup a

/-- Write an `arenaimp_t` at an address. -/
def setArena (w : World) (a : Nat) (s : ArenaS) : World :=
  { w with arenas := setAssoc w.arenas a s }

/-- Update the `arenaimp_t` at an address; a missing arena is a wild
write. -/
def updArena (w : World) (a : Nat) (f : ArenaS → ArenaS) : World :=
  match w.arenas.lookup a with
  | some s => setArena w a (f s)
  | none => w.crash

/-- The C library `malloc`: a fresh address when the oracle grants the
call, NULL otherwise. -/
def mallocW (w : World) (sz : Nat) : Option Nat × World :=
  if w.mallocOk w.mallocCount then
    (some w.nextAddr,
     { w with nextAddr := w.nextAddr + u64 sz, mallocCount := w.mallocCount + 1 })
  else
    (none, { w with mallocCount := w.mallocCount + 1,
                    trace := w.trace ++ [Event.mallocFail] })

/-- The C library `free`: record the release and drop the block's header
entry. -/
def freeW (w : World) (p : Nat) : World :=
  { w with trace := w.trace ++ [Event.freeEv p],
           bigs := removeAssoc w.bigs p,
           commons := removeAssoc w.commons p }

/-! ### Byte-level memory access

`readMem`/`writeMem` locate the allocation whose payload contains the
addressed range; carved small blocks live inside big page payloads, so
small headers are consulted first (they are the more specific view of the
same bytes, matching what the C's single flat memory holds there). -/

/-- Replace `new.length` bytes of `old` starting at `off`. -/
def overwrite (old : List Nat) (off : Nat) (new : List Nat) : List Nat :=
  old.take off ++ new ++ old.drop (off + new.length)

/-- Find the active small allocation whose payload contains
`[ptr, ptr+len)`. -/
def findSmall (w : World) (ptr len : Nat) : Option (Nat × Nat × List Nat) :=
  match w.smalls.find? (fun kv =>
      match kv.2 with
      | SmallHdr.active c _ =>
        decide (kv.1 + SIZEOF_SMALL_HEADER ≤ ptr) &&
        decide (ptr + len ≤ kv.1 + SIZEOF_SMALL_HEADER + c)
      | SmallHdr.freed _ => false) with
  | some (k, SmallHdr.active c cont) => some (k, c, cont)
  | _ => none

/-- Find the big allocation whose payload contains `[ptr, ptr+len)`. -/
def findBig (w : World) (ptr len : Nat) : Option (Nat × BigHdr) :=
  w.bigs.find? (fun kv =>
    decide (kv.1 + SIZEOF_BIG_HEADER ≤ ptr) &&
    decide (ptr + len ≤ kv.1 + SIZEOF_BIG_HEADER + kv.2.capacity))

/-- Find the unmanaged allocation whose payload contains
`[ptr, ptr+len)`. -/
def findCommon (w : World) (ptr len : Nat) : Option (Nat × Nat × List Nat) :=
  match w.commons.find? (fun kv =>
      decide (kv.1 + SIZEOF_COMMON_HEADER ≤ ptr) &&
      decide (ptr + len ≤ kv.1 + SIZEOF_COMMON_HEADER + kv.2.1)) with
  | some (k, c, cont) => some (k, c, cont)
  | none => none

/-- Read `n` payload bytes at `ptr`. -/
def readMem (w : World) (ptr n : Nat) : List Nat :=
  match findSmall w ptr n with
  | some (k, _, cont) => (cont.drop (ptr - (k + SIZEOF_SMALL_HEADER))).take n
  | none =>
    match findBig w ptr n with
    | some (k, b) => (b.content.drop (ptr - (k + SIZEOF_BIG_HEADER))).take n
    | none =>
      match findCommon w ptr n with
      | some (k, _, cont) => (cont.drop (ptr - (k + SIZEOF_COMMON_HEADER))).take n
      | none => List.replicate n 0

/-- Write payload bytes at `ptr`; a write not contained in any live
allocation is a wild write. -/
def writeMem (w : World) (ptr : Nat) (bytes : List Nat) : World :=
  match findSmall w ptr bytes.length with
  | some (k, c, cont) =>
    { w with smalls := (setAssoc w.smalls k
        (SmallHdr.active c (overwrite cont (ptr - (k + SIZEOF_SMALL_HEADER)) bytes))) }
  | none =>
    match findBig w ptr bytes.length with
    | some (k, b) =>
      { w with bigs := (setAssoc w.bigs k
          { b with content := overwrite b.content (ptr - (k + SIZEOF_BIG_HEADER)) bytes }) }
    | none =>
      match findCommon w ptr bytes.length with
      | some (k, c, cont) =>
        { w with commons := (setAssoc w.commons k
            (c, overwrite cont (ptr - (k + SIZEOF_COMMON_HEADER)) bytes)) }
      | none => w.crash

/-- The C `memset(ptr, 0, n)`; zeroing through a NULL pointer is
undefined behaviour for `n > 0`. -/
def memsetW (w : World) (ptr n : Nat) : World :=
  if ptr = 0 then (if n = 0 then w else w.crash)
  else writeMem w ptr (List.replicate n 0)

/-- Source lines 93-100: `arenaimp_copy` — `memcpy` from a caller buffer,
or `memset` to zero when no buffer is given. -/
def arenaimp_copy (w : World) (dst : Nat) (src : Option (List Nat)) (size : Nat) : World :=
  match src with
  | some d =>
    if dst = 0 then (if size = 0 then w else w.crash)
    else writeMem w dst (d.take size ++ List.replicate (size - d.length) 0)
  | none => memsetW w dst size

/-- Read the `arenaimp_common_header` capacity word sitting right before
`ptr`, as `afree`, `aalloc_capacity_bytes` and `arealloc_size` do.  A
released small block yields its free-list link instead (the C's union
pun), a big block yields the last word of its header, and an address with
no header before it yields nothing (a wild read). -/
def readCapacityAt (w : World) (ptr : Nat) : Option Nat :=
  match w.smalls.lookup (ptr - SIZEOF_SMALL_HEADER) with
  | some (SmallHdr.active c _) => some c
  | some (SmallHdr.freed nf) => some nf
  | none =>
    match w.bigs.lookup (ptr - SIZEOF_BIG_HEADER) with
    | some b => some b.capacity
    | none =>
      match w.commons.lookup (ptr - SIZEOF_COMMON_HEADER) with
      | some (c, _) => some c
      | none => none

/-! ### Big-ring link access

A `prev`/`next` pointer of the big ring addresses either a big header or
one of the two sentinel headers embedded in an `arenaimp_t` at offsets
88 (`big_head`) and 112 (`big_tail`). -/

/-- What a big-ring pointer addresses. -/
inductive Loc
  | headOf (a : Nat)
  | tailOf (a : Nat)
  | bigAt (p : Nat)
  | bad
  deriving DecidableEq, Repr

/-- Resolve a big-ring pointer. -/
def resolveBig (w : World) (p : Nat) : Loc :=
  if OFF_BIG_HEAD ≤ p ∧ (w.arenas.lookup (p - OFF_BIG_HEAD)).isSome then
    Loc.headOf (p - OFF_BIG_HEAD)
  else if OFF_BIG_TAIL ≤ p ∧ (w.arenas.lookup (p - OFF_BIG_TAIL)).isSome then
    Loc.tailOf (p - OFF_BIG_TAIL)
  else if (w.bigs.lookup p).isSome then Loc.bigAt p
  else Loc.bad

/-- Read the `prev` field of the big header at `p`. -/
def loadBigPrev (w : World) (p : Nat) : Nat :=
  match resolveBig w p with
  | Loc.headOf a => match getArena w a with | some s => s.big_head_prev | none => 0
  | Loc.tailOf a => match getArena w a with | some s => s.big_tail_prev | none => 0
  | Loc.bigAt q => match w.bigs.lookup q with | some b => b.prev | none => 0
  | Loc.bad => 0

/-- Read the `next` field of the big header at `p`. -/
def loadBigNext (w : World) (p : Nat) : Nat :=
  match resolveBig w p with
  | Loc.headOf a => match getArena w a with | some s => s.big_head_next | none => 0
  | Loc.tailOf a => match getArena w a with | some s => s.big_tail_next | none => 0
  | Loc.bigAt q => match w.bigs.lookup q with | some b => b.next | none => 0
  | Loc.bad => 0

/-- Write the `prev` field of the big header at `p`. -/
def storeBigPrev (w : World) (p v : Nat) : World :=
  match resolveBig w p with
  | Loc.headOf a => updArena w a (fun s => { s with big_head_prev := v })
  | Loc.tailOf a => updArena w a (fun s => { s with big_tail_prev := v })
  | Loc.bigAt q =>
    match w.bigs.lookup q with
    | some b => { w with bigs := setAssoc w.bigs q { b with prev := v } }
    | none => w.crash
  | Loc.bad => w.crash

/-- Write the `next` field of the big header at `p`. -/
def storeBigNext (w : World) (p v : Nat) : World :=
  match resolveBig w p with
  | Loc.headOf a => updArena w a (fun s => { s with big_head_next := v })
  | Loc.tailOf a => updArena w a (fun s => { s with big_tail_next := v })
  | Loc.bigAt q =>
    match w.bigs.lookup q with
    | some b => { w with bigs := setAssoc w.bigs q { b with next := v } }
    | none => w.crash
  | Loc.bad => w.crash

/-- A section of the big-object ring: starting behind the header at `p`
with forward pointer `c`, following `next` visits exactly the nodes of `l`
and then reaches `t`, and every visited node's `prev` points at its
predecessor. -/
def IsRingSeg (w : World) (t : Nat) : Nat → Nat → List Nat → Prop
  | _, c, [] => c = t
  | p, c, q :: l => c = q ∧ loadBigPrev w q = p ∧
      IsRingSeg w t q (loadBigNext w q) l

/-- C8's invariant for the big-object ring of the arena at `A`: the live
big blocks `l` form a well-linked chain from the `big_head` sentinel to the
`big_tail` sentinel, the tail's `next` closes the circle back to the head,
the tail's `prev` names the last node, and the side conditions keep every
pointer of the ring resolving to the header it was stored through (no
address doubles as a sentinel, a small header or a stale node). -/
structure BigRing (w : World) (A : Nat) (a : ArenaS) (l : List Nat) : Prop where
  harena : getArena w A = some a
  hAnz : A ≠ 0
  hbA : ∀ k, (w.arenas.lookup k).isSome → k + SIZEOF_ARENAIMP_T ≤ w.nextAddr
  hbB : ∀ q, (w.bigs.lookup q).isSome → q < w.nextAddr
  hbS : ∀ k, (w.smalls.lookup k).isSome → k < w.nextAddr
  ha24 : w.arenas.lookup (A + OFF_BIG_TAIL - OFF_BIG_HEAD) = none
  hnd : l.Nodup
  hmem : ∀ q, q ∈ l → (w.bigs.lookup q).isSome ∧
      w.arenas.lookup (q - OFF_BIG_HEAD) = none ∧
      w.arenas.lookup (q - OFF_BIG_TAIL) = none ∧
      w.smalls.lookup (q + SIZEOF_BIG_HEADER - SIZEOF_SMALL_HEADER) = none ∧
      ARENAIMP_LARGEST_SIZECLASS - SIZEOF_SMALL_HEADER <
        ((w.bigs.lookup q).getD ⟨0, 0, 0, []⟩).capacity
  hseg : IsRingSeg w (A + OFF_BIG_TAIL) (A + OFF_BIG_HEAD) a.big_head_next l
  htn : a.big_tail_next = A + OFF_BIG_HEAD
  htp : ∀ x, l.getLast? = some x → a.big_tail_prev = x

/-! ### The allocator operations -/

/-- Source lines 107-119: `arenaimp_init`. -/
def arenaimp_init (w : World) (a : Nat) : World :=
  updArena w a (fun s =>
    { s with magic := ARENAIMP_MAGIC_ARENA,
             active_defer_head := SIZE_MAX,
             free_defer_head := SIZE_MAX,
             big_head_next := a + OFF_BIG_TAIL,
             big_tail_next := a + OFF_BIG_HEAD,
             next_size := ARENAIMP_FIRST_PAGE_SIZE / 2,
             page := a,
             pos := SIZEOF_ARENAIMP_T,
             size := ARENAIMP_INIT_SIZE })

/-- Source lines 308-377: `aalloc_uninit_size`.  The `fuel` bounds the
self-recursion of the page-growth path (depth 2 always suffices: the
grown page's footprint exceeds the largest size class, so the inner call
takes the non-recursive big branch — the `assert` before the call states
exactly this). -/
def aalloc_uninit_size : Nat → World → Nat → Nat → Nat → Option Nat × World
  | 0, w, _, _, _ => (none, w.crash)
  | fuel + 1, w, arena, size, count =>
    let total := u64 (size * count)
    if arena = 0 then
      let total_alloc := u64 (SIZEOF_COMMON_HEADER + total)
      match mallocW w total_alloc with
      | (none, w1) => (none, w1)
      | (some alloc, w1) =>
        (some (alloc + SIZEOF_COMMON_HEADER),
         { w1 with commons := (setAssoc w1.commons alloc (total, List.replicate total 0)) })
    else
      match getArena w arena with
      | none => (none, w.crash)
      | some a =>
        let w := w.assertCheck (a.magic == ARENAIMP_MAGIC_ARENA)
        let total_small := u64 (SIZEOF_SMALL_HEADER + total)
        if total_small ≤ ARENAIMP_LARGEST_SIZECLASS then
          let quantized := arenaimp_quantize total_small
          let sizeclass := arenaimp_size_to_class.getD quantized 0
          let next := a.next_free.getD sizeclass 0
          if next ≠ 0 then
            match w.smalls.lookup next with
            | some (SmallHdr.freed nf) =>
              let w1 := updArena w arena (fun s =>
                { s with next_free := s.next_free.set sizeclass nf })
              let w2 := { w1 with smalls := (setAssoc w1.smalls next
                (SmallHdr.active total (List.replicate total 0))) }
              (some (next + SIZEOF_SMALL_HEADER), w2)
            | _ => (none, w.crash)
          else
            let chunk := (arenaimp_size_classes.getD sizeclass 0) *
              ARENAIMP_SIZECLASS_QUANTIZATION
            let pos := a.pos
            if chunk ≤ u64sub a.size pos then
              let allocAddr := a.page + pos
              let w1 := updArena w arena (fun s => { s with pos := pos + chunk })
              let w2 := { w1 with smalls := (setAssoc w1.smalls allocAddr
                (SmallHdr.active total (List.replicate total 0))) }
              (some (allocAddr + SIZEOF_SMALL_HEADER), w2)
            else
              let next_size0 := u64 (a.next_size * 2)
              let next_size :=
                if ARENAIMP_MAX_PAGE_SIZE < next_size0 then ARENAIMP_MAX_PAGE_SIZE
                else next_size0
              let w1 := updArena w arena (fun s => { s with next_size := next_size })
              let page_size := if next_size < total_small then total_small else next_size
              let w1 := w1.assertCheck (decide (ARENAIMP_LARGEST_SIZECLASS < page_size))
              match aalloc_uninit_size fuel w1 arena 1 page_size with
              | (none, w2) => (none, w2)
              | (some new_page, w2) =>
                let w3 := { w2 with smalls := (setAssoc w2.smalls new_page
                  (SmallHdr.active total (List.replicate total 0))) }
                match getArena w3 arena with
                | none => (none, w3.crash)
                | some a3 =>
                  let w4 :=
                    if u64sub a3.size a3.pos < u64sub page_size total_small then
                      updArena w3 arena (fun s =>
                        { s with page := new_page, pos := total_small, size := page_size })
                    else w3
                  (some (new_page + SIZEOF_SMALL_HEADER), w4)
        else
          match mallocW w (u64 (SIZEOF_BIG_HEADER + total)) with
          | (none, w1) => (none, w1.assertCheck false)
          | (some alloc, w1) =>
            match getArena w1 arena with
            | none => (none, w1.crash)
            | some a1 =>
              let next := a1.big_head_next
              let w2 := { w1 with bigs := (setAssoc w1.bigs alloc
                ⟨arena + OFF_BIG_HEAD, next, total, List.replicate total 0⟩) }
              let w3 := storeBigPrev w2 next alloc
              let w4 := updArena w3 arena (fun s => { s with big_head_next := alloc })
              (some (alloc + SIZEOF_BIG_HEADER), w4)

/-- Source lines 379-384: `aalloc_size`.  The `memset` runs on whatever
`aalloc_uninit_size` returned, without a NULL check. -/
def aalloc_size (fuel : Nat) (w : World) (arena size count : Nat) : Option Nat × World :=
  match aalloc_uninit_size fuel w arena size count with
  | (ptr, w1) => (ptr, memsetW w1 (ptr.getD 0) (u64 (size * count)))

/-- Source lines 399-425: `afree`.  The big branch unlinks the node from
the ring after the neighbour sanity assertion; it does not call the
system `free` (faithful to the source). -/
def afree (w : World) (arena ptr : Nat) : World :=
  if ptr = 0 then w
  else if arena = 0 then freeW w (ptr - SIZEOF_COMMON_HEADER)
  else
    match readCapacityAt w ptr with
    | none => w.crash
    | some capacity =>
      if capacity ≤ ARENAIMP_LARGEST_SIZECLASS - SIZEOF_SMALL_HEADER then
        match getArena w arena with
        | none => w.crash
        | some a =>
          let total_small := capacity + SIZEOF_SMALL_HEADER
          let quantized := arenaimp_quantize total_small
          let sizeclass := arenaimp_size_to_class.getD quantized 0
          let w1 := { w with smalls := (setAssoc w.smalls (ptr - SIZEOF_SMALL_HEADER)
            (SmallHdr.freed (a.next_free.getD sizeclass 0))) }
          updArena w1 arena (fun s =>
            { s with next_free := s.next_free.set sizeclass (ptr - SIZEOF_SMALL_HEADER) })
      else
        let alloc := ptr - SIZEOF_BIG_HEADER
        let prev := loadBigPrev w alloc
        let next := loadBigNext w alloc
        let w := w.assertCheck
          ((loadBigNext w prev == alloc) && (loadBigPrev w next == alloc))
        storeBigPrev (storeBigNext w prev next) next prev

/-- Source lines 427-432: `aalloc_capacity_bytes`. -/
def aalloc_capacity_bytes (w : World) (ptr : Nat) : Nat :=
  if ptr = 0 then 0 else (readCapacityAt w ptr).getD 0

/-- Source lines 434-457: `arealloc_size`. -/
def arealloc_size (fuel : Nat) (w : World) (arena size count ptr : Nat) :
    Option Nat × World :=
  if ptr = 0 then
    if count = 0 then (none, w)
    else aalloc_uninit_size fuel w arena size count
  else
    match readCapacityAt w ptr with
    | none => (none, w.crash)
    | some capacity =>
      let total := u64 (size * count)
      if total ≤ capacity then (some ptr, w)
      else
        let new_cap0 := u64 (capacity * 2)
        let new_cap := if new_cap0 ≤ total then total else new_cap0
        match aalloc_uninit_size fuel w arena 1 new_cap with
        | (none, w1) => (none, w1)
        | (some new_ptr, w1) =>
          let w2 := writeMem w1 new_ptr (readMem w1 ptr capacity)
          (some new_ptr, afree w2 arena ptr)

/-- Source lines 257-267: the common tail of `arena_ext_defer` that fills
the chosen slot and splices it at the head of the active list. -/
def arenaimp_splice_active (w : World) (arena slot : Nat) (fn : Option DeferFn)
    (data : Nat) : Nat × World :=
  match getArena w arena with
  | none => (SIZE_MAX, w.crash)
  | some a =>
    let head := a.active_defer_head
    let w1 := updArena w arena (fun s =>
      { s with defers := s.defers.set slot ⟨fn, data, SIZE_MAX, head⟩ })
    let w2 :=
      if head ≠ SIZE_MAX then
        updArena w1 arena (fun s =>
          { s with defers := (s.defers.set head
            { (s.defers.getD head DeferSlot.zero) with prev := slot }) })
      else w1
    (slot, updArena w2 arena (fun s => { s with active_defer_head := slot }))

/-- Source lines 239-268: `arena_ext_defer`. -/
def arena_ext_defer (fuel : Nat) (w : World) (arena : Nat) (fn : Option DeferFn)
    (data : Nat) : Nat × World :=
  match getArena w arena with
  | none => (SIZE_MAX, w.crash)
  | some a =>
    let w := w.assertCheck (a.magic == ARENAIMP_MAGIC_ARENA)
    let w := w.assertCheck fn.isSome
    if a.free_defer_head ≠ SIZE_MAX then
      let slot := a.free_defer_head
      let w1 := updArena w arena (fun s =>
        { s with free_defer_head := (s.defers.getD slot DeferSlot.zero).next })
      arenaimp_splice_active w1 arena slot fn data
    else
      match arealloc_size fuel w arena SIZEOF_DEFER_SLOT (a.num_defers + 1) a.defers_ptr with
      | (none, w1) => (SIZE_MAX, w1)
      | (some defers1, w1) =>
        let slot := a.num_defers
        let w2 := updArena w1 arena (fun s =>
          { s with defers_ptr := defers1,
                   defers := s.defers ++ [DeferSlot.zero],
                   num_defers := s.num_defers + 1 })
        arenaimp_splice_active w2 arena slot fn data

/-- Source lines 292-306: the unlink-and-recycle tail of
`arena_ext_cancel`, shared by the `run_defer` and plain variants. -/
def arena_ext_cancel_unlink (w : World) (arena slot : Nat) : World :=
  match getArena w arena with
  | none => w.crash
  | some a =>
    let ds := a.defers.getD slot DeferSlot.zero
    let w1 :=
      if ds.prev ≠ SIZE_MAX then
        updArena w arena (fun s =>
          { s with defers := (s.defers.set ds.prev
            { (s.defers.getD ds.prev DeferSlot.zero) with next := ds.next }) })
      else
        updArena w arena (fun s => { s with active_defer_head := ds.next })
    let w2 :=
      if ds.next ≠ SIZE_MAX then
        updArena w1 arena (fun s =>
          { s with defers := (s.defers.set ds.next
            { (s.defers.getD ds.next DeferSlot.zero) with prev := ds.prev }) })
      else w1
    updArena w2 arena (fun s =>
      { s with defers := (s.defers.set slot ⟨none, 0, SIZE_MAX, s.free_defer_head⟩),
               free_defer_head := slot })

mutual

/-- Source lines 162-193: `arena_free`.  The defer walk, the big-object
sweep and the re-entrant teardown of children all live here; `fuel`
bounds loop iterations and teardown depth. -/
def arena_free (fuel : Nat) (w : World) (arenaAddr : Nat) : World :=
  match fuel with
  | 0 => w.crash
  | fuel + 1 =>
    if arenaAddr = 0 then w
    else
      match getArena w arenaAddr with
      | none => w.crash
      | some a =>
        let w := w.assertCheck (a.magic == ARENAIMP_MAGIC_ARENA)
        let w := (updArena w arenaAddr (fun s =>
          { s with magic := ARENAIMP_MAGIC_FREE })).emit (Event.teardown arenaAddr)
        let w := arenaimp_run_defers fuel w arenaAddr a.active_defer_head
        match getArena w arenaAddr with
        | none => w.crash
        | some a1 =>
          let w := arenaimp_free_bigs fuel w a1.big_head_next (arenaAddr + OFF_BIG_TAIL)
          match getArena w arenaAddr with
          | none => w.crash
          | some a2 =>
            if a2.allocated then
              if a2.parent ≠ 0 then
                let w1 := arena_ext_cancel fuel w a2.parent a2.parent_slot false
                afree w1 a2.parent arenaAddr
              else freeW w arenaAddr
            else w
termination_by structural fuel

/-- The defer walk of `arena_free` (source lines 169-174).  The slot's
finalizer is invoked first; `defers[slot].next` is read only afterwards,
exactly as the loop body does. -/
def arenaimp_run_defers (fuel : Nat) (w : World) (arenaAddr slot : Nat) : World :=
  match fuel with
  | 0 => w.crash
  | fuel + 1 =>
    if slot = SIZE_MAX then w
    else
      match getArena w arenaAddr with
      | none => w.crash
      | some a =>
        let ds := a.defers.getD slot DeferSlot.zero
        let w1 :=
          match ds.fn with
          | none => w.crash
          | some DeferFn.freeArena => arena_free fuel w ds.user
          | some (DeferFn.user tag) => w.emit (Event.finRun tag ds.user)
        match getArena w1 arenaAddr with
        | none => w1.crash
        | some a1 =>
          arenaimp_run_defers fuel w1 arenaAddr ((a1.defers.getD slot DeferSlot.zero).next)
termination_by structural fuel

/-- The big-object sweep of `arena_free` (source lines 176-182): walk from
`big_head.next` to the tail sentinel, capturing `next` before freeing. -/
def arenaimp_free_bigs (fuel : Nat) (w : World) (alloc last : Nat) : World :=
  match fuel with
  | 0 => w.crash
  | fuel + 1 =>
    if alloc = last then w
    else arenaimp_free_bigs fuel (freeW w alloc) (loadBigNext w alloc) last
termination_by structural fuel

/-- Source lines 281-306: `arena_ext_cancel`. -/
def arena_ext_cancel (fuel : Nat) (w : World) (arena slot : Nat) (run_defer : Bool) :
    World :=
  match fuel with
  | 0 => w.crash
  | fuel + 1 =>
    match getArena w arena with
    | none => w.crash
    | some a =>
      let w := w.assertCheck (a.magic == ARENAIMP_MAGIC_ARENA)
      let w1 :=
        if run_defer then
          match (a.defers.getD slot DeferSlot.zero).fn with
          | none => w.crash
          | some DeferFn.freeArena => arena_free fuel w (a.defers.getD slot DeferSlot.zero).user
          | some (DeferFn.user tag) => w.emit (Event.finRun tag (a.defers.getD slot DeferSlot.zero).user)
        else w
      arena_ext_cancel_unlink w1 arena slot
termination_by structural fuel

end

/-- Source lines 195-217: `arena_defer_size`. -/
def arena_defer_size (fuel : Nat) (w : World) (arena : Nat) (fn : Option DeferFn)
    (size : Nat) (data : Option (List Nat)) : Option Nat × World :=
  match getArena w arena with
  | none => (none, w.crash)
  | some a =>
    let w := w.assertCheck (a.magic == ARENAIMP_MAGIC_ARENA)
    let total := SIZEOF_DEFER_HEADER + size
    match aalloc_uninit_size fuel w arena total 1 with
    | (none, w1) => (none, w1.assertCheck false)
    | (some dh, w1) =>
      let copy := dh + SIZEOF_DEFER_HEADER
      let w2 := arenaimp_copy w1 copy data size
      match arena_ext_defer fuel w2 arena fn copy with
      | (slot, w3) =>
        if slot = SIZE_MAX then (none, afree w3 arena dh)
        else
          (some copy,
           { w3 with deferHdrs := (setAssoc w3.deferHdrs dh (ARENAIMP_MAGIC_DEFER, slot)) })

/-- Source lines 121-142: `arena_create`.  The root branch reproduces the
source's `malloc(sizeof(a) + ARENAIMP_EXTRA_SIZE)` where `a` is a pointer
variable, so a root arena's backing block is `8 + 288` bytes. -/
def arena_create (fuel : Nat) (w : World) (parent : Nat) : Option Nat × World :=
  if parent ≠ 0 then
    match aalloc_size fuel w parent (SIZEOF_ARENAIMP_T + ARENAIMP_EXTRA_SIZE) 1 with
    | (none, w1) => (none, w1)
    | (some a, w1) =>
      let w2 := setArena w1 a ArenaS.zero
      let w3 := updArena w2 a (fun s => { s with parent := parent })
      match arena_ext_defer fuel w3 parent (some DeferFn.freeArena) a with
      | (slot, w4) =>
        let w5 := updArena w4 a (fun s => { s with parent_slot := slot })
        if slot = SIZE_MAX then (none, afree w5 parent a)
        else
          let w6 := updArena w5 a (fun s => { s with allocated := true })
          (some a, arenaimp_init w6 a)
  else
    match mallocW w (SIZEOF_PTR + ARENAIMP_EXTRA_SIZE) with
    | (none, w1) => (none, w1)
    | (some a, w1) =>
      let w2 := setArena w1 a ArenaS.zero
      let w3 := updArena w2 a (fun s => { s with allocated := true })
      (some a, arenaimp_init w3 a)

/-- Source lines 144-160: `arena_init`.  On a failed registration the
source calls `afree(parent, a)` on the caller-provided storage. -/
def arena_init (fuel : Nat) (w : World) (arenaAddr parent : Nat) : Bool × World :=
  let w := setArena w arenaAddr ArenaS.zero
  if parent ≠ 0 then
    let w1 := updArena w arenaAddr (fun s => { s with parent := parent })
    match arena_ext_defer fuel w1 parent (some DeferFn.freeArena) arenaAddr with
    | (slot, w2) =>
      let w3 := updArena w2 arenaAddr (fun s => { s with parent_slot := slot })
      if slot = SIZE_MAX then (false, afree w3 parent arenaAddr)
      else
        let w4 := updArena w3 arenaAddr (fun s => { s with allocated := false })
        (true, arenaimp_init w4 arenaAddr)
  else
    let w4 := updArena w arenaAddr (fun s => { s with allocated := false })
    (true, arenaimp_init w4 arenaAddr)

/-- The world before any call: no objects, the bump allocator at a
nonzero base, every `malloc` granted. -/
def emptyWorld : World :=
  { arenas := [], bigs := [], smalls := [], commons := [], deferHdrs := [],
    nextAddr := 1024, mallocOk := fun _ => true, mallocCount := 0,
    trace := [], crashed := false, assertOk := true }


/-! ### Concrete scenarios -/

/-- A freshly created root arena (the result of `arena_create(NULL)` on the
empty world). -/
def rootC : Option Nat × World := arena_create 8 emptyWorld 0

/-- The root arena's address. -/
def rootA : Nat := rootC.1.getD 0

/-- The world after creating the root arena. -/
def rootW : World := rootC.2

/-- The root arena's record, for instantiating the defer-slot partition
invariant on a concrete state. -/
def c7a : ArenaS := (getArena rootW rootA).getD ArenaS.zero

/-- A concrete one-arena world for instantiating the big-ring invariant:
the arena record as `arenaimp_init` leaves it. -/
def c8a : ArenaS :=
  { ArenaS.zero with
      magic := ARENAIMP_MAGIC_ARENA
      active_defer_head := SIZE_MAX
      free_defer_head := SIZE_MAX
      big_head_next := (1024 + OFF_BIG_TAIL)
      big_tail_next := (1024 + OFF_BIG_HEAD)
      next_size := (ARENAIMP_FIRST_PAGE_SIZE / 2)
      page := 1024
      pos := SIZEOF_ARENAIMP_T
      size := ARENAIMP_INIT_SIZE }

/-- The world holding only the arena `c8a` at address 1024. -/
def c8w : World :=
  { arenas := [(1024, c8a)], bigs := [], smalls := [], commons := [],
    deferHdrs := [], nextAddr := 2048, mallocOk := fun _ => true,
    mallocCount := 0, trace := [], crashed := false, assertOk := true }

/-- C5 step 1: allocate 20 bytes from the fresh root arena. -/
def c5w1 : Option Nat × World := aalloc_uninit_size 2 rootW rootA 20 1

/-- C5 step 2: release the 20-byte block. -/
def c5w2 : World := afree c5w1.2 rootA (c5w1.1.getD 0)

/-- C5 step 3: allocate 20 bytes again. -/
def c5w3 : Option Nat × World := aalloc_uninit_size 2 c5w2 rootA 20 1

/-- C5 step 4: allocate 5000 bytes. -/
def c5w4 : Option Nat × World := aalloc_uninit_size 2 c5w3.2 rootA 5000 1

/-- C5 step 5: release the 5000-byte block. -/
def c5w5 : World := afree c5w4.2 rootA (c5w4.1.getD 0)

/-- C5: on a fresh root arena a 20-byte block is served from the page
(small path, no big node), releasing and re-allocating 20 bytes returns
the same address with no page growth and the stored capacity rewritten to
the exact request, a 5000-byte block goes through the big-object path and
is linked into the ring, and its release leaves the ring's head and tail
sentinels adjacent again. -/
theorem small_reuse_big_ring_scenario :
    (c5w1.1 = some 1256 ∧
      c5w1.2.smalls.lookup 1248 = some (SmallHdr.active 20 (List.replicate 20 0)) ∧
      c5w1.2.bigs = []) ∧
    (c5w3.1 = c5w1.1 ∧
      (getArena c5w3.2 rootA).map ArenaS.pos = (getArena c5w2 rootA).map ArenaS.pos ∧
      (getArena c5w3.2 rootA).map ArenaS.page = (getArena c5w2 rootA).map ArenaS.page ∧
      (getArena c5w3.2 rootA).map ArenaS.size = (getArena c5w2 rootA).map ArenaS.size ∧
      c5w3.2.nextAddr = c5w2.nextAddr ∧
      readCapacityAt c5w3.2 1256 = some 20) ∧
    (c5w4.1 = some 1344 ∧
      (c5w4.2.bigs.lookup 1320).map BigHdr.capacity = some 5000 ∧
      (getArena c5w4.2 rootA).map ArenaS.big_head_next = some 1320 ∧
      (c5w4.2.bigs.lookup 1320).map BigHdr.next = some (rootA + OFF_BIG_TAIL) ∧
      (c5w4.2.bigs.lookup 1320).map BigHdr.prev = some (rootA + OFF_BIG_HEAD) ∧
      (getArena c5w4.2 rootA).map ArenaS.big_tail_prev = some 1320) ∧
    ((getArena c5w5 rootA).map ArenaS.big_head_next = some (rootA + OFF_BIG_TAIL) ∧
      (getArena c5w5 rootA).map ArenaS.big_tail_prev = some (rootA + OFF_BIG_HEAD) ∧
      c5w5.crashed = false ∧
      c5w5.assertOk = true) := by
  decide

/-- C2 instantiation data: the first registration, finalizer A (tag 101,
payload 11), on the fresh root arena. -/
def c2w1 : Nat × World := arena_ext_defer 4 rootW rootA (some (DeferFn.user 101)) 11

/-- The second registration, finalizer B (tag 102, payload 12). -/
def c2w2 : Nat × World := arena_ext_defer 4 c2w1.2 rootA (some (DeferFn.user 102)) 12

/-- The third registration, finalizer C (tag 103, payload 13). -/
def c2w3 : Nat × World := arena_ext_defer 4 c2w2.2 rootA (some (DeferFn.user 103)) 13

/-- C7 counterexample, setup: a child arena created on the root parent;
its registration occupies slot 0 of the root's defer table and holds the
internal child-freeing finalizer. -/
def c7cw : Option Nat × World := arena_create 8 rootW rootA

/-- C7 counterexample: `arena_ext_cancel` on the child's slot with
`run_defer = true`.  The finalizer tears the child down, and the child's
`arena_free` re-enters `arena_ext_cancel` on the very same slot; the outer
call then unlinks the already-recycled slot a second time and pushes it
onto the free list again. -/
def c7bad : World := arena_ext_cancel 8 c7cw.2 rootA 0 true

/-- The root arena's registry after the double unlink: slot 0 is the free
head and its `next` points back at slot 0. -/
def c7bada : ArenaS := (getArena c7bad rootA).getD ArenaS.zero

/-- C1 scenario: a root arena with two children created through the
parented-creation path, then teardown of the parent. -/
def c1w1 : Option Nat × World := arena_create 8 rootW rootA

/-- The first child's address. -/
def c1c1 : Nat := c1w1.1.getD 0

/-- The second child's creation. -/
def c1w2 : Option Nat × World := arena_create 8 c1w1.2 rootA

/-- The second child's address. -/
def c1c2 : Nat := c1w2.1.getD 0

/-- The world after tearing down the parent. -/
def c1end : World := arena_free 16 c1w2.2 rootA

/-- C1 evidence: tearing down a parent with two children destroys only the
most recently created child.  The second child's finalizer re-enters
`arena_ext_cancel` on the parent, which moves the slot being visited onto
the free list and rewrites its `next` to the free-list terminator; the
walk then reads `defers[slot].next` after the call and stops, so the first
child's finalizer never runs (its magic tag is still the live-arena tag)
and its backing block is reclaimed by the parent's big-object sweep
without any teardown.  The re-entrant cancel also trips the parent's
magic assertion, since the parent already marked itself freed. -/
theorem parent_teardown_skips_first_child :
    (getArena c1end c1c1).map ArenaS.magic = some ARENAIMP_MAGIC_ARENA ∧
    (getArena c1end c1c2).map ArenaS.magic = some ARENAIMP_MAGIC_FREE ∧
    c1end.trace =
      [Event.teardown rootA, Event.teardown c1c2,
       Event.freeEv (c1c1 - SIZEOF_BIG_HEADER), Event.freeEv rootA] ∧
    (c1end.trace.count (Event.teardown c1c1)) = 0 ∧
    c1end.assertOk = false := by
  decide

/-- C9 evidence: removing index 0 from the three-element list `[10, 20, 30]`
leaves the live prefix `[10, 20]` — the `memcpy` copies the element at
`index` over the element at `last`, so the indexed element survives and
the last element is what disappears, the reverse of swap-with-last. -/
theorem alist_remove_wrong_direction :
    alist_remove_size (AListM.mk [10, 20, 30] 3) 0 =
      (true, AListM.mk [10, 20, 10] 2) ∧
    (alist_remove_size (AListM.mk [10, 20, 30] 3) 0).2.data.take 2 ≠ [30, 20] := by
  decide

/-- C3 scenario: the fresh root arena with every further `malloc` denied. -/
def c3fail : World := { rootW with mallocOk := fun _ => false }

/-- C3 helper: exhaust the root arena's initial page with `n` 40-byte
allocations (each takes a 48-byte chunk; six of them consume the 288 free
bytes of the first page). -/
def c3allocN : Nat → World → World
  | 0, w => w
  | n + 1, w => c3allocN n (aalloc_uninit_size 2 w rootA 40 1).2

/-- C3 scenario: `arena_init` into caller storage at address 900000 with a
parent whose page is full and whose `malloc` is denied, so the deferred
registration fails. -/
def c3init : Bool × World :=
  arena_init 4 { c3allocN 6 rootW with mallocOk := fun _ => false } 900000 rootA

/-- C3 evidence: when the underlying `malloc` fails, `aalloc_uninit_size`
itself returns NULL with no undefined behaviour, but `aalloc_size` then
runs `memset(NULL, 0, 5000)` on that result (source line 382 has no NULL
check), so the failure does not propagate as a clean NULL.  Likewise the
failure path of a parented `arena_init` calls `afree(parent, a)` on
caller-provided storage that was never allocated from the parent, a wild
header read, rather than leaving caller state unchanged. -/
theorem alloc_failure_memset_null_crash :
    (aalloc_uninit_size 2 c3fail rootA 5000 1).1 = none ∧
    (aalloc_uninit_size 2 c3fail rootA 5000 1).2.crashed = false ∧
    (aalloc_size 2 c3fail rootA 5000 1).1 = none ∧
    (aalloc_size 2 c3fail rootA 5000 1).2.crashed = true ∧
    c3init.1 = false ∧
    c3init.2.crashed = true := by
  decide


/-! ### Association-list lemmas -/

theorem lookup_setAssoc {β : Type} (m : List (Nat × β)) (k i : Nat) (v : β) :
    (setAssoc m k v).lookup i = if i = k then some v else m.lookup i := by
  induction m with
  | nil =>
    by_cases h : i = k
    · simp [setAssoc, List.lookup, h]
    · simp [setAssoc, List.lookup, beq_eq_false_iff_ne.mpr h, h]
  | cons hd t ih =>
    obtain ⟨k1, v1⟩ := hd
    by_cases hk : k1 = k
    · subst hk
      by_cases h : i = k1
      · simp [setAssoc, List.lookup, h]
      · simp [setAssoc, List.lookup, beq_eq_false_iff_ne.mpr h, h]
    · by_cases h : i = k1
      · subst h
        have hik : ¬(i = k) := fun he => hk (he ▸ rfl)
        simp [setAssoc, List.lookup, hk, hik]
      · simp [setAssoc, List.lookup, hk, beq_eq_false_iff_ne.mpr h, ih]

theorem mem_setAssoc {β : Type} (m : List (Nat × β)) (k : Nat) (v : β)
    (p : Nat × β) (hp : p ∈ setAssoc m k v) : p ∈ m ∨ p = (k, v) := by
  induction m with
  | nil => simpa [setAssoc] using hp
  | cons hd t ih =>
    obtain ⟨k1, v1⟩ := hd
    by_cases hk : k1 = k
    · subst hk
      rcases (by simpa [setAssoc] using hp : p = (k1, v) ∨ p ∈ t) with h | h
      · exact Or.inr h
      · exact Or.inl (List.mem_cons_of_mem _ h)
    · rcases (by simpa [setAssoc, hk] using hp : p = (k1, v1) ∨ p ∈ setAssoc t k v) with h | h
      · exact Or.inl (by simp [h])
      · rcases ih h with h2 | h2
        · exact Or.inl (List.mem_cons_of_mem _ h2)
        · exact Or.inr h2

theorem lookup_removeAssoc {β : Type} (m : List (Nat × β)) (k i : Nat) :
    (removeAssoc m k).lookup i = if i = k then none else m.lookup i := by
  induction m with
  | nil =>
    by_cases h : i = k
    · simp [removeAssoc, List.lookup, h]
    · simp [removeAssoc, List.lookup, h]
  | cons hd t ih =>
    obtain ⟨k1, v1⟩ := hd
    by_cases hk : k1 = k
    · subst hk
      have hb : (k1 != k1) = false := by simp
      by_cases h : i = k1
      · subst h
        simpa [removeAssoc, List.filter, hb] using ih
      · have ht : (i == k1) = false := beq_eq_false_iff_ne.mpr h
        simpa [removeAssoc, List.filter, hb, List.lookup, ht] using ih
    · have hb : (k1 != k) = true := by simpa using hk
      by_cases h : i = k1
      · subst h
        have hik : ¬(i = k) := fun he => hk (he ▸ rfl)
        simp [removeAssoc, List.filter, hb, List.lookup, hik]
      · have ht : (i == k1) = false := beq_eq_false_iff_ne.mpr h
        simpa [removeAssoc, List.filter, hb, List.lookup, ht] using ih

/-! ### The slot table as linked lists (claim C7)

The two lists threaded through the slot table are abstracted to index
lists: `IsActiveChain d p h l` states that starting from head `h` and
expected back-pointer `p`, following `next` fields visits exactly the
indices of `l` and ends at the `SIZE_MAX` terminator, with every `prev`
field pointing at its predecessor; `IsFreeChain` is the singly-linked
variant. -/

/-- Read slot `i` of a table (the C `defers[i]`). -/
def slotAt (d : List DeferSlot) (i : Nat) : DeferSlot := d.getD i DeferSlot.zero

/-- The doubly-linked active list shape. -/
def IsActiveChain (d : List DeferSlot) : Nat → Nat → List Nat → Prop
  | _, h, [] => h = SIZE_MAX
  | p, h, i :: l => h = i ∧ i < d.length ∧ (slotAt d i).prev = p ∧
      IsActiveChain d i (slotAt d i).next l

/-- The singly-linked free list shape. -/
def IsFreeChain (d : List DeferSlot) : Nat → List Nat → Prop
  | h, [] => h = SIZE_MAX
  | h, i :: l => h = i ∧ i < d.length ∧ IsFreeChain d (slotAt d i).next l

/-- A walk segment of the active list: visiting `l` from back-pointer `p`
and head `h` leaves the walk at back-pointer `q` and head `h2`. -/
def IsActiveSeg (d : List DeferSlot) : Nat → Nat → List Nat → Nat → Nat → Prop
  | p, h, [], q, h2 => q = p ∧ h2 = h
  | p, h, i :: l, q, h2 => h = i ∧ i < d.length ∧ (slotAt d i).prev = p ∧
      IsActiveSeg d i (slotAt d i).next l q h2

/-- C7's partition: the two chains cover every index below `num_defers`,
are duplicate-free, and share no index. -/
structure DeferChains (a : ArenaS) (al fl : List Nat) : Prop where
  len : a.defers.length = a.num_defers
  active : IsActiveChain a.defers SIZE_MAX a.active_defer_head al
  free : IsFreeChain a.defers a.free_defer_head fl
  ndal : al.Nodup
  ndfl : fl.Nodup
  cover : ∀ i, i < a.num_defers ↔ (i ∈ al ∨ i ∈ fl)
  disj : ∀ i, i ∈ al → i ∉ fl

theorem isActiveChain_congr (d d1 : List DeferSlot) (p h : Nat) (l : List Nat)
    (hch : IsActiveChain d p h l) (hlen : d.length ≤ d1.length)
    (hag : ∀ i, i ∈ l → slotAt d1 i = slotAt d i) :
    IsActiveChain d1 p h l := by
  induction l generalizing p h with
  | nil => exact hch
  | cons i t ih =>
    obtain ⟨h1, h2, h3, h4⟩ := hch
    have hi : slotAt d1 i = slotAt d i := hag i (List.mem_cons_self i t)
    exact ⟨h1, lt_of_lt_of_le h2 hlen, hi ▸ h3,
      hi ▸ ih i (slotAt d i).next h4 (fun j hj => hag j (List.mem_cons_of_mem _ hj))⟩

theorem isFreeChain_congr (d d1 : List DeferSlot) (h : Nat) (l : List Nat)
    (hch : IsFreeChain d h l) (hlen : d.length ≤ d1.length)
    (hag : ∀ i, i ∈ l → slotAt d1 i = slotAt d i) :
    IsFreeChain d1 h l := by
  induction l generalizing h with
  | nil => exact hch
  | cons i t ih =>
    obtain ⟨h1, h2, h3⟩ := hch
    have hi : slotAt d1 i = slotAt d i := hag i (List.mem_cons_self i t)
    exact ⟨h1, lt_of_lt_of_le h2 hlen, hi ▸ ih (slotAt d i).next h3
      (fun j hj => hag j (List.mem_cons_of_mem _ hj))⟩

theorem slotAt_set_self (d : List DeferSlot) (i : Nat) (x : DeferSlot)
    (h : i < d.length) : slotAt (d.set i x) i = x := by
  simp [slotAt, List.getD, List.getElem?_set_self, h]

theorem slotAt_set_other (d : List DeferSlot) (i j : Nat) (x : DeferSlot)
    (h : j ≠ i) : slotAt (d.set i x) j = slotAt d j := by
  simp [slotAt, List.getD, List.getElem?_set_ne (fun he => h he.symm)]

theorem slotAt_append (d : List DeferSlot) (x : DeferSlot) (j : Nat)
    (h : j < d.length) : slotAt (d ++ [x]) j = slotAt d j := by
  simp [slotAt, List.getD, List.getElem?_append, h]

theorem slotAt_append_zeroext (d : List DeferSlot) (j : Nat) :
    slotAt (d ++ [DeferSlot.zero]) j = slotAt d j := by
  by_cases h : j < d.length
  · exact slotAt_append d DeferSlot.zero j h
  · by_cases h2 : j = d.length
    · subst h2
      simp [slotAt, List.getD, List.getElem?_concat_length,
        List.getElem?_eq_none (le_refl d.length)]
    · have h3 : (d ++ [DeferSlot.zero]).length ≤ j := by
        simp
        omega
      simp [slotAt, List.getD, List.getElem?_eq_none h3,
        List.getElem?_eq_none (show d.length ≤ j by omega)]

theorem chain_members_lt (d : List DeferSlot) (p h : Nat) (l : List Nat)
    (hch : IsActiveChain d p h l) : ∀ i, i ∈ l → i < d.length := by
  induction l generalizing p h with
  | nil => intro i hi; cases hi
  | cons i t ih =>
    obtain ⟨_, h2, _, h4⟩ := hch
    intro j hj
    rcases List.mem_cons.mp hj with rfl | hj
    · exact h2
    · exact ih i (slotAt d i).next h4 j hj

theorem free_members_lt (d : List DeferSlot) (h : Nat) (l : List Nat)
    (hch : IsFreeChain d h l) : ∀ i, i ∈ l → i < d.length := by
  induction l generalizing h with
  | nil => intro i hi; cases hi
  | cons i t ih =>
    obtain ⟨_, h2, h3⟩ := hch
    intro j hj
    rcases List.mem_cons.mp hj with rfl | hj
    · exact h2
    · exact ih (slotAt d i).next h3 j hj

/-! ### Allocation operations do not touch the defer registry

`arena_ext_defer` grows its slot table through `arealloc`, which runs the
full allocator; the partition proof needs that none of those operations
modify any arena's defer fields. -/

/-- The defer-registry view of an arena. -/
def dview (a : ArenaS) : List DeferSlot × Nat × Nat × Nat :=
  (a.defers, a.num_defers, a.active_defer_head, a.free_defer_head)

/-- Two worlds agree on every arena's defer registry. -/
def DPres (w w1 : World) : Prop :=
  ∀ A, (getArena w1 A).map dview = (getArena w A).map dview

theorem dpres_refl (w : World) : DPres w w := fun _ => rfl

theorem dpres_comp {w w1 w2 : World} (h1 : DPres w w1) (h2 : DPres w1 w2) :
    DPres w w2 := fun A => (h2 A).trans (h1 A)

theorem getArena_eq_of_arenas_eq {w w1 : World} (h : w1.arenas = w.arenas) (A : Nat) :
    getArena w1 A = getArena w A := by simp [getArena, h]

theorem dpres_of_arenas_eq {w w1 : World} (h : w1.arenas = w.arenas) : DPres w w1 :=
  fun A => by rw [getArena_eq_of_arenas_eq h]

theorem dview_lookup_upd {w : World} {B : Nat} {f : ArenaS → ArenaS}
    (hf : ∀ s, dview (f s) = dview s) (A : Nat) :
    (getArena (updArena w B f) A).map dview = (getArena w A).map dview := by
  unfold updArena
  cases hB : w.arenas.lookup B with
  | none => rfl
  | some s =>
    simp only [setArena, getArena]
    rw [lookup_setAssoc]
    by_cases hAB : A = B
    · subst hAB
      simp [getArena, hB, hf]
    · simp [getArena, hAB]

theorem dpres_updArena {w : World} {B : Nat} {f : ArenaS → ArenaS}
    (hf : ∀ s, dview (f s) = dview s) : DPres w (updArena w B f) :=
  fun A => dview_lookup_upd hf A

theorem dpres_assertCheck (w : World) (b : Bool) : DPres w (w.assertCheck b) := by
  unfold World.assertCheck
  split
  · exact dpres_refl w
  · exact dpres_of_arenas_eq rfl

theorem dpres_storeBigPrev (w : World) (p v : Nat) : DPres w (storeBigPrev w p v) := by
  unfold storeBigPrev
  split
  · exact dpres_updArena (fun s => rfl)
  · exact dpres_updArena (fun s => rfl)
  · split
    · exact dpres_of_arenas_eq rfl
    · exact dpres_of_arenas_eq rfl
  · exact dpres_of_arenas_eq rfl

theorem dpres_storeBigNext (w : World) (p v : Nat) : DPres w (storeBigNext w p v) := by
  unfold storeBigNext
  split
  · exact dpres_updArena (fun s => rfl)
  · exact dpres_updArena (fun s => rfl)
  · split
    · exact dpres_of_arenas_eq rfl
    · exact dpres_of_arenas_eq rfl
  · exact dpres_of_arenas_eq rfl

theorem dpres_mallocW (w : World) (sz : Nat) : DPres w (mallocW w sz).2 := by
  unfold mallocW
  split
  · exact dpres_of_arenas_eq rfl
  · exact dpres_of_arenas_eq rfl

theorem dpres_mallocW_eq {w w1 : World} {sz : Nat} {r : Option Nat}
    (h : mallocW w sz = (r, w1)) : DPres w w1 := by
  have h2 := dpres_mallocW w sz
  rw [h] at h2
  exact h2

theorem dpres_writeMem (w : World) (p : Nat) (bytes : List Nat) :
    DPres w (writeMem w p bytes) := by
  unfold writeMem
  split
  · exact dpres_of_arenas_eq rfl
  · split
    · exact dpres_of_arenas_eq rfl
    · split
      · exact dpres_of_arenas_eq rfl
      · exact dpres_of_arenas_eq rfl

theorem dpres_memsetW (w : World) (p n : Nat) : DPres w (memsetW w p n) := by
  unfold memsetW
  split
  · split
    · exact dpres_refl w
    · exact dpres_of_arenas_eq rfl
  · exact dpres_writeMem w p _

theorem dpres_mk {w w1 : World} {b : List (Nat × BigHdr)}
    {s : List (Nat × SmallHdr)} {c : List (Nat × (Nat × List Nat))}
    {d : List (Nat × (Nat × Nat))} {na : Nat} {mo : Nat → Bool} {mc : Nat}
    {t : List Event} {cr ao : Bool} (h : DPres w w1) :
    DPres w (World.mk w1.arenas b s c d na mo mc t cr ao) := by
  intro A
  simpa [getArena] using h A

theorem dpres_crash_after {w w1 : World} (h : DPres w w1) : DPres w w1.crash :=
  dpres_comp h (dpres_of_arenas_eq rfl)

theorem dpres_assert_after {w w1 : World} {b : Bool} (h : DPres w w1) :
    DPres w (w1.assertCheck b) :=
  dpres_comp h (dpres_assertCheck w1 b)

theorem dpres_updArena_after {w w1 : World} {B : Nat} {f : ArenaS → ArenaS}
    (hf : ∀ s, dview (f s) = dview s) (h : DPres w w1) :
    DPres w (updArena w1 B f) :=
  dpres_comp h (dpres_updArena hf)

theorem dpres_sbp_after {w w1 : World} {p v : Nat} (h : DPres w w1) :
    DPres w (storeBigPrev w1 p v) :=
  dpres_comp h (dpres_storeBigPrev w1 p v)

theorem dpres_sbn_after {w w1 : World} {p v : Nat} (h : DPres w w1) :
    DPres w (storeBigNext w1 p v) :=
  dpres_comp h (dpres_storeBigNext w1 p v)

theorem dpres_writeMem_after {w w1 : World} {p : Nat} {bytes : List Nat}
    (h : DPres w w1) : DPres w (writeMem w1 p bytes) :=
  dpres_comp h (dpres_writeMem w1 p bytes)

theorem dpres_memsetW_after {w w1 : World} {p n : Nat} (h : DPres w w1) :
    DPres w (memsetW w1 p n) :=
  dpres_comp h (dpres_memsetW w1 p n)

theorem dpres_aalloc_uninit (fuel : Nat) (w : World) (arena size count : Nat)
    (r : Option Nat) (w1 : World)
    (hE : aalloc_uninit_size fuel w arena size count = (r, w1)) : DPres w w1 := by
  induction fuel generalizing w arena size count r w1 with
  | zero =>
    simp only [aalloc_uninit_size] at hE
    cases hE
    apply dpres_crash_after
    exact dpres_refl w
  | succ fuel ih =>
    simp only [aalloc_uninit_size] at hE
    split at hE
    · split at hE
      next r2 w2 hm =>
        cases hE
        exact dpres_mallocW_eq hm
      next alloc w2 hm =>
        cases hE
        apply dpres_mk
        exact dpres_mallocW_eq hm
    · split at hE
      next =>
        cases hE
        apply dpres_crash_after
        exact dpres_refl w
      next a hA =>
        split at hE
        · split at hE
          · split at hE
            next nf hl =>
              cases hE
              apply dpres_mk
              apply dpres_updArena_after
              · intro s
                rfl
              · apply dpres_assert_after
                exact dpres_refl w
            next hl =>
              cases hE
              apply dpres_crash_after
              apply dpres_assert_after
              exact dpres_refl w
          · split at hE
            · cases hE
              apply dpres_mk
              apply dpres_updArena_after
              · intro s
                rfl
              · apply dpres_assert_after
                exact dpres_refl w
            · split at hE
              next r2 w2 hrec =>
                cases hE
                refine dpres_comp ?_ (ih _ arena 1 _ _ _ hrec)
                apply dpres_assert_after
                apply dpres_updArena_after
                · intro s
                  rfl
                · apply dpres_assert_after
                  exact dpres_refl w
              next new_page w2 hrec =>
                have hpre : DPres w w2 := by
                  refine dpres_comp ?_ (ih _ arena 1 _ _ _ hrec)
                  apply dpres_assert_after
                  apply dpres_updArena_after
                  · intro s
                    rfl
                  · apply dpres_assert_after
                    exact dpres_refl w
                repeat' split at hE
                all_goals cases hE
                all_goals
                  first
                    | exact dpres_mk hpre
                    | (apply dpres_crash_after
                       exact dpres_mk hpre)
                    | (apply dpres_updArena_after
                       case hf =>
                         intro s
                         rfl
                       case h => exact dpres_mk hpre)
        · split at hE
          next r2 w2 hm =>
            cases hE
            apply dpres_assert_after
            exact dpres_comp (dpres_assert_after (dpres_refl w)) (dpres_mallocW_eq hm)
          next alloc w2 hm =>
            have hpre : DPres w w2 :=
              dpres_comp (dpres_assert_after (dpres_refl w)) (dpres_mallocW_eq hm)
            split at hE
            next =>
              cases hE
              apply dpres_crash_after
              exact hpre
            next a1 h1 =>
              cases hE
              apply dpres_updArena_after
              · intro s
                rfl
              · apply dpres_sbp_after
                apply dpres_mk
                exact hpre

theorem dpres_afree (w : World) (arena ptr : Nat) : DPres w (afree w arena ptr) := by
  simp only [afree]
  split
  · exact dpres_refl w
  · split
    · exact dpres_of_arenas_eq rfl
    · split
      next =>
        apply dpres_crash_after
        exact dpres_refl w
      next capacity hc =>
        split
        · split
          next =>
            apply dpres_crash_after
            exact dpres_refl w
          next a hA =>
            apply dpres_updArena_after
            · intro s
              rfl
            · exact dpres_mk (dpres_refl w)
        · apply dpres_sbp_after
          apply dpres_sbn_after
          apply dpres_assert_after
          exact dpres_refl w

theorem dpres_arealloc (fuel : Nat) (w : World) (arena size count ptr : Nat)
    (r : Option Nat) (w1 : World)
    (hE : arealloc_size fuel w arena size count ptr = (r, w1)) : DPres w w1 := by
  simp only [arealloc_size] at hE
  split at hE
  · split at hE
    · cases hE
      exact dpres_refl w
    · exact dpres_aalloc_uninit _ _ _ _ _ _ _ hE
  · split at hE
    next =>
      cases hE
      apply dpres_crash_after
      exact dpres_refl w
    next capacity hc =>
      split at hE
      · cases hE
        exact dpres_refl w
      · split at hE
        next r2 w2 ha =>
          cases hE
          exact dpres_aalloc_uninit _ _ _ _ _ _ _ ha
        next new_ptr w2 ha =>
          cases hE
          exact dpres_comp (dpres_comp (dpres_aalloc_uninit _ _ _ _ _ _ _ ha)
            (dpres_writeMem _ _ _)) (dpres_afree _ _ _)

/-! ### Preservation of the slot-table partition (claim C7) -/

theorem getArena_assert (w : World) (b : Bool) (A : Nat) :
    getArena (w.assertCheck b) A = getArena w A := by
  unfold World.assertCheck
  split <;> rfl

theorem getArena_upd {w : World} {B : Nat} {s : ArenaS} (f : ArenaS → ArenaS)
    (h : getArena w B = some s) (A : Nat) :
    getArena (updArena w B f) A = if A = B then some (f s) else getArena w A := by
  have hb : w.arenas.lookup B = some s := h
  simp only [updArena, hb, setArena, getArena, lookup_setAssoc]

theorem getArena_upd_self {w : World} {B : Nat} {s : ArenaS} (f : ArenaS → ArenaS)
    (h : getArena w B = some s) :
    getArena (updArena w B f) B = some (f s) := by
  rw [getArena_upd f h B]
  simp

theorem free_chain_cons (d : List DeferSlot) (h : Nat) (l : List Nat)
    (hch : IsFreeChain d h l) (hne : h ≠ SIZE_MAX) :
    ∃ t, l = h :: t ∧ h < d.length ∧ IsFreeChain d (slotAt d h).next t := by
  cases l with
  | nil => exact absurd hch hne
  | cons i t =>
    obtain ⟨h1, h2, h3⟩ := hch
    subst h1
    exact ⟨t, rfl, h2, h3⟩

theorem free_chain_nil (d : List DeferSlot) (l : List Nat)
    (hch : IsFreeChain d SIZE_MAX l) (hlen : d.length < SIZE_MAX) : l = [] := by
  cases l with
  | nil => rfl
  | cons i t =>
    obtain ⟨h1, h2, _⟩ := hch
    omega

theorem active_chain_cons (d : List DeferSlot) (p h : Nat) (l : List Nat)
    (hch : IsActiveChain d p h l) (hne : h ≠ SIZE_MAX) :
    ∃ t, l = h :: t ∧ h < d.length ∧ (slotAt d h).prev = p ∧
      IsActiveChain d h (slotAt d h).next t := by
  cases l with
  | nil => exact absurd hch hne
  | cons i t =>
    obtain ⟨h1, h2, h3, h4⟩ := hch
    subst h1
    exact ⟨t, rfl, h2, h3, h4⟩

theorem active_chain_nil (d : List DeferSlot) (p : Nat) (l : List Nat)
    (hch : IsActiveChain d p SIZE_MAX l) (hlen : d.length < SIZE_MAX) : l = [] := by
  cases l with
  | nil => rfl
  | cons i t =>
    obtain ⟨h1, h2, _, _⟩ := hch
    omega

/-- What the inlined splice tail of `arena_ext_defer` does to the slot
table: the chosen slot becomes the head of the active list, and every slot
outside the new active list is untouched. -/
theorem splice_active_spec (w : World) (A slot : Nat) (fn : Option DeferFn)
    (data : Nat) (a : ArenaS) (al : List Nat)
    (hA : getArena w A = some a)
    (hact : IsActiveChain a.defers SIZE_MAX a.active_defer_head al)
    (hnd : al.Nodup)
    (hslot : slot < a.defers.length)
    (hnotal : slot ∉ al)
    (hlen : a.defers.length < SIZE_MAX) :
    ∃ d2, (arenaimp_splice_active w A slot fn data).1 = slot ∧
      getArena (arenaimp_splice_active w A slot fn data).2 A =
        some { a with defers := d2, active_defer_head := slot } ∧
      d2.length = a.defers.length ∧
      IsActiveChain d2 SIZE_MAX slot (slot :: al) ∧
      (∀ j, j ∉ (slot :: al) → slotAt d2 j = slotAt a.defers j) ∧
      slotAt d2 slot = ⟨fn, data, SIZE_MAX, a.active_defer_head⟩ ∧
      (∀ j, j ≠ slot → (slotAt d2 j).fn = (slotAt a.defers j).fn ∧
        (slotAt d2 j).user = (slotAt a.defers j).user) := by
  unfold arenaimp_splice_active
  rw [hA]
  dsimp only
  by_cases hh : a.active_defer_head ≠ SIZE_MAX
  · obtain ⟨rest, hal, hhl, hhp, hhc⟩ :=
      active_chain_cons a.defers SIZE_MAX a.active_defer_head al hact hh
    have hhslot : a.active_defer_head ≠ slot := fun he =>
      hnotal (he ▸ (hal ▸ List.mem_cons_self _ _))
    have hslot_ne : slot ≠ a.active_defer_head := fun he => hhslot he.symm
    have hheadrest : a.active_defer_head ∉ rest := by
      have := hal ▸ hnd
      exact (List.nodup_cons.mp this).1
    have h1 := getArena_upd_self (fun s =>
      { s with defers := (s.defers.set slot ⟨fn, data, SIZE_MAX, a.active_defer_head⟩) }) hA
    have h2 := getArena_upd_self (fun s =>
      { s with defers := (s.defers.set a.active_defer_head
        { (s.defers.getD a.active_defer_head DeferSlot.zero) with prev := slot }) }) h1
    have h3 := getArena_upd_self (fun s => { s with active_defer_head := slot }) h2
    rw [if_pos hh]
    have hlen1 : (a.defers.set slot ⟨fn, data, SIZE_MAX, a.active_defer_head⟩).length =
        a.defers.length := by simp
    have hgd : (a.defers.set slot ⟨fn, data, SIZE_MAX, a.active_defer_head⟩).getD
        a.active_defer_head DeferSlot.zero = slotAt a.defers a.active_defer_head := by
      exact slotAt_set_other _ _ _ _ hhslot
    have hs2 : slotAt ((a.defers.set slot ⟨fn, data, SIZE_MAX, a.active_defer_head⟩).set
        a.active_defer_head
        { (a.defers.set slot ⟨fn, data, SIZE_MAX, a.active_defer_head⟩).getD
            a.active_defer_head DeferSlot.zero with prev := slot }) slot =
        (⟨fn, data, SIZE_MAX, a.active_defer_head⟩ : DeferSlot) := by
      rw [slotAt_set_other _ _ _ _ hslot_ne, slotAt_set_self _ _ _ hslot]
    have hs3 : slotAt ((a.defers.set slot ⟨fn, data, SIZE_MAX, a.active_defer_head⟩).set
        a.active_defer_head
        { (a.defers.set slot ⟨fn, data, SIZE_MAX, a.active_defer_head⟩).getD
            a.active_defer_head DeferSlot.zero with prev := slot }) a.active_defer_head =
        { slotAt a.defers a.active_defer_head with prev := slot } := by
      rw [slotAt_set_self _ _ _ (by simpa [hlen1] using hhl), hgd]
    refine ⟨_, rfl, h3, by simp, ?_, ?_, ?_, ?_⟩
    · rw [hal]
      refine ⟨rfl, by simpa using hslot, ?_, ?_⟩
      · rw [hs2]
      · rw [hs2]
        refine ⟨rfl, by simpa using hhl, ?_, ?_⟩
        · rw [hs3]
        · rw [hs3]
          refine isActiveChain_congr _ _ _ _ _ hhc (by simp) ?_
          intro j hj
          have hjslot : j ≠ slot := fun he =>
            hnotal (he ▸ (hal ▸ List.mem_cons_of_mem _ hj))
          have hjhead : j ≠ a.active_defer_head := fun he => hheadrest (he ▸ hj)
          rw [slotAt_set_other _ _ _ _ hjhead, slotAt_set_other _ _ _ _ hjslot]
    · intro j hj
      have hjslot : j ≠ slot := fun he => hj (he ▸ List.mem_cons_self _ _)
      have hjal : j ∉ al := fun hm => hj (List.mem_cons_of_mem _ hm)
      have hjhead : j ≠ a.active_defer_head := fun he =>
        hjal (he ▸ (hal ▸ List.mem_cons_self _ _))
      rw [slotAt_set_other _ _ _ _ hjhead, slotAt_set_other _ _ _ _ hjslot]
    · exact hs2
    · intro j hj
      by_cases hjh : j = a.active_defer_head
      · subst hjh
        rw [hs3]
        exact ⟨rfl, rfl⟩
      · rw [slotAt_set_other _ _ _ _ hjh, slotAt_set_other _ _ _ _ hj]
        exact ⟨rfl, rfl⟩
  · have hhM : a.active_defer_head = SIZE_MAX := not_not.mp hh
    have hal0 : al = [] := active_chain_nil _ _ _ (hhM ▸ hact) hlen
    rw [if_neg hh]
    have h1 := getArena_upd_self (fun s =>
      { s with defers := (s.defers.set slot ⟨fn, data, SIZE_MAX, a.active_defer_head⟩) }) hA
    have h3 := getArena_upd_self (fun s => { s with active_defer_head := slot }) h1
    subst hal0
    refine ⟨_, rfl, h3, by simp, ?_, ?_, ?_, ?_⟩
    · refine ⟨rfl, by simpa using hslot, ?_, ?_⟩
      · rw [slotAt_set_self _ _ _ hslot]
      · rw [slotAt_set_self _ _ _ hslot]
        exact hhM
    · intro j hj
      exact slotAt_set_other _ _ _ _ (fun he => hj (he ▸ List.mem_cons_self _ _))
    · exact slotAt_set_self _ _ _ hslot
    · intro j hj
      rw [slotAt_set_other _ _ _ _ hj]
      exact ⟨rfl, rfl⟩

theorem defer_chains_dview {a a1 : ArenaS} (h : dview a1 = dview a)
    {al fl : List Nat} (hch : DeferChains a al fl) : DeferChains a1 al fl := by
  obtain ⟨hd, hn, hah, hfh⟩ : a1.defers = a.defers ∧ a1.num_defers = a.num_defers ∧
      a1.active_defer_head = a.active_defer_head ∧
      a1.free_defer_head = a.free_defer_head := by
    simpa [dview, Prod.ext_iff] using h
  exact ⟨hd ▸ hn ▸ hch.len, hd ▸ hah ▸ hch.active, hd ▸ hfh ▸ hch.free,
    hch.ndal, hch.ndfl, hn ▸ hch.cover, hch.disj⟩

theorem dpres_getArena {w w1 : World} (h : DPres w w1) {A : Nat} {a : ArenaS}
    (hA : getArena w A = some a) :
    ∃ a1, getArena w1 A = some a1 ∧ dview a1 = dview a := by
  have h2 := h A
  rw [hA] at h2
  cases hg : getArena w1 A with
  | none => rw [hg] at h2; exact absurd h2 (by simp)
  | some a1 =>
    rw [hg] at h2
    exact ⟨a1, rfl, by simpa using h2⟩

/-- C7 preservation through `arena_ext_defer`: a failed registration
leaves the chains untouched; a successful one moves the chosen slot to the
head of the active list. -/
theorem ext_defer_partition (fuel : Nat) (w : World) (A : Nat) (fn : Option DeferFn)
    (data : Nat) (a : ArenaS) (al fl : List Nat) (slotr : Nat) (w1 : World)
    (hA : getArena w A = some a) (hch : DeferChains a al fl)
    (hsm : a.num_defers + 1 < SIZE_MAX)
    (hE : arena_ext_defer fuel w A fn data = (slotr, w1)) :
    ∃ a1, getArena w1 A = some a1 ∧
      ((slotr = SIZE_MAX ∧ DeferChains a1 al fl) ∨
       (slotr ≠ SIZE_MAX ∧ DeferChains a1 (slotr :: al) (fl.erase slotr) ∧
        a1.active_defer_head = slotr ∧
        (slotAt a1.defers slotr).fn = fn ∧
        (slotAt a1.defers slotr).user = data ∧
        (∀ j, j ≠ slotr → (slotAt a1.defers j).fn = (slotAt a.defers j).fn ∧
          (slotAt a1.defers j).user = (slotAt a.defers j).user))) := by
  have hnum : a.defers.length < SIZE_MAX := by
    rw [hch.len]
    omega
  simp only [arena_ext_defer] at hE
  rw [hA] at hE
  dsimp only at hE
  have hA0 : getArena ((w.assertCheck (a.magic == ARENAIMP_MAGIC_ARENA)).assertCheck
      fn.isSome) A = some a := by
    rw [getArena_assert, getArena_assert]
    exact hA
  split at hE
  · -- reuse a slot from the free list
    next hfh =>
    obtain ⟨fl1, hfl, hfhl, hflc⟩ := free_chain_cons _ _ _ hch.free hfh
    have hfh_notal : a.free_defer_head ∉ al := fun hm =>
      hch.disj _ hm (hfl ▸ List.mem_cons_self _ _)
    have h1 := getArena_upd_self (fun s =>
      { s with free_defer_head := (s.defers.getD a.free_defer_head DeferSlot.zero).next })
      hA0
    obtain ⟨d2, hr1, hr2, hlen2, hchain2, hstab, hslotc, hfnu⟩ :=
      splice_active_spec _ A a.free_defer_head fn data _ al h1
        hch.active hch.ndal hfhl hfh_notal hnum
    rw [hE] at hr1 hr2
    simp only [] at hr1 hr2
    subst hr1
    refine ⟨_, hr2, Or.inr ⟨?_, ⟨?_, ?_, ?_, ?_, ?_, ?_, ?_⟩, rfl,
      congrArg DeferSlot.fn hslotc, congrArg DeferSlot.user hslotc,
      fun j hj => hfnu j hj⟩⟩
    · intro he
      omega
    · simpa [hlen2] using hch.len
    · exact hchain2
    · -- free chain on the tail
      rw [hfl, List.erase_cons_head]
      refine isFreeChain_congr a.defers d2 _ _ hflc (le_of_eq hlen2.symm) ?_
      intro j hj
      have hjfl : j ∈ fl := hfl ▸ List.mem_cons_of_mem _ hj
      have hjal : j ∉ al := fun hm => hch.disj _ hm hjfl
      have hjfh : j ≠ a.free_defer_head := by
        intro he
        have := hfl ▸ hch.ndfl
        exact (List.nodup_cons.mp this).1 (he ▸ hj)
      exact (hstab j (by simp [hjal, hjfh])).symm ▸ rfl
    · exact List.nodup_cons.mpr ⟨hfh_notal, hch.ndal⟩
    · have := hfl ▸ hch.ndfl
      rw [hfl, List.erase_cons_head]
      exact (List.nodup_cons.mp this).2
    · intro i
      have hc := hch.cover i
      rw [hfl] at hc
      rw [hfl, List.erase_cons_head]
      simp only [List.mem_cons] at hc ⊢
      tauto
    · intro i hi
      rw [hfl, List.erase_cons_head]
      intro hif
      have hifl : i ∈ fl := hfl ▸ List.mem_cons_of_mem _ hif
      rcases List.mem_cons.mp hi with rfl | hial
      · have := hfl ▸ hch.ndfl
        exact (List.nodup_cons.mp this).1 hif
      · exact hch.disj _ hial hifl
  · -- grow the table
    next hfh =>
    have hfhM : a.free_defer_head = SIZE_MAX := not_not.mp hfh
    have hfl0 : fl = [] := free_chain_nil _ _ (hfhM ▸ hch.free) hnum
    split at hE
    next =>
      rename_i w2 harel
      injection hE with hE1 hE2
      subst hE1
      subst hE2
      have hdp : DPres w w2 :=
        dpres_comp (dpres_assert_after (dpres_assert_after (dpres_refl w)))
          (dpres_arealloc _ _ _ _ _ _ _ _ harel)
      obtain ⟨a1, hg1, hv1⟩ := dpres_getArena hdp hA
      exact ⟨a1, hg1, Or.inl ⟨rfl, defer_chains_dview hv1 hch⟩⟩
    next =>
      rename_i defers1 w2 harel
      have hdp : DPres w w2 :=
        dpres_comp (dpres_assert_after (dpres_assert_after (dpres_refl w)))
          (dpres_arealloc _ _ _ _ _ _ _ _ harel)
      obtain ⟨a2, hg2, hv2⟩ := dpres_getArena hdp hA
      obtain ⟨hd2, hn2, hah2, hfh2⟩ : a2.defers = a.defers ∧
          a2.num_defers = a.num_defers ∧
          a2.active_defer_head = a.active_defer_head ∧
          a2.free_defer_head = a.free_defer_head := by
        simpa [dview, Prod.ext_iff] using hv2
      have h3 := getArena_upd_self (fun s =>
        { s with defers_ptr := defers1,
                 defers := (s.defers ++ [DeferSlot.zero]),
                 num_defers := s.num_defers + 1 }) hg2
      have hact3 : IsActiveChain (a2.defers ++ [DeferSlot.zero]) SIZE_MAX
          a.active_defer_head al := by
        refine isActiveChain_congr a.defers _ _ _ _ hch.active ?_ ?_
        · rw [hd2]
          simp
        · intro j hj
          have hjl : j < a.defers.length := chain_members_lt _ _ _ _ hch.active j hj
          rw [← hd2] at hjl
          rw [hd2] at hjl ⊢
          exact slotAt_append _ _ _ hjl
      have hslot3 : a.num_defers < (a2.defers ++ [DeferSlot.zero]).length := by
        rw [hd2]
        simp [hch.len]
      have hnotal3 : a.num_defers ∉ al := fun hm => by
        have := (hch.cover a.num_defers).mpr (Or.inl hm)
        omega
      have hlen3 : (a2.defers ++ [DeferSlot.zero]).length < SIZE_MAX := by
        rw [hd2]
        simp [hch.len]
        omega
      obtain ⟨d2, hr1, hr2, hlen2, hchain2, hstab, hslotc, hfnu⟩ :=
        splice_active_spec _ A a.num_defers fn data _ al h3
          (by simpa [hah2] using hact3) hch.ndal hslot3 hnotal3 hlen3
      rw [hE] at hr1 hr2
      simp only [] at hr1 hr2
      subst hr1
      have hdstep : ∀ j, slotAt (a2.defers ++ [DeferSlot.zero]) j =
          slotAt a.defers j := by
        intro j
        rw [slotAt_append_zeroext, hd2]
      refine ⟨_, hr2, Or.inr ⟨?_, ⟨?_, ?_, ?_, ?_, ?_, ?_, ?_⟩, rfl,
        congrArg DeferSlot.fn hslotc, congrArg DeferSlot.user hslotc,
        fun j hj => ⟨(hfnu j hj).1.trans (congrArg DeferSlot.fn (hdstep j)),
          (hfnu j hj).2.trans (congrArg DeferSlot.user (hdstep j))⟩⟩⟩
      · intro he
        omega
      · simp only [hlen2]
        rw [hd2]
        simp [hch.len, hn2]
      · exact hchain2
      · rw [hfl0]
        simp only [List.erase_nil]
        show a2.free_defer_head = SIZE_MAX
        rw [hfh2]
        exact hfhM
      · exact List.nodup_cons.mpr ⟨hnotal3, hch.ndal⟩
      · rw [hfl0]
        simp
      · intro i
        have hc := hch.cover i
        rw [hfl0] at hc
        rw [hfl0]
        simp only [List.erase_nil, List.mem_cons, List.not_mem_nil, or_false] at hc ⊢
        rw [hn2]
        constructor
        · intro hlt
          rcases Nat.lt_succ_iff_lt_or_eq.mp hlt with h | h
          · exact Or.inr (hc.mp h)
          · exact Or.inl h
        · rintro (rfl | hial)
          · omega
          · have := hc.mpr hial
            omega
      · intro i hi
        rw [hfl0]
        simp

theorem chain_unlink_v (d d3 : List DeferSlot) (slot prevp : Nat) (v : List Nat)
    (hch : IsActiveChain d slot (slotAt d slot).next v)
    (hlen : d.length ≤ d3.length)
    (hhead : ∀ j0, v.head? = some j0 →
      (slotAt d3 j0).prev = prevp ∧ (slotAt d3 j0).next = (slotAt d j0).next)
    (htail : ∀ j, j ∈ v.tail → slotAt d3 j = slotAt d j) :
    IsActiveChain d3 prevp (slotAt d slot).next v := by
  cases v with
  | nil => exact hch
  | cons j0 v1 =>
    obtain ⟨h1, h2, _, h4⟩ := hch
    refine ⟨h1, lt_of_lt_of_le h2 hlen, (hhead j0 rfl).1, ?_⟩
    rw [(hhead j0 rfl).2]
    exact isActiveChain_congr d d3 _ _ _ h4 hlen htail

theorem chain_unlink_u (d d3 : List DeferSlot) (slot : Nat) :
    ∀ (u : List Nat) (p h : Nat) (v : List Nat),
    IsActiveChain d p h (u ++ slot :: v) →
    (u ++ slot :: v).Nodup →
    d.length ≤ d3.length →
    (∀ j, j ∈ u → u.getLast? ≠ some j → slotAt d3 j = slotAt d j) →
    (∀ q, u.getLast? = some q →
      slotAt d3 q = { slotAt d q with next := (slotAt d slot).next }) →
    (∀ j0, v.head? = some j0 →
      (slotAt d3 j0).prev = (slotAt d slot).prev ∧
      (slotAt d3 j0).next = (slotAt d j0).next) →
    (∀ j, j ∈ v.tail → slotAt d3 j = slotAt d j) →
    IsActiveChain d3 p (if u = [] then (slotAt d slot).next else h) (u ++ v)
  | [], p, h, v => by
    intro hch hnd hlen hu hq hv hvt
    obtain ⟨h1, h2, h3, h4⟩ := hch
    simp only [if_pos rfl, List.nil_append]
    refine chain_unlink_v d d3 slot p v h4 hlen ?_ hvt
    intro j0 hj0
    rw [← h3]
    exact hv j0 hj0
  | i :: u1, p, h, v => by
    intro hch hnd hlen hu hq hv hvt
    obtain ⟨h1, h2, h3, h4⟩ := hch
    subst h1
    rw [List.cons_append] at hnd
    have hndtail := (List.nodup_cons.mp hnd).2
    have hhead_notmem := (List.nodup_cons.mp hnd).1
    simp only [if_neg (List.cons_ne_nil h u1), List.cons_append]
    cases u1 with
    | nil =>
      obtain ⟨hn1, hn2, hn3, hn4⟩ := h4
      have hqi := hq h rfl
      refine ⟨rfl, lt_of_lt_of_le h2 hlen, by rw [hqi]; exact h3, ?_⟩
      rw [hqi]
      show IsActiveChain d3 h (slotAt d slot).next v
      refine chain_unlink_v d d3 slot h v hn4 hlen ?_ hvt
      intro j0 hj0
      have hv0 := hv j0 hj0
      rw [hn3] at hv0
      exact hv0
    | cons i2 u2 =>
      have hine : (h :: i2 :: u2).getLast? ≠ some h := by
        rw [List.getLast?_cons_cons]
        intro hcon
        obtain ⟨hne, heq⟩ :=
          List.mem_getLast?_eq_getLast (show h ∈ (i2 :: u2).getLast? from hcon)
        have hmem : h ∈ i2 :: u2 := heq ▸ List.getLast_mem hne
        exact hhead_notmem (List.mem_append_left _ hmem)
      have hi3 : slotAt d3 h = slotAt d h := hu h (List.mem_cons_self _ _) hine
      refine ⟨rfl, lt_of_lt_of_le h2 hlen, by rw [hi3]; exact h3, ?_⟩
      rw [hi3]
      have hih := chain_unlink_u d d3 slot (i2 :: u2) h (slotAt d h).next v h4
        hndtail hlen
        (fun j hj hjne => hu j (List.mem_cons_of_mem _ hj)
          (by rw [List.getLast?_cons_cons]; exact hjne))
        (fun q hqq => hq q (by rw [List.getLast?_cons_cons]; exact hqq)) hv hvt
      simpa [if_neg (List.cons_ne_nil i2 u2)] using hih

theorem chain_split (d : List DeferSlot) :
    ∀ (u : List Nat) (p h slot : Nat) (v : List Nat),
    IsActiveChain d p h (u ++ slot :: v) →
    slot < d.length ∧
    IsActiveChain d slot (slotAt d slot).next v ∧
    ((u = [] ∧ (slotAt d slot).prev = p) ∨
     (∃ q, u.getLast? = some q ∧ (slotAt d slot).prev = q ∧ q ∈ u))
  | [], p, h, slot, v => by
    intro hch
    obtain ⟨h1, h2, h3, h4⟩ := hch
    exact ⟨h2, h4, Or.inl ⟨rfl, h3⟩⟩
  | i :: u1, p, h, slot, v => by
    intro hch
    obtain ⟨h1, h2, h3, h4⟩ := hch
    obtain ⟨l1, l2, l3⟩ := chain_split d u1 i (slotAt d i).next slot v h4
    refine ⟨l1, l2, Or.inr ?_⟩
    rcases l3 with ⟨hnil, hpi⟩ | ⟨q, hq1, hq2, hq3⟩
    · subst hnil
      exact ⟨i, rfl, hpi, List.mem_cons_self _ _⟩
    · cases u1 with
      | nil => cases hq3
      | cons a b =>
        exact ⟨q, by rw [List.getLast?_cons_cons]; exact hq1, hq2,
          List.mem_cons_of_mem _ hq3⟩

theorem defer_chains_of_parts {a1 : ArenaS} {al fl : List Nat} {slot n : Nat}
    {u v : List Nat}
    (hal : al = u ++ slot :: v)
    (hndal : al.Nodup) (hndfl : fl.Nodup)
    (hcov : ∀ i, i < n ↔ i ∈ al ∨ i ∈ fl) (hdisj : ∀ i, i ∈ al → i ∉ fl)
    (hlen1 : a1.defers.length = a1.num_defers) (hn : a1.num_defers = n)
    (hact1 : IsActiveChain a1.defers SIZE_MAX a1.active_defer_head (u ++ v))
    (hfree1 : IsFreeChain a1.defers a1.free_defer_head (slot :: fl)) :
    DeferChains a1 (al.erase slot) (slot :: fl) := by
  have hslotal : slot ∈ al := hal ▸ List.mem_append_right _ (List.mem_cons_self _ _)
  have hslotu : slot ∉ u := by
    intro hm
    have := hal ▸ hndal
    rw [List.nodup_append] at this
    exact this.2.2 hm (List.mem_cons_self _ _)
  have herase : al.erase slot = u ++ v := by
    rw [hal, List.erase_append_right _ hslotu, List.erase_cons_head]
  refine ⟨hlen1, herase ▸ hact1, hfree1, ?_, ?_, ?_, ?_⟩
  · exact hndal.erase slot
  · exact List.nodup_cons.mpr ⟨hdisj slot hslotal, hndfl⟩
  · intro i
    rw [hn, hcov i, herase, hal]
    simp only [List.mem_append, List.mem_cons]
    constructor
    · rintro ((hiu | (rfl | hiv)) | hifl)
      · exact Or.inl (Or.inl hiu)
      · exact Or.inr (Or.inl rfl)
      · exact Or.inl (Or.inr hiv)
      · exact Or.inr (Or.inr hifl)
    · rintro ((hiu | hiv) | (rfl | hifl))
      · exact Or.inl (Or.inl hiu)
      · exact Or.inl (Or.inr (Or.inr hiv))
      · exact Or.inl (Or.inr (Or.inl rfl))
      · exact Or.inr hifl
  · intro i hi
    have hi2 : i ∈ u ++ v := by
      rw [herase] at hi
      exact hi
    have hial : i ∈ al := by
      rw [hal]
      rcases List.mem_append.mp hi2 with h | h
      · exact List.mem_append_left _ h
      · exact List.mem_append_right _ (List.mem_cons_of_mem _ h)
    have hine : i ≠ slot := by
      intro he
      subst he
      have hnd2 := hal ▸ hndal
      rw [List.nodup_append] at hnd2
      rcases List.mem_append.mp hi2 with h | h
      · exact hslotu h
      · exact (List.nodup_cons.mp hnd2.2.1).1 h
    intro him
    rcases List.mem_cons.mp him with he | hifl
    · exact hine he
    · exact hdisj i hial hifl

/-- C7 preservation through the unlink-and-recycle tail of
`arena_ext_cancel`: the cancelled slot leaves the active list and becomes
the head of the free list. -/
theorem ext_cancel_partition (w : World) (A slot : Nat) (a : ArenaS)
    (al fl : List Nat)
    (hA : getArena w A = some a) (hch : DeferChains a al fl)
    (hsm : a.num_defers < SIZE_MAX)
    (hslot : slot ∈ al) :
    ∃ a1, getArena (arena_ext_cancel_unlink w A slot) A = some a1 ∧
      DeferChains a1 (al.erase slot) (slot :: fl) := by
  obtain ⟨u, v, hal⟩ := List.append_of_mem hslot
  have hdlen : a.defers.length < SIZE_MAX := by
    rw [hch.len]
    exact hsm
  have hact := hch.active
  rw [hal] at hact
  obtain ⟨hslotlen, hcont, hsplit⟩ :=
    chain_split a.defers u SIZE_MAX a.active_defer_head slot v hact
  have hmem_lt : ∀ i, i ∈ al → i < a.defers.length :=
    chain_members_lt _ _ _ _ hch.active
  have hndsplit : u.Nodup ∧ (slot :: v).Nodup ∧ u.Disjoint (slot :: v) := by
    have h0 := hch.ndal
    rw [hal, List.nodup_append] at h0
    exact h0
  have hslotv : slot ∉ v := (List.nodup_cons.mp hndsplit.2.1).1
  have hndv : v.Nodup := (List.nodup_cons.mp hndsplit.2.1).2
  have hfl_al : ∀ x, x ∈ al → x ∉ fl := hch.disj
  have hslot_fl : slot ∉ fl := hfl_al slot hslot
  have hfl_lt : ∀ i, i ∈ fl → i < a.defers.length := by
    intro i hi
    rw [hch.len]
    exact (hch.cover i).mpr (Or.inr hi)
  simp only [arena_ext_cancel_unlink]
  rw [hA]
  dsimp only
  rcases hsplit with ⟨hu0, hprev⟩ | ⟨q, hql, hprev, hqu⟩
  · -- the removed slot is the head of the active list
    subst hu0
    cases v with
    | nil =>
      have hnext : (slotAt a.defers slot).next = SIZE_MAX := hcont
      split
      next hc2 => exact absurd hnext hc2
      next hc2 =>
        split
        next hc1 => exact absurd hprev hc1
        next hc1 =>
          refine ⟨_, getArena_upd_self _ (getArena_upd_self _ hA), ?_⟩
          refine defer_chains_of_parts hal hch.ndal hch.ndfl hch.cover hfl_al
            (by simp [hch.len]) rfl ?_ ?_
          · show IsActiveChain _ SIZE_MAX (slotAt a.defers slot).next []
            exact hnext
          · show IsFreeChain _ slot (slot :: fl)
            refine ⟨rfl, by simpa using hslotlen, ?_⟩
            rw [slotAt_set_self _ _ _ hslotlen]
            refine isFreeChain_congr a.defers _ _ _ hch.free (by simp) ?_
            intro j hj
            exact slotAt_set_other _ _ _ _ (fun he => hslot_fl (he ▸ hj))
    | cons j0 v1 =>
      obtain ⟨hj0, hj0len, hj0prev, hv1⟩ := hcont
      have hj0slot : j0 ≠ slot := fun he => hslotv (he ▸ List.mem_cons_self j0 v1)
      have hj0al : j0 ∈ al := by
        rw [hal]
        exact List.mem_append_right _ (List.mem_cons_of_mem _ (List.mem_cons_self _ _))
      split
      next hc2 =>
        split
        next hc1 => exact absurd hprev hc1
        next hc1 =>
          rw [show (a.defers.getD slot DeferSlot.zero).next = j0 from hj0]
          refine ⟨_, getArena_upd_self _ (getArena_upd_self _ (getArena_upd_self _ hA)),
            ?_⟩
          refine defer_chains_of_parts hal hch.ndal hch.ndfl hch.cover hfl_al
            (by simp [hch.len]) rfl ?_ ?_
          · have hchu := chain_unlink_u a.defers
              ((a.defers.set j0
                { a.defers.getD j0 DeferSlot.zero with
                    prev := (a.defers.getD slot DeferSlot.zero).prev }).set slot
                ⟨none, 0, SIZE_MAX, a.free_defer_head⟩) slot
              [] SIZE_MAX a.active_defer_head (j0 :: v1)
              hact (hal ▸ hch.ndal) (by simp)
              (by intro j hj hjne; exact absurd hj (List.not_mem_nil j))
              (by intro q2 hq2; simp at hq2)
              (by
                intro j1 hj1
                have hj1e : j1 = j0 := by simpa using hj1.symm
                rw [hj1e]
                rw [slotAt_set_other _ _ _ _ hj0slot, slotAt_set_self _ _ _ hj0len]
                exact ⟨rfl, rfl⟩)
              (by
                intro j hj
                have hjslot : j ≠ slot := fun he =>
                  hslotv (he ▸ List.mem_cons_of_mem _ hj)
                have hjj0 : j ≠ j0 := fun he =>
                  (List.nodup_cons.mp hndv).1 (he ▸ hj)
                rw [slotAt_set_other _ _ _ _ hjslot, slotAt_set_other _ _ _ _ hjj0])
            rw [if_pos rfl] at hchu
            rw [hj0] at hchu
            exact hchu
          · show IsFreeChain _ slot (slot :: fl)
            refine ⟨rfl, by simpa using hslotlen, ?_⟩
            rw [slotAt_set_self _ _ _ (by simpa using hslotlen)]
            refine isFreeChain_congr a.defers _ _ _ hch.free (by simp) ?_
            intro j hj
            have hjslot : j ≠ slot := fun he => hslot_fl (he ▸ hj)
            have hjj0 : j ≠ j0 := fun he => hfl_al j0 hj0al (he ▸ hj)
            rw [slotAt_set_other _ _ _ _ hjslot, slotAt_set_other _ _ _ _ hjj0]
      next hc2 =>
        have hcc : (slotAt a.defers slot).next = SIZE_MAX := not_not.mp hc2
        rw [hj0] at hcc
        omega
  · -- the removed slot has a predecessor q on the active list
    have hune : u ≠ [] := List.ne_nil_of_mem hqu
    have hq_lt : q < a.defers.length := hmem_lt q (hal ▸ List.mem_append_left _ hqu)
    have hq_slot : q ≠ slot := fun he =>
      hndsplit.2.2 (he ▸ hqu) (List.mem_cons_self _ _)
    have hq_notv : q ∉ v := fun hm =>
      hndsplit.2.2 hqu (List.mem_cons_of_mem _ hm)
    have hq_fl : q ∉ fl := hfl_al q (hal ▸ List.mem_append_left _ hqu)
    have hprevne : (slotAt a.defers slot).prev ≠ SIZE_MAX := by
      rw [hprev]
      omega
    cases v with
    | nil =>
      have hnext : (slotAt a.defers slot).next = SIZE_MAX := hcont
      split
      next hc2 => exact absurd hnext hc2
      next hc2 =>
        split
        next hc1 =>
          rw [show (a.defers.getD slot DeferSlot.zero).prev = q from hprev]
          refine ⟨_, getArena_upd_self _ (getArena_upd_self _ hA), ?_⟩
          refine defer_chains_of_parts hal hch.ndal hch.ndfl hch.cover hfl_al
            (by simp [hch.len]) rfl ?_ ?_
          · have hchu := chain_unlink_u a.defers
              ((a.defers.set q
                { a.defers.getD q DeferSlot.zero with
                    next := (a.defers.getD slot DeferSlot.zero).next }).set slot
                ⟨none, 0, SIZE_MAX, a.free_defer_head⟩) slot
              u SIZE_MAX a.active_defer_head []
              hact (hal ▸ hch.ndal) (by simp)
              (by
                intro j hj hjne
                have hjq : j ≠ q := fun he => hjne (he.symm ▸ hql)
                have hjslot : j ≠ slot := fun he =>
                  hndsplit.2.2 (he ▸ hj) (List.mem_cons_self _ _)
                rw [slotAt_set_other _ _ _ _ hjslot, slotAt_set_other _ _ _ _ hjq])
              (by
                intro q2 hq2
                rw [hql] at hq2
                have hq2q : q2 = q := ((Option.some.injEq _ _).mp hq2).symm
                subst hq2q
                rw [slotAt_set_other _ _ _ _ hq_slot, slotAt_set_self _ _ _ hq_lt]
                exact rfl)
              (by intro j2 hj2; simp at hj2)
              (by intro j hj; exact absurd hj (List.not_mem_nil j))
            rw [if_neg hune] at hchu
            exact hchu
          · show IsFreeChain _ slot (slot :: fl)
            refine ⟨rfl, by simpa using hslotlen, ?_⟩
            rw [slotAt_set_self _ _ _ (by simpa using hslotlen)]
            refine isFreeChain_congr a.defers _ _ _ hch.free (by simp) ?_
            intro j hj
            have hjslot : j ≠ slot := fun he => hslot_fl (he ▸ hj)
            have hjq : j ≠ q := fun he => hq_fl (he ▸ hj)
            rw [slotAt_set_other _ _ _ _ hjslot, slotAt_set_other _ _ _ _ hjq]
        next hc1 => exact absurd hprevne hc1
    | cons j0 v1 =>
      obtain ⟨hj0, hj0len, hj0prev, hv1⟩ := hcont
      have hj0slot : j0 ≠ slot := fun he => hslotv (he ▸ List.mem_cons_self j0 v1)
      have hj0q : j0 ≠ q := fun he => hq_notv (he ▸ List.mem_cons_self j0 v1)
      have hj0al : j0 ∈ al := by
        rw [hal]
        exact List.mem_append_right _ (List.mem_cons_of_mem _ (List.mem_cons_self _ _))
      split
      next hc2 =>
        split
        next hc1 =>
          rw [show (a.defers.getD slot DeferSlot.zero).prev = q from hprev,
            show (a.defers.getD slot DeferSlot.zero).next = j0 from hj0]
          refine ⟨_, getArena_upd_self _ (getArena_upd_self _ (getArena_upd_self _ hA)),
            ?_⟩
          refine defer_chains_of_parts hal hch.ndal hch.ndfl hch.cover hfl_al
            (by simp [hch.len]) rfl ?_ ?_
          · have hchu := chain_unlink_u a.defers
              (((a.defers.set q
                  { a.defers.getD q DeferSlot.zero with next := j0 }).set j0
                { (a.defers.set q
                    { a.defers.getD q DeferSlot.zero with next := j0 }).getD j0
                    DeferSlot.zero with
                    prev := q }).set slot
                ⟨none, 0, SIZE_MAX, a.free_defer_head⟩) slot
              u SIZE_MAX a.active_defer_head (j0 :: v1)
              hact (hal ▸ hch.ndal) (by simp)
              (by
                intro j hj hjne
                have hjq : j ≠ q := fun he => hjne (he.symm ▸ hql)
                have hjslot : j ≠ slot := fun he =>
                  hndsplit.2.2 (he ▸ hj) (List.mem_cons_self _ _)
                have hjj0 : j ≠ j0 := fun he =>
                  hndsplit.2.2 (he ▸ hj)
                    (List.mem_cons_of_mem _ (List.mem_cons_self _ _))
                rw [slotAt_set_other _ _ _ _ hjslot, slotAt_set_other _ _ _ _ hjj0,
                  slotAt_set_other _ _ _ _ hjq])
              (by
                intro q2 hq2
                rw [hql] at hq2
                have hq2q : q2 = q := ((Option.some.injEq _ _).mp hq2).symm
                subst hq2q
                rw [slotAt_set_other _ _ _ _ hq_slot, slotAt_set_other _ _ _ _ hj0q.symm,
                  slotAt_set_self _ _ _ hq_lt, hj0]
                exact rfl)
              (by
                intro j1 hj1
                have hj1e : j1 = j0 := by simpa using hj1.symm
                rw [hj1e]
                rw [slotAt_set_other _ _ _ _ hj0slot,
                  slotAt_set_self _ _ _ (by simpa using hj0len)]
                refine ⟨hprev.symm, ?_⟩
                show (slotAt (a.defers.set q
                  { a.defers.getD q DeferSlot.zero with next := j0 }) j0).next =
                  (slotAt a.defers j0).next
                rw [slotAt_set_other _ _ _ _ hj0q])
              (by
                intro j hj
                have hjslot : j ≠ slot := fun he =>
                  hslotv (he ▸ List.mem_cons_of_mem _ hj)
                have hjj0 : j ≠ j0 := fun he =>
                  (List.nodup_cons.mp hndv).1 (he ▸ hj)
                have hjq : j ≠ q := fun he =>
                  hndsplit.2.2 hqu
                    (List.mem_cons_of_mem _ (List.mem_cons_of_mem _ (he ▸ hj)))
                rw [slotAt_set_other _ _ _ _ hjslot, slotAt_set_other _ _ _ _ hjj0,
                  slotAt_set_other _ _ _ _ hjq])
            rw [if_neg hune] at hchu
            exact hchu
          · show IsFreeChain _ slot (slot :: fl)
            refine ⟨rfl, by simpa using hslotlen, ?_⟩
            rw [slotAt_set_self _ _ _ (by simpa using hslotlen)]
            refine isFreeChain_congr a.defers _ _ _ hch.free (by simp) ?_
            intro j hj
            have hjslot : j ≠ slot := fun he => hslot_fl (he ▸ hj)
            have hjj0 : j ≠ j0 := fun he => hfl_al j0 hj0al (he ▸ hj)
            have hjq : j ≠ q := fun he => hq_fl (he ▸ hj)
            rw [slotAt_set_other _ _ _ _ hjslot, slotAt_set_other _ _ _ _ hjj0,
              slotAt_set_other _ _ _ _ hjq]
        next hc1 => exact absurd hprevne hc1
      next hc2 =>
        have hcc : (slotAt a.defers slot).next = SIZE_MAX := not_not.mp hc2
        rw [hj0] at hcc
        omega


/-! ### Trace, registry-size and teardown-walk lemmas (claims C2 and C7) -/

/-- The two chains of a `DeferChains` partition pin down `num_defers`. -/
theorem DeferChains_num {a : ArenaS} {al fl : List Nat}
    (hch : DeferChains a al fl) : a.num_defers = al.length + fl.length := by
  have hnd : (al ++ fl).Nodup := by
    rw [List.nodup_append]
    exact ⟨hch.ndal, hch.ndfl, fun i hi hif => hch.disj i hi hif⟩
  have hmem : ∀ i, i ∈ al ++ fl ↔ i < a.num_defers := by
    intro i
    rw [List.mem_append]
    exact ⟨fun h => (hch.cover i).mpr h, fun h => (hch.cover i).mp h⟩
  have h1 : (al ++ fl).length ≤ a.num_defers := by
    have hsub : al ++ fl ⊆ List.range a.num_defers := by
      intro i hi
      rw [List.mem_range]
      exact (hmem i).mp hi
    have := (List.subperm_of_subset hnd hsub).length_le
    simpa using this
  have h2 : a.num_defers ≤ (al ++ fl).length := by
    have hsub : List.range a.num_defers ⊆ al ++ fl := by
      intro i hi
      rw [List.mem_range] at hi
      exact (hmem i).mpr hi
    have := (List.subperm_of_subset (List.nodup_range a.num_defers) hsub).length_le
    simpa using this
  have h3 := List.length_append al fl
  omega

/-- `assert` never touches the trace. -/
theorem assertCheck_trace (w : World) (c : Bool) :
    (w.assertCheck c).trace = w.trace := by
  unfold World.assertCheck
  split <;> rfl

/-- `updArena` never touches the trace, whether or not the arena exists. -/
theorem updArena_trace_any (w : World) (A : Nat) (f : ArenaS → ArenaS) :
    (updArena w A f).trace = w.trace := by
  unfold updArena
  split <;> rfl

/-- Writing a ring `prev` field never touches the trace. -/
theorem storeBigPrev_trace (w : World) (p v : Nat) :
    (storeBigPrev w p v).trace = w.trace := by
  unfold storeBigPrev
  split
  · exact updArena_trace_any _ _ _
  · exact updArena_trace_any _ _ _
  · split <;> rfl
  · rfl

/-- Writing a ring `next` field never touches the trace. -/
theorem storeBigNext_trace (w : World) (p v : Nat) :
    (storeBigNext w p v).trace = w.trace := by
  unfold storeBigNext
  split
  · exact updArena_trace_any _ _ _
  · exact updArena_trace_any _ _ _
  · split <;> rfl
  · rfl

/-- The unlink tail of `arena_ext_cancel` never touches the trace. -/
theorem cancel_unlink_trace (w : World) (A slot : Nat) :
    (arena_ext_cancel_unlink w A slot).trace = w.trace := by
  unfold arena_ext_cancel_unlink
  split
  · rfl
  · rw [updArena_trace_any]
    split
    · rw [updArena_trace_any]
      split <;> rw [updArena_trace_any]
    · split <;> rw [updArena_trace_any]

/-- `arena_ext_cancel` without re-running the finalizer never touches the
trace. -/
theorem cancel_false_trace (fuel : Nat) (w : World) (A slot : Nat) :
    (arena_ext_cancel fuel w A slot false).trace = w.trace := by
  cases fuel with
  | zero => rfl
  | succ fuel =>
    rw [show arena_ext_cancel (fuel + 1) w A slot false =
      (match getArena w A with
       | none => w.crash
       | some a => arena_ext_cancel_unlink
           (w.assertCheck (a.magic == ARENAIMP_MAGIC_ARENA)) A slot) from rfl]
    split
    · rfl
    · rw [cancel_unlink_trace, assertCheck_trace]

/-- `afree` only ever appends to the trace. -/
theorem afree_trace (w : World) (A p : Nat) :
    ∃ tr, (afree w A p).trace = w.trace ++ tr := by
  unfold afree
  split
  · exact ⟨[], by simp⟩
  · split
    · exact ⟨_, rfl⟩
    · split
      · exact ⟨[], by simp [World.crash]⟩
      · split
        · split
          · exact ⟨[], by simp [World.crash]⟩
          · exact ⟨[], by rw [updArena_trace_any]; simp⟩
        · exact ⟨[], by
            rw [storeBigPrev_trace, storeBigNext_trace, assertCheck_trace]
            simp⟩

/-- The big-object sweep never touches the arena map. -/
theorem free_bigs_arenas (fuel : Nat) :
    ∀ (w : World) (c t : Nat), (arenaimp_free_bigs fuel w c t).arenas = w.arenas := by
  induction fuel with
  | zero => intro w c t; rfl
  | succ fuel ih =>
    intro w c t
    rw [show arenaimp_free_bigs (fuel + 1) w c t =
      (if c = t then w else arenaimp_free_bigs fuel (freeW w c) (loadBigNext w c) t)
      from rfl]
    split
    · rfl
    · rw [ih]
      rfl

/-- The big-object sweep only ever appends to the trace. -/
theorem free_bigs_trace (fuel : Nat) :
    ∀ (w : World) (c t : Nat), ∃ tr,
      (arenaimp_free_bigs fuel w c t).trace = w.trace ++ tr := by
  induction fuel with
  | zero =>
    intro w c t
    exact ⟨[], by
      rw [show arenaimp_free_bigs 0 w c t = w.crash from rfl]
      simp [World.crash]⟩
  | succ fuel ih =>
    intro w c t
    rw [show arenaimp_free_bigs (fuel + 1) w c t =
      (if c = t then w else arenaimp_free_bigs fuel (freeW w c) (loadBigNext w c) t)
      from rfl]
    split
    · exact ⟨[], by simp⟩
    · obtain ⟨tr, htr⟩ := ih (freeW w c) (loadBigNext w c) t
      refine ⟨Event.freeEv c :: tr, ?_⟩
      rw [htr]
      show (w.trace ++ [Event.freeEv c]) ++ tr = _
      simp

/-- One step of the defer walk, unfolded. -/
theorem run_defers_step (F : Nat) (w : World) (A h : Nat) :
    arenaimp_run_defers (F + 1) w A h =
      (if h = SIZE_MAX then w
       else match getArena w A with
        | none => w.crash
        | some a =>
          (let w1 := match (a.defers.getD h DeferSlot.zero).fn with
                 | none => w.crash
                 | some DeferFn.freeArena =>
                     arena_free F w ((a.defers.getD h DeferSlot.zero).user)
                 | some (DeferFn.user tag) =>
                     w.emit (Event.finRun tag ((a.defers.getD h DeferSlot.zero).user))
           match getArena w1 A with
           | none => w1.crash
           | some a1 =>
             arenaimp_run_defers F w1 A ((a1.defers.getD h DeferSlot.zero).next))) :=
  rfl

/-- The defer walk over a chain of caller-supplied finalizers: it invokes
them in chain order, appending one `finRun` event per slot, and changes
nothing else in the world. -/
theorem run_defers_users (A : Nat) (a : ArenaS) (tg : Nat → Nat)
    (hlen : a.defers.length < SIZE_MAX) :
    ∀ (l : List Nat) (fuel : Nat) (w : World) (h p : Nat),
    getArena w A = some a →
    IsActiveChain a.defers p h l →
    (∀ j, j ∈ l → (slotAt a.defers j).fn = some (DeferFn.user (tg j))) →
    arenaimp_run_defers (fuel + l.length + 1) w A h =
      { w with trace := (w.trace ++ l.map (fun j =>
          Event.finRun (tg j) ((slotAt a.defers j).user))) } := by
  intro l
  induction l with
  | nil =>
    intro fuel w h p hA hact hus
    have hM : h = SIZE_MAX := hact
    rw [run_defers_step, if_pos hM]
    simp
  | cons j t ih =>
    intro fuel w h p hA hact hus
    obtain ⟨hj, hjl, hprev, hrest⟩ := hact
    rw [hj, run_defers_step, if_neg (Nat.ne_of_lt (lt_trans hjl hlen)), hA]
    dsimp only
    rw [show (a.defers.getD j DeferSlot.zero).fn = some (DeferFn.user (tg j))
      from hus j (List.mem_cons_self j t)]
    dsimp only
    rw [show getArena (w.emit (Event.finRun (tg j)
      ((a.defers.getD j DeferSlot.zero).user))) A = some a from hA]
    dsimp only
    rw [show fuel + (j :: t).length = fuel + t.length + 1 from by
      simp [List.length_cons]; omega]
    rw [ih fuel (w.emit (Event.finRun (tg j)
        ((a.defers.getD j DeferSlot.zero).user)))
      ((a.defers.getD j DeferSlot.zero).next) j hA hrest
      (fun j2 hj2 => hus j2 (List.mem_cons_of_mem j hj2))]
    simp [World.emit, slotAt, List.getD]

/-- One step of `arena_free`, unfolded. -/
theorem arena_free_step (F : Nat) (w : World) (A : Nat) :
    arena_free (F + 1) w A =
      (if A = 0 then w
       else match getArena w A with
        | none => w.crash
        | some a =>
          (let w1 := ((updArena (w.assertCheck (a.magic == ARENAIMP_MAGIC_ARENA)) A
              (fun s => { s with magic := ARENAIMP_MAGIC_FREE })).emit
              (Event.teardown A))
           let w2 := arenaimp_run_defers F w1 A a.active_defer_head
           match getArena w2 A with
           | none => w2.crash
           | some a1 =>
             (let w3 := arenaimp_free_bigs F w2 a1.big_head_next (A + OFF_BIG_TAIL)
              match getArena w3 A with
              | none => w3.crash
              | some a2 =>
                if a2.allocated then
                  if a2.parent ≠ 0 then
                    afree (arena_ext_cancel F w3 a2.parent a2.parent_slot false)
                      a2.parent A
                  else freeW w3 A
                else w3))) :=
  rfl

/-- The trace of a teardown whose defer walk has been computed: the
`teardown` event, the walk's events, then whatever the sweep and the
release of the arena's own storage append. -/
theorem arena_free_trace (F : Nat) (w w2 : World) (A : Nat) (a : ArenaS)
    (tr : List Event)
    (hAnz : A ≠ 0) (hA : getArena w A = some a)
    (hwalk : arenaimp_run_defers F
        ((updArena (w.assertCheck (a.magic == ARENAIMP_MAGIC_ARENA)) A
          (fun s => { s with magic := ARENAIMP_MAGIC_FREE })).emit
          (Event.teardown A)) A a.active_defer_head = w2)
    (hw2t : w2.trace = w.trace ++ Event.teardown A :: tr)
    (hw2A : (getArena w2 A).isSome) :
    ∃ rest, (arena_free (F + 1) w A).trace =
      w.trace ++ Event.teardown A :: (tr ++ rest) := by
  rw [arena_free_step, if_neg hAnz, hA]
  dsimp only
  rw [hwalk]
  cases hg2 : getArena w2 A with
  | none =>
    rw [hg2] at hw2A
    simp at hw2A
  | some a1 =>
    dsimp only
    obtain ⟨tr1, htr1⟩ := free_bigs_trace F w2 a1.big_head_next (A + OFF_BIG_TAIL)
    have hg3 : getArena (arenaimp_free_bigs F w2 a1.big_head_next
        (A + OFF_BIG_TAIL)) A = some a1 := by
      rw [getArena_eq_of_arenas_eq (free_bigs_arenas F w2 _ _) A]
      exact hg2
    rw [hg3]
    dsimp only
    split
    · split
      · obtain ⟨tr2, htr2⟩ := afree_trace (arena_ext_cancel F
          (arenaimp_free_bigs F w2 a1.big_head_next (A + OFF_BIG_TAIL))
          a1.parent a1.parent_slot false) a1.parent A
        refine ⟨tr1 ++ tr2, ?_⟩
        rw [htr2, cancel_false_trace, htr1, hw2t]
        simp
      · refine ⟨tr1 ++ [Event.freeEv A], ?_⟩
        rw [show (freeW (arenaimp_free_bigs F w2 a1.big_head_next
            (A + OFF_BIG_TAIL)) A).trace =
          (arenaimp_free_bigs F w2 a1.big_head_next (A + OFF_BIG_TAIL)).trace ++
            [Event.freeEv A] from rfl]
        rw [htr1, hw2t]
        simp
    · refine ⟨tr1, ?_⟩
      rw [htr1, hw2t]
      simp

/-- The root arena of the fresh root world has an empty slot table, which
satisfies the partition with two empty chains. -/
theorem deferChains_c7a : DeferChains c7a [] [] :=
  ⟨rfl, rfl, rfl, List.nodup_nil, List.nodup_nil,
    (by
      intro i
      rw [show c7a.num_defers = 0 from rfl]
      simp),
    (by simp)⟩

/-- **C7.** Defer-slot partition: in a state satisfying `DeferChains`, every
slot index below `num_defers` is on the active list or on the free list and
never on both; a freshly initialised arena (`arenaimp_init` on an arena with
an empty slot table) satisfies the partition with both lists empty;
`arena_ext_defer` preserves it; and `arena_ext_cancel` preserves it when it
does not run the finalizer, and also when the cancelled slot holds a
caller-supplied finalizer and is asked to run it.  The claim's unqualified
preservation is nevertheless false: cancelling the registration slot of a
child arena with `run_defer = true` runs the internal child-freeing
finalizer, whose teardown re-enters `arena_ext_cancel` on the very same
slot; the outer call then unlinks the slot a second time, leaving
`free_defer_head = 0` with `defers[0].next = 0` — a self-looped free list on
which no partition `DeferChains` exists at all — with no crash and no
assertion failure to flag it. -/
theorem defer_slot_partition_invariant
    (w : World) (A : Nat) (a : ArenaS) (al fl : List Nat)
    (hA : getArena w A = some a) (hch : DeferChains a al fl) :
    (∀ i, i < a.num_defers → (i ∈ al ∨ i ∈ fl) ∧ ¬(i ∈ al ∧ i ∈ fl)) ∧
    (∀ w0 B b, getArena w0 B = some b → b.defers = [] → b.num_defers = 0 →
      ∃ b1, getArena (arenaimp_init w0 B) B = some b1 ∧ DeferChains b1 [] []) ∧
    (∀ fuel fn data slotr w1, a.num_defers + 1 < SIZE_MAX →
      arena_ext_defer fuel w A fn data = (slotr, w1) →
      ∃ a1, getArena w1 A = some a1 ∧
        ((slotr = SIZE_MAX ∧ DeferChains a1 al fl) ∨
         (slotr ≠ SIZE_MAX ∧ DeferChains a1 (slotr :: al) (fl.erase slotr)))) ∧
    (∀ fuel slot, slot ∈ al → a.num_defers < SIZE_MAX →
      ∃ a1, getArena (arena_ext_cancel (fuel + 1) w A slot false) A = some a1 ∧
        DeferChains a1 (al.erase slot) (slot :: fl)) ∧
    (∀ fuel slot tag, slot ∈ al → a.num_defers < SIZE_MAX →
      (slotAt a.defers slot).fn = some (DeferFn.user tag) →
      ∃ a1, getArena (arena_ext_cancel (fuel + 1) w A slot true) A = some a1 ∧
        DeferChains a1 (al.erase slot) (slot :: fl)) ∧
    (getArena c7bad rootA = some c7bada ∧
     c7bad.crashed = false ∧ c7bad.assertOk = true ∧
     ∀ al1 fl1, ¬ DeferChains c7bada al1 fl1) := by
  refine ⟨?_, ?_, ?_, ?_, ?_, ?_⟩
  · intro i hi
    exact ⟨(hch.cover i).mp hi, fun h2 => hch.disj i h2.1 h2.2⟩
  · intro w0 B b hB hd hn
    refine ⟨_, getArena_upd_self _ hB, ?_⟩
    refine ⟨?_, rfl, rfl, List.nodup_nil, List.nodup_nil, ?_, ?_⟩
    · show b.defers.length = b.num_defers
      rw [hd, hn]
      rfl
    · intro i
      show i < b.num_defers ↔ _
      rw [hn]
      simp
    · intro i hi
      simp at hi
  · intro fuel fn data slotr w1 hsm hE
    obtain ⟨a1, hg, hcase⟩ :=
      ext_defer_partition fuel w A fn data a al fl slotr w1 hA hch hsm hE
    exact ⟨a1, hg, hcase.imp id (fun h => ⟨h.1, h.2.1⟩)⟩
  · intro fuel slot hslot hsm
    have hE : arena_ext_cancel (fuel + 1) w A slot false =
        arena_ext_cancel_unlink (w.assertCheck (a.magic == ARENAIMP_MAGIC_ARENA))
          A slot := by
      simp only [arena_ext_cancel]
      rw [hA]
      simp
    have hA1 : getArena (w.assertCheck (a.magic == ARENAIMP_MAGIC_ARENA)) A =
        some a := by
      rw [getArena_assert]
      exact hA
    rw [hE]
    exact ext_cancel_partition _ A slot a al fl hA1 hch hsm hslot
  · intro fuel slot tag hslot hsm hfn
    have hE : arena_ext_cancel (fuel + 1) w A slot true =
        arena_ext_cancel_unlink
          ((w.assertCheck (a.magic == ARENAIMP_MAGIC_ARENA)).emit
            (Event.finRun tag ((a.defers.getD slot DeferSlot.zero).user)))
          A slot := by
      rw [show arena_ext_cancel (fuel + 1) w A slot true =
        (match getArena w A with
         | none => w.crash
         | some a0 =>
           arena_ext_cancel_unlink
             (match (a0.defers.getD slot DeferSlot.zero).fn with
              | none => (w.assertCheck (a0.magic == ARENAIMP_MAGIC_ARENA)).crash
              | some DeferFn.freeArena =>
                arena_free fuel (w.assertCheck (a0.magic == ARENAIMP_MAGIC_ARENA))
                  ((a0.defers.getD slot DeferSlot.zero).user)
              | some (DeferFn.user tg0) =>
                (w.assertCheck (a0.magic == ARENAIMP_MAGIC_ARENA)).emit
                  (Event.finRun tg0 ((a0.defers.getD slot DeferSlot.zero).user)))
             A slot) from rfl]
      rw [hA]
      dsimp only
      rw [show (a.defers.getD slot DeferSlot.zero).fn = some (DeferFn.user tag)
        from hfn]
    have hA1 : getArena ((w.assertCheck (a.magic == ARENAIMP_MAGIC_ARENA)).emit
        (Event.finRun tag ((a.defers.getD slot DeferSlot.zero).user))) A =
        some a := by
      rw [show getArena ((w.assertCheck (a.magic == ARENAIMP_MAGIC_ARENA)).emit
        (Event.finRun tag ((a.defers.getD slot DeferSlot.zero).user))) A =
        getArena (w.assertCheck (a.magic == ARENAIMP_MAGIC_ARENA)) A from rfl]
      rw [getArena_assert]
      exact hA
    rw [hE]
    exact ext_cancel_partition _ A slot a al fl hA1 hch hsm hslot
  · refine ⟨by decide, by decide, by decide, ?_⟩
    intro al1 fl1 hch1
    have hnum : c7bada.num_defers = 1 := by decide
    have hlen : c7bada.defers.length = 1 := by decide
    have hhead : c7bada.active_defer_head = SIZE_MAX := by decide
    have hfree : c7bada.free_defer_head = 0 := by decide
    have hnext : (slotAt c7bada.defers 0).next = 0 := by decide
    have hMAX : SIZE_MAX = 18446744073709551615 := rfl
    cases al1 with
    | cons i t =>
      obtain ⟨h1, h2, _, _⟩ := hch1.active
      rw [hhead] at h1
      rw [hlen] at h2
      omega
    | nil =>
      have h0 : (0 : Nat) ∈ fl1 := by
        rcases (hch1.cover 0).mp (by rw [hnum]; omega) with h | h
        · exact absurd h (List.not_mem_nil 0)
        · exact h
      cases fl1 with
      | nil => exact absurd h0 (List.not_mem_nil 0)
      | cons i t =>
        obtain ⟨h1, h2, h3⟩ := hch1.free
        rw [hfree] at h1
        cases t with
        | nil =>
          have h4 : (slotAt c7bada.defers i).next = SIZE_MAX := h3
          rw [← h1, hnext] at h4
          omega
        | cons i2 t2 =>
          obtain ⟨h4, _, _⟩ := h3
          rw [← h1, hnext] at h4
          have hnd := hch1.ndfl
          rw [← h1, ← h4] at hnd
          simp at hnd

/-- The defer-slot partition theorem instantiated on the concrete root
arena of the empty world, whose slot table is empty. -/
theorem defer_slot_partition_invariant_witness :
    (∀ i, i < c7a.num_defers →
      (i ∈ ([] : List Nat) ∨ i ∈ ([] : List Nat)) ∧
      ¬(i ∈ ([] : List Nat) ∧ i ∈ ([] : List Nat))) ∧
    (∀ w0 B b, getArena w0 B = some b → b.defers = [] → b.num_defers = 0 →
      ∃ b1, getArena (arenaimp_init w0 B) B = some b1 ∧ DeferChains b1 [] []) ∧
    (∀ fuel fn data slotr w1, c7a.num_defers + 1 < SIZE_MAX →
      arena_ext_defer fuel rootW rootA fn data = (slotr, w1) →
      ∃ a1, getArena w1 rootA = some a1 ∧
        ((slotr = SIZE_MAX ∧ DeferChains a1 [] []) ∨
         (slotr ≠ SIZE_MAX ∧
          DeferChains a1 (slotr :: ([] : List Nat)) (([] : List Nat).erase slotr)))) ∧
    (∀ fuel slot, slot ∈ ([] : List Nat) → c7a.num_defers < SIZE_MAX →
      ∃ a1, getArena (arena_ext_cancel (fuel + 1) rootW rootA slot false) rootA =
          some a1 ∧
        DeferChains a1 (([] : List Nat).erase slot) (slot :: ([] : List Nat))) ∧
    (∀ fuel slot tag, slot ∈ ([] : List Nat) → c7a.num_defers < SIZE_MAX →
      (slotAt c7a.defers slot).fn = some (DeferFn.user tag) →
      ∃ a1, getArena (arena_ext_cancel (fuel + 1) rootW rootA slot true) rootA =
          some a1 ∧
        DeferChains a1 (([] : List Nat).erase slot) (slot :: ([] : List Nat))) ∧
    (getArena c7bad rootA = some c7bada ∧
     c7bad.crashed = false ∧ c7bad.assertOk = true ∧
     ∀ al1 fl1, ¬ DeferChains c7bada al1 fl1) :=
  defer_slot_partition_invariant rootW rootA c7a [] [] rfl deferChains_c7a


/-- **C2.** Last-registered, first-run: on any arena whose defer registry
satisfies the partition invariant and whose already-active slots hold
caller-supplied finalizers, registering three caller finalizers A, B and C
in that order via `arena_ext_defer` (no cancellation in between) splices
each new slot at the head of the active list, so the registry afterwards
chains C → B → A → previous list; and `arena_free` invokes the finalizers
by walking that list from its head: its trace is the teardown event
followed by C's, then B's, then A's `finRun` events, then those of the
previously registered slots, before whatever the big-object sweep and the
release of the arena's own storage append. -/
theorem defer_teardown_order
    (fuel1 fuel2 fuel3 fuel4 : Nat) (w w1 w2 w3 : World) (A : Nat) (a : ArenaS)
    (al fl : List Nat) (tg : Nat → Nat)
    (tA tB tC dA dB dC sA sB sC : Nat)
    (hA : getArena w A = some a) (hch : DeferChains a al fl)
    (hAnz : A ≠ 0)
    (hsm : al.length + fl.length + 4 < SIZE_MAX)
    (husers : ∀ j, j ∈ al → (slotAt a.defers j).fn = some (DeferFn.user (tg j)))
    (hEA : arena_ext_defer fuel1 w A (some (DeferFn.user tA)) dA = (sA, w1))
    (hEB : arena_ext_defer fuel2 w1 A (some (DeferFn.user tB)) dB = (sB, w2))
    (hEC : arena_ext_defer fuel3 w2 A (some (DeferFn.user tC)) dC = (sC, w3))
    (hsA : sA ≠ SIZE_MAX) (hsB : sB ≠ SIZE_MAX) (hsC : sC ≠ SIZE_MAX) :
    ∃ a3 rest, getArena w3 A = some a3 ∧
      a3.active_defer_head = sC ∧
      DeferChains a3 (sC :: sB :: sA :: al) (((fl.erase sA).erase sB).erase sC) ∧
      (arena_free ((fuel4 + (al.length + 3) + 1) + 1) w3 A).trace =
        w3.trace ++ (Event.teardown A ::
          (Event.finRun tC dC :: Event.finRun tB dB :: Event.finRun tA dA ::
            (al.map (fun j => Event.finRun (tg j) ((slotAt a.defers j).user)) ++
              rest))) := by
  have hnum := DeferChains_num hch
  have helA : (fl.erase sA).length ≤ fl.length := (List.erase_sublist sA fl).length_le
  have helB : ((fl.erase sA).erase sB).length ≤ (fl.erase sA).length :=
    (List.erase_sublist sB (fl.erase sA)).length_le
  have helC : (((fl.erase sA).erase sB).erase sC).length ≤
      ((fl.erase sA).erase sB).length :=
    (List.erase_sublist sC ((fl.erase sA).erase sB)).length_le
  obtain ⟨a1, hA1, hc1⟩ := ext_defer_partition fuel1 w A _ dA a al fl sA w1
    hA hch (by omega) hEA
  rcases hc1 with ⟨he, _⟩ | ⟨_, hch1, hhd1, hfn1, hus1, hpres1⟩
  · exact absurd he hsA
  have hnum1 := DeferChains_num hch1
  rw [List.length_cons] at hnum1
  obtain ⟨a2, hA2, hc2⟩ := ext_defer_partition fuel2 w1 A _ dB a1 (sA :: al)
    (fl.erase sA) sB w2 hA1 hch1 (by omega) hEB
  rcases hc2 with ⟨he, _⟩ | ⟨_, hch2, hhd2, hfn2, hus2, hpres2⟩
  · exact absurd he hsB
  have hnum2 := DeferChains_num hch2
  rw [List.length_cons, List.length_cons] at hnum2
  obtain ⟨a3, hA3, hc3⟩ := ext_defer_partition fuel3 w2 A _ dC a2
    (sB :: sA :: al) ((fl.erase sA).erase sB) sC w3 hA2 hch2 (by omega) hEC
  rcases hc3 with ⟨he, _⟩ | ⟨_, hch3, hhd3, hfn3, hus3, hpres3⟩
  · exact absurd he hsC
  have hnum3 := DeferChains_num hch3
  rw [List.length_cons, List.length_cons, List.length_cons] at hnum3
  obtain ⟨hCnot, hnd3a⟩ := List.nodup_cons.mp hch3.ndal
  obtain ⟨hBnot, hnd3b⟩ := List.nodup_cons.mp hnd3a
  obtain ⟨hAnot, _⟩ := List.nodup_cons.mp hnd3b
  have hCB : sB ≠ sC := fun he => hCnot (by rw [← he]; exact List.mem_cons_self _ _)
  have hCA : sA ≠ sC := fun he => hCnot (by
    rw [← he]
    exact List.mem_cons_of_mem _ (List.mem_cons_self _ _))
  have hBA : sA ≠ sB := fun he => hBnot (by rw [← he]; exact List.mem_cons_self _ _)
  have hjC : ∀ j, j ∈ al → j ≠ sC := fun j hj he => hCnot (by
    rw [← he]
    exact List.mem_cons_of_mem _ (List.mem_cons_of_mem _ hj))
  have hjB : ∀ j, j ∈ al → j ≠ sB := fun j hj he => hBnot (by
    rw [← he]
    exact List.mem_cons_of_mem _ hj)
  have hjA : ∀ j, j ∈ al → j ≠ sA := fun j hj he => hAnot (by rw [← he]; exact hj)
  have hfnB3 : (slotAt a3.defers sB).fn = some (DeferFn.user tB) :=
    (hpres3 sB hCB).1.trans hfn2
  have husB3 : (slotAt a3.defers sB).user = dB := (hpres3 sB hCB).2.trans hus2
  have hfnA3 : (slotAt a3.defers sA).fn = some (DeferFn.user tA) :=
    (hpres3 sA hCA).1.trans ((hpres2 sA hBA).1.trans hfn1)
  have husA3 : (slotAt a3.defers sA).user = dA :=
    (hpres3 sA hCA).2.trans ((hpres2 sA hBA).2.trans hus1)
  have hfnal3 : ∀ j, j ∈ al →
      (slotAt a3.defers j).fn = (slotAt a.defers j).fn ∧
      (slotAt a3.defers j).user = (slotAt a.defers j).user := by
    intro j hj
    refine ⟨(hpres3 j (hjC j hj)).1.trans ((hpres2 j (hjB j hj)).1.trans
      (hpres1 j (hjA j hj)).1), (hpres3 j (hjC j hj)).2.trans
      ((hpres2 j (hjB j hj)).2.trans (hpres1 j (hjA j hj)).2)⟩
  have hlen3 : a3.defers.length < SIZE_MAX := by
    rw [hch3.len]
    omega
  have husersF : ∀ j, j ∈ (sC :: sB :: sA :: al) →
      (slotAt a3.defers j).fn = some (DeferFn.user
        (if j = sC then tC else if j = sB then tB else if j = sA then tA
         else tg j)) := by
    intro j hj
    rcases List.mem_cons.mp hj with rfl | hj
    · rw [if_pos rfl]
      exact hfn3
    rcases List.mem_cons.mp hj with rfl | hj
    · rw [if_neg hCB, if_pos rfl]
      exact hfnB3
    rcases List.mem_cons.mp hj with rfl | hj
    · rw [if_neg hCA, if_neg hBA, if_pos rfl]
      exact hfnA3
    · rw [if_neg (hjC j hj), if_neg (hjB j hj), if_neg (hjA j hj)]
      rw [(hfnal3 j hj).1]
      exact husers j hj
  have hA0 : getArena (w3.assertCheck (a3.magic == ARENAIMP_MAGIC_ARENA)) A =
      some a3 := by
    rw [getArena_assert]
    exact hA3
  have hA1' : getArena ((updArena (w3.assertCheck
        (a3.magic == ARENAIMP_MAGIC_ARENA)) A
        (fun s => { s with magic := ARENAIMP_MAGIC_FREE })).emit
        (Event.teardown A)) A = some { a3 with magic := ARENAIMP_MAGIC_FREE } := by
    rw [show getArena ((updArena (w3.assertCheck
        (a3.magic == ARENAIMP_MAGIC_ARENA)) A
        (fun s => { s with magic := ARENAIMP_MAGIC_FREE })).emit
        (Event.teardown A)) A =
      getArena (updArena (w3.assertCheck (a3.magic == ARENAIMP_MAGIC_ARENA)) A
        (fun s => { s with magic := ARENAIMP_MAGIC_FREE })) A from rfl]
    exact getArena_upd_self _ hA0
  have hwalk := run_defers_users A { a3 with magic := ARENAIMP_MAGIC_FREE }
    (fun j => if j = sC then tC else if j = sB then tB else if j = sA then tA
      else tg j) hlen3 (sC :: sB :: sA :: al) fuel4
    ((updArena (w3.assertCheck (a3.magic == ARENAIMP_MAGIC_ARENA)) A
      (fun s => { s with magic := ARENAIMP_MAGIC_FREE })).emit
      (Event.teardown A)) a3.active_defer_head SIZE_MAX hA1' hch3.active husersF
  rw [show fuel4 + (sC :: sB :: sA :: al).length + 1 =
    fuel4 + (al.length + 3) + 1 from by simp] at hwalk
  have hw1t : ((updArena (w3.assertCheck (a3.magic == ARENAIMP_MAGIC_ARENA)) A
      (fun s => { s with magic := ARENAIMP_MAGIC_FREE })).emit
      (Event.teardown A)).trace = w3.trace ++ [Event.teardown A] := by
    rw [show ((updArena (w3.assertCheck (a3.magic == ARENAIMP_MAGIC_ARENA)) A
      (fun s => { s with magic := ARENAIMP_MAGIC_FREE })).emit
      (Event.teardown A)).trace =
      (updArena (w3.assertCheck (a3.magic == ARENAIMP_MAGIC_ARENA)) A
        (fun s => { s with magic := ARENAIMP_MAGIC_FREE })).trace ++
        [Event.teardown A] from rfl]
    rw [updArena_trace_any, assertCheck_trace]
  obtain ⟨rest, hrest⟩ := arena_free_trace (fuel4 + (al.length + 3) + 1) w3 _ A a3
    ((sC :: sB :: sA :: al).map (fun j => Event.finRun
      (if j = sC then tC else if j = sB then tB else if j = sA then tA else tg j)
      ((slotAt a3.defers j).user)))
    hAnz hA3 hwalk
    (by
      rw [show ({ ((updArena (w3.assertCheck (a3.magic == ARENAIMP_MAGIC_ARENA)) A
        (fun s => { s with magic := ARENAIMP_MAGIC_FREE })).emit
        (Event.teardown A)) with
        trace := (((updArena (w3.assertCheck (a3.magic == ARENAIMP_MAGIC_ARENA)) A
          (fun s => { s with magic := ARENAIMP_MAGIC_FREE })).emit
          (Event.teardown A)).trace ++ (sC :: sB :: sA :: al).map (fun j =>
            Event.finRun (if j = sC then tC else if j = sB then tB
              else if j = sA then tA else tg j)
            ((slotAt ({ a3 with magic := ARENAIMP_MAGIC_FREE } : ArenaS).defers
              j).user))) } : World).trace =
        (((updArena (w3.assertCheck (a3.magic == ARENAIMP_MAGIC_ARENA)) A
          (fun s => { s with magic := ARENAIMP_MAGIC_FREE })).emit
          (Event.teardown A)).trace ++ (sC :: sB :: sA :: al).map (fun j =>
            Event.finRun (if j = sC then tC else if j = sB then tB
              else if j = sA then tA else tg j)
            ((slotAt a3.defers j).user))) from rfl]
      rw [hw1t]
      simp)
    (by
      rw [show getArena ({ ((updArena (w3.assertCheck
        (a3.magic == ARENAIMP_MAGIC_ARENA)) A
        (fun s => { s with magic := ARENAIMP_MAGIC_FREE })).emit
        (Event.teardown A)) with
        trace := (((updArena (w3.assertCheck (a3.magic == ARENAIMP_MAGIC_ARENA)) A
          (fun s => { s with magic := ARENAIMP_MAGIC_FREE })).emit
          (Event.teardown A)).trace ++ (sC :: sB :: sA :: al).map (fun j =>
            Event.finRun (if j = sC then tC else if j = sB then tB
              else if j = sA then tA else tg j)
            ((slotAt ({ a3 with magic := ARENAIMP_MAGIC_FREE } : ArenaS).defers
              j).user))) } : World) A =
        getArena ((updArena (w3.assertCheck (a3.magic == ARENAIMP_MAGIC_ARENA)) A
          (fun s => { s with magic := ARENAIMP_MAGIC_FREE })).emit
          (Event.teardown A)) A from rfl]
      rw [hA1']
      rfl)
  refine ⟨a3, rest, hA3, hhd3, hch3, ?_⟩
  rw [hrest]
  have hmap : (sC :: sB :: sA :: al).map (fun j => Event.finRun
      (if j = sC then tC else if j = sB then tB else if j = sA then tA else tg j)
      ((slotAt a3.defers j).user)) =
      Event.finRun tC dC :: Event.finRun tB dB :: Event.finRun tA dA ::
        al.map (fun j => Event.finRun (tg j) ((slotAt a.defers j).user)) := by
    rw [List.map_cons, List.map_cons, List.map_cons]
    rw [if_pos rfl, if_neg hCB, if_pos rfl, if_neg hCA, if_neg hBA, if_pos rfl]
    rw [hus3, husB3, husA3]
    refine congrArg _ (congrArg _ (congrArg _ ?_))
    refine List.map_congr_left ?_
    intro j hj
    rw [if_neg (hjC j hj), if_neg (hjB j hj), if_neg (hjA j hj), (hfnal3 j hj).2]
  rw [hmap]
  simp

/-- The C2 teardown-order theorem instantiated on the fresh root arena with
finalizers A = (101, 11), B = (102, 12), C = (103, 13), landing in slots 0,
1 and 2. -/
theorem defer_teardown_order_witness :
    ∃ a3 rest, getArena c2w3.2 rootA = some a3 ∧
      a3.active_defer_head = c2w3.1 ∧
      DeferChains a3 (c2w3.1 :: c2w2.1 :: c2w1.1 :: [])
        (((([] : List Nat).erase c2w1.1).erase c2w2.1).erase c2w3.1) ∧
      (arena_free ((4 + (([] : List Nat).length + 3) + 1) + 1) c2w3.2 rootA).trace =
        c2w3.2.trace ++ (Event.teardown rootA ::
          (Event.finRun 103 13 :: Event.finRun 102 12 :: Event.finRun 101 11 ::
            (([] : List Nat).map (fun j => Event.finRun ((fun _ => 0) j)
              ((slotAt c7a.defers j).user)) ++ rest))) :=
  defer_teardown_order 4 4 4 4 rootW c2w1.2 c2w2.2 c2w3.2 rootA c7a [] []
    (fun _ => 0) 101 102 103 11 12 13 c2w1.1 c2w2.1 c2w3.1
    rfl deferChains_c7a (by decide) (by decide)
    (fun j hj => absurd hj (List.not_mem_nil j))
    rfl rfl rfl (by decide) (by decide) (by decide)

/-! ### Big-ring resolution and link lemmas -/

theorem lookup_setAssoc_isSome {β : Type} (m : List (Nat × β)) (k : Nat) (v : β)
    (hk : (m.lookup k).isSome = true) (i : Nat) :
    ((setAssoc m k v).lookup i).isSome = (m.lookup i).isSome := by
  rw [lookup_setAssoc]
  by_cases h : i = k
  · subst h
    simp [hk]
  · simp [h]

theorem resolveBig_congr {w w1 : World}
    (ha : ∀ k, (w1.arenas.lookup k).isSome = (w.arenas.lookup k).isSome)
    (hb : ∀ q, (w1.bigs.lookup q).isSome = (w.bigs.lookup q).isSome)
    (p : Nat) : resolveBig w1 p = resolveBig w p := by
  simp only [resolveBig, ha, hb]

theorem resolveBig_updArena {w : World} {A : Nat} {a : ArenaS}
    (hA : getArena w A = some a) (f : ArenaS → ArenaS) (p : Nat) :
    resolveBig (updArena w A f) p = resolveBig w p := by
  unfold updArena
  rw [show w.arenas.lookup A = some a from hA]
  apply resolveBig_congr
  · exact lookup_setAssoc_isSome w.arenas A (f a)
      (by rw [show w.arenas.lookup A = some a from hA]; rfl)
  · intro q
    rfl

theorem resolveBig_setBigs {w : World} {q0 : Nat} (hq : (w.bigs.lookup q0).isSome)
    (b : BigHdr) (p : Nat) :
    resolveBig { w with bigs := setAssoc w.bigs q0 b } p = resolveBig w p := by
  apply resolveBig_congr
  · intro k
    rfl
  · exact lookup_setAssoc_isSome w.bigs q0 b hq

theorem resolveBig_node {w : World} {q : Nat}
    (h1 : w.arenas.lookup (q - OFF_BIG_HEAD) = none)
    (h2 : w.arenas.lookup (q - OFF_BIG_TAIL) = none)
    (h3 : (w.bigs.lookup q).isSome) :
    resolveBig w q = Loc.bigAt q := by
  simp [resolveBig, h1, h2, h3]

theorem resolveBig_head {w : World} {A : Nat} (hA : (w.arenas.lookup A).isSome) :
    resolveBig w (A + OFF_BIG_HEAD) = Loc.headOf A := by
  have h1 : A + OFF_BIG_HEAD - OFF_BIG_HEAD = A := by omega
  have h2 : OFF_BIG_HEAD ≤ A + OFF_BIG_HEAD := by omega
  simp [resolveBig, h1, h2, hA]

theorem resolveBig_tail {w : World} {A : Nat} (hA : (w.arenas.lookup A).isSome)
    (h24 : w.arenas.lookup (A + OFF_BIG_TAIL - OFF_BIG_HEAD) = none) :
    resolveBig w (A + OFF_BIG_TAIL) = Loc.tailOf A := by
  have h1 : A + OFF_BIG_TAIL - OFF_BIG_TAIL = A := by omega
  have h2 : OFF_BIG_TAIL ≤ A + OFF_BIG_TAIL := by omega
  simp [resolveBig, h1, h2, hA, h24]

theorem loadBigPrev_node {w : World} {q : Nat} {b : BigHdr}
    (hr : resolveBig w q = Loc.bigAt q) (hb : w.bigs.lookup q = some b) :
    loadBigPrev w q = b.prev := by
  simp [loadBigPrev, hr, hb]

theorem loadBigNext_node {w : World} {q : Nat} {b : BigHdr}
    (hr : resolveBig w q = Loc.bigAt q) (hb : w.bigs.lookup q = some b) :
    loadBigNext w q = b.next := by
  simp [loadBigNext, hr, hb]

theorem loadBigPrev_head {w : World} {A : Nat} {a : ArenaS}
    (hr : resolveBig w (A + OFF_BIG_HEAD) = Loc.headOf A)
    (hA : getArena w A = some a) :
    loadBigPrev w (A + OFF_BIG_HEAD) = a.big_head_prev := by
  simp [loadBigPrev, hr, hA]

theorem loadBigNext_head {w : World} {A : Nat} {a : ArenaS}
    (hr : resolveBig w (A + OFF_BIG_HEAD) = Loc.headOf A)
    (hA : getArena w A = some a) :
    loadBigNext w (A + OFF_BIG_HEAD) = a.big_head_next := by
  simp [loadBigNext, hr, hA]

theorem loadBigPrev_tail {w : World} {A : Nat} {a : ArenaS}
    (hr : resolveBig w (A + OFF_BIG_TAIL) = Loc.tailOf A)
    (hA : getArena w A = some a) :
    loadBigPrev w (A + OFF_BIG_TAIL) = a.big_tail_prev := by
  simp [loadBigPrev, hr, hA]

theorem loadBigNext_tail {w : World} {A : Nat} {a : ArenaS}
    (hr : resolveBig w (A + OFF_BIG_TAIL) = Loc.tailOf A)
    (hA : getArena w A = some a) :
    loadBigNext w (A + OFF_BIG_TAIL) = a.big_tail_next := by
  simp [loadBigNext, hr, hA]

theorem ringSeg_congr {w w1 : World} (t : Nat) (l : List Nat) :
    ∀ (p c : Nat), IsRingSeg w t p c l →
    (∀ q ∈ l, loadBigPrev w1 q = loadBigPrev w q ∧
      loadBigNext w1 q = loadBigNext w q) →
    IsRingSeg w1 t p c l := by
  induction l with
  | nil =>
    intro p c hseg _
    exact hseg
  | cons q l ih =>
    intro p c hseg hst
    obtain ⟨h1, h2, h3⟩ := hseg
    obtain ⟨hp, hn⟩ := hst q (List.mem_cons_self q l)
    refine ⟨h1, ?_, ?_⟩
    · rw [hp]
      exact h2
    · rw [hn]
      exact ih q (loadBigNext w q) h3 (fun j hj => hst j (List.mem_cons_of_mem _ hj))

theorem ringSeg_split {w : World} {t q : Nat} :
    ∀ (u : List Nat) (p c : Nat) (v : List Nat),
    IsRingSeg w t p c (u ++ q :: v) →
    IsRingSeg w t q (loadBigNext w q) v ∧
    ((u = [] ∧ c = q ∧ loadBigPrev w q = p) ∨
     (∃ p0, u.getLast? = some p0 ∧ p0 ∈ u ∧ loadBigPrev w q = p0 ∧
       loadBigNext w p0 = q))
  | [], p, c, v, hseg => by
    obtain ⟨h1, h2, h3⟩ := hseg
    exact ⟨h3, Or.inl ⟨rfl, h1, h2⟩⟩
  | u0 :: u1, p, c, v, hseg => by
    obtain ⟨h1, h2, h3⟩ := hseg
    obtain ⟨hv, hsplit⟩ := ringSeg_split u1 u0 (loadBigNext w u0) v h3
    refine ⟨hv, Or.inr ?_⟩
    rcases hsplit with ⟨hu1, hc, hp⟩ | ⟨p0, hql, hp0u, hp, hn⟩
    · subst hu1
      exact ⟨u0, rfl, List.mem_cons_self _ _, hp, hc ▸ rfl⟩
    · cases u1 with
      | nil => cases hp0u
      | cons a b =>
        exact ⟨p0, by rw [List.getLast?_cons_cons]; exact hql,
          List.mem_cons_of_mem _ hp0u, hp, hn⟩

theorem ringSeg_unlink {w w1 : World} {t q : Nat} :
    ∀ (u : List Nat) (p c : Nat) (v : List Nat),
    IsRingSeg w t p c (u ++ q :: v) →
    (u ++ q :: v).Nodup →
    (∀ j ∈ u, u.getLast? ≠ some j →
      loadBigPrev w1 j = loadBigPrev w j ∧ loadBigNext w1 j = loadBigNext w j) →
    (∀ p0, u.getLast? = some p0 →
      loadBigPrev w1 p0 = loadBigPrev w p0 ∧
      loadBigNext w1 p0 = loadBigNext w q) →
    (∀ v0, v.head? = some v0 →
      loadBigPrev w1 v0 = loadBigPrev w q ∧
      loadBigNext w1 v0 = loadBigNext w v0) →
    (∀ j ∈ v.tail,
      loadBigPrev w1 j = loadBigPrev w j ∧ loadBigNext w1 j = loadBigNext w j) →
    IsRingSeg w1 t p (if u = [] then loadBigNext w q else c) (u ++ v)
  | [], p, c, v, hseg, hnd, hu, hq, hv, hvt => by
    obtain ⟨h1, h2, h3⟩ := hseg
    rw [if_pos rfl]
    cases v with
    | nil => exact h3
    | cons v0 v1 =>
      obtain ⟨g1, g2, g3⟩ := h3
      obtain ⟨hvp, hvn⟩ := hv v0 rfl
      refine ⟨g1, ?_, ?_⟩
      · rw [hvp]
        exact h2
      · rw [hvn]
        exact ringSeg_congr t v1 v0 (loadBigNext w v0) g3 hvt
  | u0 :: u1, p, c, v, hseg, hnd, hu, hq, hv, hvt => by
    obtain ⟨h1, h2, h3⟩ := hseg
    rw [if_neg (List.cons_ne_nil u0 u1)]
    have hndtail : (u1 ++ q :: v).Nodup := (List.nodup_cons.mp hnd).2
    cases u1 with
    | nil =>
      obtain ⟨hqp, hqn⟩ := hq u0 rfl
      refine ⟨h1, ?_, ?_⟩
      · rw [hqp]
        exact h2
      · rw [hqn]
        have := ringSeg_unlink [] u0 (loadBigNext w u0) v h3 hndtail
          (fun j hj _ => absurd hj (List.not_mem_nil j))
          (fun p0 hp0 => by simp at hp0)
          hv hvt
        rw [if_pos rfl] at this
        exact this
    | cons a b =>
      have hlast : (u0 :: a :: b).getLast? = (a :: b).getLast? := by
        rw [List.getLast?_cons_cons]
      have hu0nl : (u0 :: a :: b).getLast? ≠ some u0 := by
        rw [hlast]
        intro hc
        have hmem : u0 ∈ a :: b := by
          have := List.getLast?_eq_getLast (a :: b) (List.cons_ne_nil a b)
          rw [this] at hc
          have hc2 := Option.some.inj hc
          rw [← hc2]
          exact List.getLast_mem (List.cons_ne_nil a b)
        exact (List.nodup_cons.mp hnd).1 (List.mem_append_left _ hmem)
      obtain ⟨hup, hun⟩ := hu u0 (List.mem_cons_self _ _) hu0nl
      refine ⟨h1, ?_, ?_⟩
      · rw [hup]
        exact h2
      · rw [hun]
        have := ringSeg_unlink (a :: b) u0 (loadBigNext w u0) v h3 hndtail
          (fun j hj hjne => hu j (List.mem_cons_of_mem _ hj) (by rw [hlast]; exact hjne))
          (fun p0 hp0 => hq p0 (by rw [hlast]; exact hp0))
          hv hvt
        rw [if_neg (List.cons_ne_nil a b)] at this
        exact this

theorem resolveBig_congr_at {w w1 : World} (p : Nat)
    (ha1 : (w1.arenas.lookup (p - OFF_BIG_HEAD)).isSome =
      (w.arenas.lookup (p - OFF_BIG_HEAD)).isSome)
    (ha2 : (w1.arenas.lookup (p - OFF_BIG_TAIL)).isSome =
      (w.arenas.lookup (p - OFF_BIG_TAIL)).isSome)
    (hb : (w1.bigs.lookup p).isSome = (w.bigs.lookup p).isSome) :
    resolveBig w1 p = resolveBig w p := by
  simp only [resolveBig, ha1, ha2, hb]

theorem resolveBig_bigAt_eq {w : World} {p q : Nat}
    (h : resolveBig w p = Loc.bigAt q) : q = p := by
  unfold resolveBig at h
  split at h
  · cases h
  · split at h
    · cases h
    · split at h
      · injection h with h1
        exact h1.symm
      · cases h

theorem loadBigPrev_eq_of_lookup_eq {w w1 : World} (p : Nat)
    (ha : w1.arenas = w.arenas)
    (hb : w1.bigs.lookup p = w.bigs.lookup p) :
    loadBigPrev w1 p = loadBigPrev w p := by
  have hr : resolveBig w1 p = resolveBig w p :=
    resolveBig_congr_at p (by rw [ha]) (by rw [ha]) (by rw [hb])
  simp only [loadBigPrev, hr]
  cases hrc : resolveBig w p with
  | headOf a2 =>
    dsimp only
    simp only [getArena, ha]
  | tailOf a2 =>
    dsimp only
    simp only [getArena, ha]
  | bigAt q2 =>
    dsimp only
    have hq := resolveBig_bigAt_eq hrc
    subst hq
    rw [hb]
  | bad => rfl

theorem loadBigNext_eq_of_lookup_eq {w w1 : World} (p : Nat)
    (ha : w1.arenas = w.arenas)
    (hb : w1.bigs.lookup p = w.bigs.lookup p) :
    loadBigNext w1 p = loadBigNext w p := by
  have hr : resolveBig w1 p = resolveBig w p :=
    resolveBig_congr_at p (by rw [ha]) (by rw [ha]) (by rw [hb])
  simp only [loadBigNext, hr]
  cases hrc : resolveBig w p with
  | headOf a2 =>
    dsimp only
    simp only [getArena, ha]
  | tailOf a2 =>
    dsimp only
    simp only [getArena, ha]
  | bigAt q2 =>
    dsimp only
    have hq := resolveBig_bigAt_eq hrc
    subst hq
    rw [hb]
  | bad => rfl

theorem updArena_bigs {w : World} {A : Nat} {a : ArenaS}
    (hA : getArena w A = some a) (f : ArenaS → ArenaS) :
    (updArena w A f).bigs = w.bigs := by
  unfold updArena
  rw [show w.arenas.lookup A = some a from hA]
  rfl

theorem updArena_smalls {w : World} {A : Nat} {a : ArenaS}
    (hA : getArena w A = some a) (f : ArenaS → ArenaS) :
    (updArena w A f).smalls = w.smalls := by
  unfold updArena
  rw [show w.arenas.lookup A = some a from hA]
  rfl

theorem updArena_nextAddr {w : World} {A : Nat} {a : ArenaS}
    (hA : getArena w A = some a) (f : ArenaS → ArenaS) :
    (updArena w A f).nextAddr = w.nextAddr := by
  unfold updArena
  rw [show w.arenas.lookup A = some a from hA]
  rfl

theorem updArena_arenas_lookup {w : World} {A : Nat} {a : ArenaS}
    (hA : getArena w A = some a) (f : ArenaS → ArenaS) (k : Nat) :
    (updArena w A f).arenas.lookup k =
      if k = A then some (f a) else w.arenas.lookup k := by
  unfold updArena
  rw [show w.arenas.lookup A = some a from hA]
  exact lookup_setAssoc w.arenas A k (f a)

theorem assertCheck_arenas (w : World) (c : Bool) :
    (w.assertCheck c).arenas = w.arenas := by
  unfold World.assertCheck
  split <;> rfl

theorem assertCheck_bigs (w : World) (c : Bool) :
    (w.assertCheck c).bigs = w.bigs := by
  unfold World.assertCheck
  split <;> rfl

theorem assertCheck_smalls (w : World) (c : Bool) :
    (w.assertCheck c).smalls = w.smalls := by
  unfold World.assertCheck
  split <;> rfl

theorem assertCheck_nextAddr (w : World) (c : Bool) :
    (w.assertCheck c).nextAddr = w.nextAddr := by
  unfold World.assertCheck
  split <;> rfl

/-- Transfer `BigRing` to a world with the same object maps and a
possibly advanced bump pointer. -/
theorem bigRing_relax {w w1 : World} {A : Nat} {a : ArenaS} {l : List Nat}
    (ha : w1.arenas = w.arenas) (hb : w1.bigs = w.bigs)
    (hs : w1.smalls = w.smalls) (hn : w.nextAddr ≤ w1.nextAddr)
    (h : BigRing w A a l) : BigRing w1 A a l := by
  refine ⟨?_, h.hAnz, ?_, ?_, ?_, ?_, h.hnd, ?_, ?_, h.htn, h.htp⟩
  · show w1.arenas.lookup A = some a
    rw [ha]
    exact h.harena
  · intro k hk
    rw [ha] at hk
    have := h.hbA k hk
    omega
  · intro q hq
    rw [hb] at hq
    have := h.hbB q hq
    omega
  · intro k hk
    rw [hs] at hk
    have := h.hbS k hk
    omega
  · rw [ha]
    exact h.ha24
  · intro q hq
    obtain ⟨m1, m2, m3, m4, m5⟩ := h.hmem q hq
    rw [ha, hb, hs]
    exact ⟨m1, m2, m3, m4, m5⟩
  · refine ringSeg_congr _ _ _ _ h.hseg ?_
    intro q _
    exact ⟨loadBigPrev_eq_of_lookup_eq q ha (by rw [hb]),
      loadBigNext_eq_of_lookup_eq q ha (by rw [hb])⟩

/-- The big-object branch of `aalloc_uninit_size` preserves the ring: on
malloc failure the ring is untouched, on success the fresh node is linked
directly behind the head sentinel. -/
theorem ring_insert_spec (fuel : Nat) (w : World) (A : Nat) (a : ArenaS)
    (l : List Nat) (size count : Nat) (r : Option Nat) (w1 : World)
    (hR : BigRing w A a l)
    (hbig : ¬(u64 (SIZEOF_SMALL_HEADER + u64 (size * count)) ≤
      ARENAIMP_LARGEST_SIZECLASS))
    (hnov : SIZEOF_BIG_HEADER + u64 (size * count) < U64)
    (hE : aalloc_uninit_size (fuel + 1) w A size count = (r, w1)) :
    (r = none ∧ BigRing w1 A a l) ∨
    (∃ p a1, r = some (p + SIZEOF_BIG_HEADER) ∧ BigRing w1 A a1 (p :: l) ∧
      (∀ q, q ∈ l → q < p) ∧
      p + SIZEOF_BIG_HEADER + u64 (size * count) ≤ w1.nextAddr ∧
      (∃ b, w1.bigs.lookup p = some b ∧ b.capacity = u64 (size * count))) := by
  have e8 : SIZEOF_SMALL_HEADER = 8 := rfl
  have e24 : SIZEOF_BIG_HEADER = 24 := rfl
  have e448 : ARENAIMP_LARGEST_SIZECLASS = 448 := rfl
  have e224 : SIZEOF_ARENAIMP_T = 224 := rfl
  have e88 : OFF_BIG_HEAD = 88 := rfl
  have e112 : OFF_BIG_TAIL = 112 := rfl
  have hsm8 : u64 (SIZEOF_SMALL_HEADER + u64 (size * count)) =
      SIZEOF_SMALL_HEADER + u64 (size * count) :=
    Nat.mod_eq_of_lt (by omega)
  have htot440 : ARENAIMP_LARGEST_SIZECLASS - SIZEOF_SMALL_HEADER <
      u64 (size * count) := by
    rw [hsm8] at hbig
    omega
  have htsz : u64 (SIZEOF_BIG_HEADER + u64 (size * count)) =
      SIZEOF_BIG_HEADER + u64 (size * count) := Nat.mod_eq_of_lt hnov
  simp only [aalloc_uninit_size] at hE
  rw [if_neg hR.hAnz, hR.harena] at hE
  dsimp only at hE
  rw [if_neg hbig] at hE
  split at hE
  · -- malloc failed: the ring is untouched
    rename_i w1m heq
    injection hE with hE1 hE2
    simp only [mallocW] at heq
    split at heq
    · injection heq with i1 i2
      cases i1
    · injection heq with i1 i2
      refine Or.inl ⟨hE1.symm, ?_⟩
      rw [← hE2, ← i2]
      refine bigRing_relax ?_ ?_ ?_ ?_ hR
      · rw [assertCheck_arenas]
        exact assertCheck_arenas w _
      · rw [assertCheck_bigs]
        exact assertCheck_bigs w _
      · rw [assertCheck_smalls]
        exact assertCheck_smalls w _
      · rw [assertCheck_nextAddr]
        exact le_of_eq (assertCheck_nextAddr w _).symm
  · -- malloc succeeded
    rename_i alloc w1m heq
    simp only [mallocW] at heq
    split at heq
    case _ hok =>
      injection heq with i1 i2
      have halloc : alloc = w.nextAddr :=
        (Option.some.inj i1).symm.trans (assertCheck_nextAddr w _)
      have hw1mA : w1m.arenas = w.arenas := by
        rw [← i2]
        exact assertCheck_arenas w _
      have hw1mB : w1m.bigs = w.bigs := by
        rw [← i2]
        exact assertCheck_bigs w _
      have hw1mS : w1m.smalls = w.smalls := by
        rw [← i2]
        exact assertCheck_smalls w _
      have hw1mN : w1m.nextAddr =
          w.nextAddr + (SIZEOF_BIG_HEADER + u64 (size * count)) := by
        rw [← i2]
        show (w.assertCheck _).nextAddr + u64 (u64 (SIZEOF_BIG_HEADER +
          u64 (size * count))) = _
        rw [assertCheck_nextAddr, htsz, htsz]
      have hA1 : getArena w1m A = some a := by
        show w1m.arenas.lookup A = some a
        rw [hw1mA]
        exact hR.harena
      rw [hA1] at hE
      dsimp only at hE
      injection hE with i3 i4
      subst i3
      subst i4
      -- fresh-address facts
      have hfresh : ∀ q, q ∈ l → q < alloc := by
        intro q hq
        rw [halloc]
        exact hR.hbB q (hR.hmem q hq).1
      have hallocA : A + SIZEOF_ARENAIMP_T ≤ alloc := by
        rw [halloc]
        exact hR.hbA A (by show (getArena w A).isSome = true; rw [hR.harena]; rfl)
      have hnoaren : ∀ k, (w.arenas.lookup k).isSome → k + SIZEOF_ARENAIMP_T ≤ alloc := by
        intro k hk
        rw [halloc]
        exact hR.hbA k hk
      have hallocA88 : w.arenas.lookup (alloc - OFF_BIG_HEAD) = none := by
        cases hlk : w.arenas.lookup (alloc - OFF_BIG_HEAD) with
        | none => rfl
        | some s =>
          have := hnoaren (alloc - OFF_BIG_HEAD) (by rw [hlk]; rfl)
          omega
      have hallocA112 : w.arenas.lookup (alloc - OFF_BIG_TAIL) = none := by
        cases hlk : w.arenas.lookup (alloc - OFF_BIG_TAIL) with
        | none => rfl
        | some s =>
          have := hnoaren (alloc - OFF_BIG_TAIL) (by rw [hlk]; rfl)
          omega
      have hallocS : w.smalls.lookup (alloc + SIZEOF_BIG_HEADER -
          SIZEOF_SMALL_HEADER) = none := by
        cases hlk : w.smalls.lookup (alloc + SIZEOF_BIG_HEADER -
            SIZEOF_SMALL_HEADER) with
        | none => rfl
        | some s =>
          have := hR.hbS _ (by rw [hlk]; rfl)
          omega
      cases l with
      | nil =>
        have hnil : a.big_head_next = A + OFF_BIG_TAIL := hR.hseg
        rw [hnil]
        set W2 : World := { w1m with bigs := (setAssoc w1m.bigs alloc
          ⟨A + OFF_BIG_HEAD, A + OFF_BIG_TAIL, u64 (size * count),
           List.replicate (u64 (size * count)) 0⟩) } with hW2def
        have hW2A : W2.arenas = w.arenas := hw1mA
        have hW2S : W2.smalls = w.smalls := hw1mS
        have hW2N : W2.nextAddr =
            w.nextAddr + (SIZEOF_BIG_HEADER + u64 (size * count)) := hw1mN
        have hW2B : ∀ x, W2.bigs.lookup x =
            if x = alloc then some ⟨A + OFF_BIG_HEAD, A + OFF_BIG_TAIL,
              u64 (size * count), List.replicate (u64 (size * count)) 0⟩
            else w.bigs.lookup x := by
          intro x
          show (setAssoc w1m.bigs alloc _).lookup x = _
          rw [lookup_setAssoc, hw1mB]
        have hA2 : getArena W2 A = some a := by
          show W2.arenas.lookup A = some a
          rw [hW2A]
          exact hR.harena
        have hres : resolveBig W2 (A + OFF_BIG_TAIL) = Loc.tailOf A := by
          refine resolveBig_tail ?_ ?_
          · rw [hW2A]
            show (getArena w A).isSome = true
            rw [hR.harena]
            rfl
          · rw [hW2A]
            exact hR.ha24
        have hsbp : storeBigPrev W2 (A + OFF_BIG_TAIL) alloc =
            updArena W2 A (fun s => { s with big_tail_prev := alloc }) := by
          unfold storeBigPrev
          rw [hres]
        rw [hsbp]
        have hA3 : getArena (updArena W2 A
            (fun s => { s with big_tail_prev := alloc })) A =
            some { a with big_tail_prev := alloc } := getArena_upd_self _ hA2
        set W4 : World := updArena (updArena W2 A
          (fun s => { s with big_tail_prev := alloc })) A
          (fun s => { s with big_head_next := alloc }) with hW4def
        have hW4Bset : W4.bigs = W2.bigs :=
          (updArena_bigs hA3 _).trans (updArena_bigs hA2 _)
        have hW4S : W4.smalls = w.smalls :=
          ((updArena_smalls hA3 _).trans (updArena_smalls hA2 _)).trans hW2S
        have hW4N : W4.nextAddr =
            w.nextAddr + (SIZEOF_BIG_HEADER + u64 (size * count)) :=
          ((updArena_nextAddr hA3 _).trans (updArena_nextAddr hA2 _)).trans hW2N
        have hW4look : ∀ k, W4.arenas.lookup k =
            if k = A then
              some { a with big_tail_prev := alloc, big_head_next := alloc }
            else w.arenas.lookup k := by
          intro k
          rw [show W4.arenas.lookup k = _ from updArena_arenas_lookup hA3 _ k]
          by_cases hk : k = A
          · rw [if_pos hk, if_pos hk]
          · rw [if_neg hk, if_neg hk, updArena_arenas_lookup hA2 _ k, if_neg hk,
              hW2A]
        have hneA88 : alloc - OFF_BIG_HEAD ≠ A := by omega
        have hneA112 : alloc - OFF_BIG_TAIL ≠ A := by omega
        have hne24 : A + OFF_BIG_TAIL - OFF_BIG_HEAD ≠ A := by omega
        have hlkal : W4.bigs.lookup alloc =
            some ⟨A + OFF_BIG_HEAD, A + OFF_BIG_TAIL, u64 (size * count),
              List.replicate (u64 (size * count)) 0⟩ := by
          rw [hW4Bset, hW2B, if_pos rfl]
        have hW4resal : resolveBig W4 alloc = Loc.bigAt alloc := by
          refine resolveBig_node ?_ ?_ ?_
          · rw [hW4look, if_neg hneA88]
            exact hallocA88
          · rw [hW4look, if_neg hneA112]
            exact hallocA112
          · rw [hlkal]
            rfl
        refine Or.inr ⟨alloc,
          { a with big_tail_prev := alloc, big_head_next := alloc }, rfl, ?_, hfresh,
          (by rw [hW4N]; omega), ⟨_, hlkal, rfl⟩⟩
        refine ⟨?_, hR.hAnz, ?_, ?_, ?_, ?_, ?_, ?_, ?_, ?_, ?_⟩
        · show W4.arenas.lookup A = _
          rw [hW4look, if_pos rfl]
        · intro k hk
          rw [hW4look] at hk
          rw [hW4N]
          by_cases hkA : k = A
          · subst hkA
            omega
          · rw [if_neg hkA] at hk
            have := hR.hbA k hk
            omega
        · intro q hq
          rw [hW4Bset, hW2B] at hq
          rw [hW4N]
          by_cases hqa : q = alloc
          · subst hqa
            omega
          · rw [if_neg hqa] at hq
            have := hR.hbB q hq
            omega
        · intro k hk
          rw [hW4S] at hk
          rw [hW4N]
          have := hR.hbS k hk
          omega
        · rw [hW4look, if_neg hne24]
          exact hR.ha24
        · exact List.nodup_cons.mpr ⟨List.not_mem_nil _, List.nodup_nil⟩
        · intro q hq
          have hqa : q = alloc := by simpa using hq
          subst hqa
          refine ⟨?_, ?_, ?_, ?_, ?_⟩
          · rw [hlkal]
            rfl
          · rw [hW4look, if_neg hneA88]
            exact hallocA88
          · rw [hW4look, if_neg hneA112]
            exact hallocA112
          · rw [hW4S]
            exact hallocS
          · rw [hlkal]
            exact htot440
        · refine ⟨rfl, ?_, ?_⟩
          · rw [loadBigPrev_node hW4resal hlkal]
          · show loadBigNext W4 alloc = A + OFF_BIG_TAIL
            rw [loadBigNext_node hW4resal hlkal]
        · exact hR.htn
        · intro x hx
          have hxa : x = alloc := by
            have := hx
            simp at this
            omega
          subst hxa
          rfl
      | cons n1 l1 =>
        obtain ⟨hh1, hh2, hh3⟩ := hR.hseg
        obtain ⟨hbn1, hn1a88, hn1a112, hn1s, hn1cap⟩ :=
          hR.hmem n1 (List.mem_cons_self n1 l1)
        obtain ⟨b1, hb1⟩ := Option.isSome_iff_exists.mp hbn1
        have hn1lt : n1 < alloc := hfresh n1 (List.mem_cons_self n1 l1)
        have hn1ne : n1 ≠ alloc := by omega
        have hanen1 : alloc ≠ n1 := by omega
        rw [hh1]
        set W2 : World := { w1m with bigs := (setAssoc w1m.bigs alloc
          ⟨A + OFF_BIG_HEAD, n1, u64 (size * count),
           List.replicate (u64 (size * count)) 0⟩) } with hW2def
        have hW2A : W2.arenas = w.arenas := hw1mA
        have hW2S : W2.smalls = w.smalls := hw1mS
        have hW2N : W2.nextAddr =
            w.nextAddr + (SIZEOF_BIG_HEADER + u64 (size * count)) := hw1mN
        have hW2B : ∀ x, W2.bigs.lookup x =
            if x = alloc then some ⟨A + OFF_BIG_HEAD, n1,
              u64 (size * count), List.replicate (u64 (size * count)) 0⟩
            else w.bigs.lookup x := by
          intro x
          show (setAssoc w1m.bigs alloc _).lookup x = _
          rw [lookup_setAssoc, hw1mB]
        have hlrn1 : W2.bigs.lookup n1 = some b1 := by
          rw [hW2B, if_neg hn1ne]
          exact hb1
        have hres2 : resolveBig W2 n1 = Loc.bigAt n1 := by
          refine resolveBig_node ?_ ?_ ?_
          · rw [hW2A]
            exact hn1a88
          · rw [hW2A]
            exact hn1a112
          · rw [hlrn1]
            rfl
        set W3 : World := { W2 with bigs := (setAssoc W2.bigs n1
          { b1 with prev := alloc }) } with hW3def
        have hsbp : storeBigPrev W2 n1 alloc = W3 := by
          unfold storeBigPrev
          rw [hres2]
          dsimp only
          rw [hlrn1]
        rw [hsbp]
        have hA3 : getArena W3 A = some a := by
          show W3.arenas.lookup A = some a
          rw [show W3.arenas = w.arenas from hW2A]
          exact hR.harena
        set W4 : World := updArena W3 A
          (fun s => { s with big_head_next := alloc }) with hW4def
        have hW4B : ∀ x, W4.bigs.lookup x =
            if x = n1 then some { b1 with prev := alloc }
            else if x = alloc then some ⟨A + OFF_BIG_HEAD, n1,
              u64 (size * count), List.replicate (u64 (size * count)) 0⟩
            else w.bigs.lookup x := by
          intro x
          rw [show W4.bigs = W3.bigs from updArena_bigs hA3 _]
          show (setAssoc W2.bigs n1 _).lookup x = _
          rw [lookup_setAssoc, hW2B]
        have hW4S : W4.smalls = w.smalls :=
          (updArena_smalls hA3 _).trans hW2S
        have hW4N : W4.nextAddr =
            w.nextAddr + (SIZEOF_BIG_HEADER + u64 (size * count)) :=
          (updArena_nextAddr hA3 _).trans hW2N
        have hW4look : ∀ k, W4.arenas.lookup k =
            if k = A then some { a with big_head_next := alloc }
            else w.arenas.lookup k := by
          intro k
          rw [show W4.arenas.lookup k = _ from updArena_arenas_lookup hA3 _ k]
          by_cases hk : k = A
          · rw [if_pos hk, if_pos hk]
          · rw [if_neg hk, if_neg hk, show W3.arenas = w.arenas from hW2A]
        have hW4arenasNone : ∀ k, w.arenas.lookup k = none →
            W4.arenas.lookup k = none := by
          intro k hk
          rw [hW4look]
          by_cases hkA : k = A
          · exfalso
            rw [hkA] at hk
            rw [show w.arenas.lookup A = some a from hR.harena] at hk
            cases hk
          · rw [if_neg hkA]
            exact hk
        have hneA88 : alloc - OFF_BIG_HEAD ≠ A := by omega
        have hneA112 : alloc - OFF_BIG_TAIL ≠ A := by omega
        have hne24 : A + OFF_BIG_TAIL - OFF_BIG_HEAD ≠ A := by omega
        have hlkal : W4.bigs.lookup alloc =
            some ⟨A + OFF_BIG_HEAD, n1, u64 (size * count),
              List.replicate (u64 (size * count)) 0⟩ := by
          rw [hW4B, if_neg hanen1, if_pos rfl]
        have hlkn1 : W4.bigs.lookup n1 = some { b1 with prev := alloc } := by
          rw [hW4B, if_pos rfl]
        have hW4resal : resolveBig W4 alloc = Loc.bigAt alloc := by
          refine resolveBig_node (hW4arenasNone _ hallocA88)
            (hW4arenasNone _ hallocA112) ?_
          rw [hlkal]
          rfl
        have hW4resn1 : resolveBig W4 n1 = Loc.bigAt n1 := by
          refine resolveBig_node (hW4arenasNone _ hn1a88)
            (hW4arenasNone _ hn1a112) ?_
          rw [hlkn1]
          rfl
        have hreswn1 : resolveBig w n1 = Loc.bigAt n1 :=
          resolveBig_node hn1a88 hn1a112 hbn1
        refine Or.inr ⟨alloc, { a with big_head_next := alloc }, rfl, ?_, hfresh,
          (by rw [hW4N]; omega), ⟨_, hlkal, rfl⟩⟩
        refine ⟨?_, hR.hAnz, ?_, ?_, ?_, ?_, ?_, ?_, ?_, ?_, ?_⟩
        · show W4.arenas.lookup A = _
          rw [hW4look, if_pos rfl]
        · intro k hk
          rw [hW4look] at hk
          rw [hW4N]
          by_cases hkA : k = A
          · subst hkA
            omega
          · rw [if_neg hkA] at hk
            have := hR.hbA k hk
            omega
        · intro q hq
          rw [hW4B] at hq
          rw [hW4N]
          by_cases hqn : q = n1
          · subst hqn
            omega
          · rw [if_neg hqn] at hq
            by_cases hqa : q = alloc
            · subst hqa
              omega
            · rw [if_neg hqa] at hq
              have := hR.hbB q hq
              omega
        · intro k hk
          rw [hW4S] at hk
          rw [hW4N]
          have := hR.hbS k hk
          omega
        · rw [hW4look, if_neg hne24]
          exact hR.ha24
        · refine List.nodup_cons.mpr ⟨?_, hR.hnd⟩
          intro hmem
          have := hfresh alloc hmem
          omega
        · intro q hq
          rcases List.mem_cons.mp hq with hqa | hq2
          · subst hqa
            refine ⟨?_, ?_, ?_, ?_, ?_⟩
            · rw [hlkal]
              rfl
            · exact hW4arenasNone _ hallocA88
            · exact hW4arenasNone _ hallocA112
            · rw [hW4S]
              exact hallocS
            · rw [hlkal]
              exact htot440
          · rcases List.mem_cons.mp hq2 with hqn | hql1
            · subst hqn
              refine ⟨?_, ?_, ?_, ?_, ?_⟩
              · rw [hlkn1]
                rfl
              · exact hW4arenasNone _ hn1a88
              · exact hW4arenasNone _ hn1a112
              · rw [hW4S]
                exact hn1s
              · rw [hlkn1]
                show _ < b1.capacity
                rw [hb1] at hn1cap
                exact hn1cap
            · obtain ⟨hbj, hja88, hja112, hjs, hjcap⟩ :=
                hR.hmem q (List.mem_cons_of_mem _ hql1)
              have hja : q ≠ alloc :=
                Nat.ne_of_lt (hfresh q (List.mem_cons_of_mem _ hql1))
              have hjn1 : q ≠ n1 := fun he =>
                (List.nodup_cons.mp hR.hnd).1 (he ▸ hql1)
              obtain ⟨bj, hbj2⟩ := Option.isSome_iff_exists.mp hbj
              refine ⟨?_, hW4arenasNone _ hja88, hW4arenasNone _ hja112, ?_, ?_⟩
              · rw [hW4B, if_neg hjn1, if_neg hja, hbj2]
                rfl
              · rw [hW4S]
                exact hjs
              · rw [hW4B, if_neg hjn1, if_neg hja, hbj2]
                rw [hbj2] at hjcap
                exact hjcap
        · refine ⟨rfl, ?_, ?_⟩
          · rw [loadBigPrev_node hW4resal hlkal]
          · rw [loadBigNext_node hW4resal hlkal]
            refine ⟨rfl, ?_, ?_⟩
            · rw [loadBigPrev_node hW4resn1 hlkn1]
            · rw [loadBigNext_node hW4resn1 hlkn1]
              have hold : loadBigNext w n1 = b1.next :=
                loadBigNext_node hreswn1 hb1
              rw [hold] at hh3
              show IsRingSeg W4 (A + OFF_BIG_TAIL) n1 b1.next l1
              refine ringSeg_congr _ _ _ _ hh3 ?_
              intro j hj
              obtain ⟨hbj, hja88, hja112, _, _⟩ :=
                hR.hmem j (List.mem_cons_of_mem _ hj)
              obtain ⟨bj, hbj2⟩ := Option.isSome_iff_exists.mp hbj
              have hja : j ≠ alloc :=
                Nat.ne_of_lt (hfresh j (List.mem_cons_of_mem _ hj))
              have hjn1 : j ≠ n1 := fun he =>
                (List.nodup_cons.mp hR.hnd).1 (he ▸ hj)
              have hrwj : resolveBig w j = Loc.bigAt j :=
                resolveBig_node hja88 hja112 hbj
              have hlkj4 : W4.bigs.lookup j = some bj := by
                rw [hW4B, if_neg hjn1, if_neg hja]
                exact hbj2
              have hr4j : resolveBig W4 j = Loc.bigAt j := by
                refine resolveBig_node (hW4arenasNone _ hja88)
                  (hW4arenasNone _ hja112) ?_
                rw [hlkj4]
                rfl
              exact ⟨(loadBigPrev_node hr4j hlkj4).trans
                  (loadBigPrev_node hrwj hbj2).symm,
                (loadBigNext_node hr4j hlkj4).trans
                  (loadBigNext_node hrwj hbj2).symm⟩
        · exact hR.htn
        · intro x hx
          rw [List.getLast?_cons_cons] at hx
          exact hR.htp x hx
    case _ hok =>
      injection heq with i1 i2
      cases i1

theorem getLast?_append_cons : ∀ (u : List Nat) (y : Nat) (v : List Nat),
    (u ++ y :: v).getLast? = (y :: v).getLast?
  | [], _, _ => rfl
  | x :: u, y, v => by
    have h1 : (u ++ y :: v) ≠ [] := by simp
    rw [List.cons_append]
    cases hu : u ++ y :: v with
    | nil => exact absurd hu h1
    | cons z t =>
      rw [List.getLast?_cons_cons, ← hu]
      exact getLast?_append_cons u y v

theorem loadBigPrev_congr_node {w w1 : World} {x : Nat}
    (h1 : resolveBig w x = Loc.bigAt x) (h2 : resolveBig w1 x = Loc.bigAt x)
    (hb : w1.bigs.lookup x = w.bigs.lookup x) :
    loadBigPrev w1 x = loadBigPrev w x := by
  simp only [loadBigPrev, h1, h2]
  rw [hb]

theorem loadBigNext_congr_node {w w1 : World} {x : Nat}
    (h1 : resolveBig w x = Loc.bigAt x) (h2 : resolveBig w1 x = Loc.bigAt x)
    (hb : w1.bigs.lookup x = w.bigs.lookup x) :
    loadBigNext w1 x = loadBigNext w x := by
  simp only [loadBigNext, h1, h2]
  rw [hb]

/-- Assembly of `BigRing` after a release: the surgery world `W6` differs
from `w` only at the unlinked node's two neighbours (and the arena record,
when a neighbour is a sentinel). -/
theorem ring_release_core (w W6 : World) (A : Nat) (a a1 : ArenaS)
    (u v : List Nat) (q Pval Nval : Nat)
    (hR : BigRing w A a (u ++ q :: v))
    (hP : loadBigPrev w q = Pval) (hN : loadBigNext w q = Nval)
    (hPu : ∀ p0, u.getLast? = some p0 → Pval = p0)
    (hW6look : ∀ k, W6.arenas.lookup k =
      if k = A then some a1 else w.arenas.lookup k)
    (hW6S : W6.smalls = w.smalls) (hW6N : W6.nextAddr = w.nextAddr)
    (hbSome : ∀ x, (W6.bigs.lookup x).isSome = (w.bigs.lookup x).isSome)
    (hcapEq : ∀ x bx b6, w.bigs.lookup x = some bx → W6.bigs.lookup x = some b6 →
      b6.capacity = bx.capacity)
    (hmid_u : ∀ j, j ∈ u → u.getLast? ≠ some j →
      loadBigPrev W6 j = loadBigPrev w j ∧ loadBigNext W6 j = loadBigNext w j)
    (hload_p0 : ∀ p0, u.getLast? = some p0 →
      loadBigPrev W6 p0 = loadBigPrev w p0 ∧ loadBigNext W6 p0 = Nval)
    (hload_v0 : ∀ v0, v.head? = some v0 →
      loadBigPrev W6 v0 = Pval ∧ loadBigNext W6 v0 = loadBigNext w v0)
    (hmid_v : ∀ j, j ∈ v.tail →
      loadBigPrev W6 j = loadBigPrev w j ∧ loadBigNext W6 j = loadBigNext w j)
    (hbhn : a1.big_head_next = if u = [] then Nval else a.big_head_next)
    (hbtn : a1.big_tail_next = a.big_tail_next)
    (hbtp : if v = [] then a1.big_tail_prev = Pval
      else a1.big_tail_prev = a.big_tail_prev) :
    BigRing W6 A a1 (u ++ v) := by
  have e112 : OFF_BIG_TAIL = 112 := rfl
  have e88 : OFF_BIG_HEAD = 88 := rfl
  have hW6arenasNone : ∀ k, w.arenas.lookup k = none →
      W6.arenas.lookup k = none := by
    intro k hk
    rw [hW6look]
    by_cases hkA : k = A
    · exfalso
      rw [hkA, show w.arenas.lookup A = some a from hR.harena] at hk
      cases hk
    · rw [if_neg hkA]
      exact hk
  refine ⟨?_, hR.hAnz, ?_, ?_, ?_, ?_, ?_, ?_, ?_, ?_, ?_⟩
  · show W6.arenas.lookup A = some a1
    rw [hW6look, if_pos rfl]
  · intro k hk
    rw [hW6look] at hk
    rw [hW6N]
    by_cases hkA : k = A
    · rw [hkA]
      exact hR.hbA A (by rw [show w.arenas.lookup A = some a from hR.harena]; rfl)
    · rw [if_neg hkA] at hk
      exact hR.hbA k hk
  · intro x hx
    rw [hbSome] at hx
    rw [hW6N]
    exact hR.hbB x hx
  · intro k hk
    rw [hW6S] at hk
    rw [hW6N]
    exact hR.hbS k hk
  · rw [hW6look, if_neg (by omega)]
    exact hR.ha24
  · have h0 := hR.hnd
    rw [List.nodup_append] at h0 ⊢
    exact ⟨h0.1, (List.nodup_cons.mp h0.2.1).2,
      fun x hxu hxv => h0.2.2 hxu (List.mem_cons_of_mem _ hxv)⟩
  · intro x hx
    have hxl : x ∈ u ++ q :: v := by
      rcases List.mem_append.mp hx with h | h
      · exact List.mem_append_left _ h
      · exact List.mem_append_right _ (List.mem_cons_of_mem _ h)
    obtain ⟨hbx, hx88, hx112, hxs, hxcap⟩ := hR.hmem x hxl
    obtain ⟨bx, hbx2⟩ := Option.isSome_iff_exists.mp hbx
    have hbx6 : (W6.bigs.lookup x).isSome := by
      rw [hbSome]
      exact hbx
    obtain ⟨b6, hb62⟩ := Option.isSome_iff_exists.mp hbx6
    refine ⟨hbx6, hW6arenasNone _ hx88, hW6arenasNone _ hx112, ?_, ?_⟩
    · rw [hW6S]
      exact hxs
    · rw [hb62]
      show _ < b6.capacity
      rw [hcapEq x bx b6 hbx2 hb62]
      rw [hbx2] at hxcap
      exact hxcap
  · have hcl := ringSeg_unlink u (A + OFF_BIG_HEAD) a.big_head_next v hR.hseg
      hR.hnd hmid_u
      (fun p0 hp0 => ⟨(hload_p0 p0 hp0).1, (hload_p0 p0 hp0).2.trans hN.symm⟩)
      (fun v0 hv0 => ⟨(hload_v0 v0 hv0).1.trans hP.symm, (hload_v0 v0 hv0).2⟩)
      hmid_v
    by_cases hu0 : u = []
    · rw [if_pos hu0] at hcl
      rw [hN] at hcl
      rw [show a1.big_head_next = Nval from by rw [hbhn, if_pos hu0]]
      exact hcl
    · rw [if_neg hu0] at hcl
      rw [show a1.big_head_next = a.big_head_next from by rw [hbhn, if_neg hu0]]
      exact hcl
  · rw [hbtn]
    exact hR.htn
  · intro x hx
    cases v with
    | nil =>
      rw [if_pos rfl] at hbtp
      rw [List.append_nil] at hx
      rw [hbtp]
      exact hPu x hx
    | cons v0 v1 =>
      rw [if_neg (List.cons_ne_nil v0 v1)] at hbtp
      rw [hbtp]
      refine hR.htp x ?_
      rw [getLast?_append_cons u q (v0 :: v1), List.getLast?_cons_cons]
      rw [getLast?_append_cons u v0 v1] at hx
      exact hx

theorem updArena_assertOk {w : World} {A : Nat} {a : ArenaS}
    (hA : getArena w A = some a) (f : ArenaS → ArenaS) :
    (updArena w A f).assertOk = w.assertOk := by
  unfold updArena
  rw [show w.arenas.lookup A = some a from hA]
  rfl

theorem loadBig_both_congr_node {w w1 : World} {x : Nat}
    (ha88 : w.arenas.lookup (x - OFF_BIG_HEAD) = none)
    (ha112 : w.arenas.lookup (x - OFF_BIG_TAIL) = none)
    (ha881 : w1.arenas.lookup (x - OFF_BIG_HEAD) = none)
    (ha1121 : w1.arenas.lookup (x - OFF_BIG_TAIL) = none)
    (hb : w1.bigs.lookup x = w.bigs.lookup x)
    (hbs : (w.bigs.lookup x).isSome) :
    loadBigPrev w1 x = loadBigPrev w x ∧ loadBigNext w1 x = loadBigNext w x := by
  have h1 : resolveBig w x = Loc.bigAt x := resolveBig_node ha88 ha112 hbs
  have h2 : resolveBig w1 x = Loc.bigAt x :=
    resolveBig_node ha881 ha1121 (by rw [hb]; exact hbs)
  exact ⟨loadBigPrev_congr_node h1 h2 hb, loadBigNext_congr_node h1 h2 hb⟩

/-- `afree` of a live big block: the neighbour sanity assertion passes and
the node leaves the ring, whose remaining nodes stay correctly linked. -/
theorem ring_release_spec (w : World) (A : Nat) (a : ArenaS) (l : List Nat)
    (q : Nat) (hR0 : BigRing w A a l) (hq : q ∈ l) :
    ∃ a1, BigRing (afree w A (q + SIZEOF_BIG_HEADER)) A a1 (l.erase q) ∧
      (afree w A (q + SIZEOF_BIG_HEADER)).assertOk = w.assertOk := by
  have e8 : SIZEOF_SMALL_HEADER = 8 := rfl
  have e24 : SIZEOF_BIG_HEADER = 24 := rfl
  have e448 : ARENAIMP_LARGEST_SIZECLASS = 448 := rfl
  have e224 : SIZEOF_ARENAIMP_T = 224 := rfl
  have e88 : OFF_BIG_HEAD = 88 := rfl
  have e112 : OFF_BIG_TAIL = 112 := rfl
  obtain ⟨u, v, hal⟩ := List.append_of_mem hq
  subst hal
  have hR := hR0
  obtain ⟨hbq, hq88, hq112, hqs, hqcap⟩ :=
    hR.hmem q (List.mem_append_right _ (List.mem_cons_self _ _))
  obtain ⟨bq, hbq2⟩ := Option.isSome_iff_exists.mp hbq
  rw [hbq2] at hqcap
  simp only [Option.getD_some] at hqcap
  have hcap : readCapacityAt w (q + SIZEOF_BIG_HEADER) = some bq.capacity := by
    unfold readCapacityAt
    rw [hqs]
    rw [show q + SIZEOF_BIG_HEADER - SIZEOF_BIG_HEADER = q from by omega, hbq2]
  have hAsome : (w.arenas.lookup A).isSome := by
    rw [show w.arenas.lookup A = some a from hR.harena]
    rfl
  have hndq : q ∉ u := by
    have h0 := hR.hnd
    rw [List.nodup_append] at h0
    exact fun hm => h0.2.2 hm (List.mem_cons_self _ _)
  have herase : (u ++ q :: v).erase q = u ++ v := by
    rw [List.erase_append_right _ hndq, List.erase_cons_head]
  rw [herase]
  obtain ⟨hsegv, hsplit⟩ :=
    ringSeg_split u (A + OFF_BIG_HEAD) a.big_head_next v hR.hseg
  have hrq : resolveBig w q = Loc.bigAt q := resolveBig_node hq88 hq112 hbq
  have hPq : loadBigPrev w q = bq.prev := loadBigPrev_node hrq hbq2
  have hNq : loadBigNext w q = bq.next := loadBigNext_node hrq hbq2
  unfold afree
  rw [if_neg (show ¬(q + SIZEOF_BIG_HEADER = 0) from by omega),
    if_neg hR.hAnz, hcap]
  dsimp only
  rw [if_neg (show ¬(bq.capacity ≤
    ARENAIMP_LARGEST_SIZECLASS - SIZEOF_SMALL_HEADER) from by omega)]
  rw [show q + SIZEOF_BIG_HEADER - SIZEOF_BIG_HEADER = q from by omega]
  rw [hPq, hNq]
  rcases hsplit with ⟨hu0, hc, hp⟩ | ⟨p0, hql, hp0u, hp, hn⟩
  · -- the node sits right behind the head sentinel
    subst hu0
    have hPv : bq.prev = A + OFF_BIG_HEAD := hPq.symm.trans hp
    have hrhead : resolveBig w (A + OFF_BIG_HEAD) = Loc.headOf A :=
      resolveBig_head hAsome
    have hnb1 : loadBigNext w bq.prev = q := by
      rw [hPv, loadBigNext_head hrhead hR.harena]
      exact hc
    cases v with
    | nil =>
      have hNv : bq.next = A + OFF_BIG_TAIL := hNq.symm.trans hsegv
      have hrtail : resolveBig w (A + OFF_BIG_TAIL) = Loc.tailOf A :=
        resolveBig_tail hAsome hR.ha24
      have hnb2 : loadBigPrev w bq.next = q := by
        rw [hNv, loadBigPrev_tail hrtail hR.harena]
        exact hR.htp q rfl
      have hcond : ((loadBigNext w bq.prev == q) &&
          (loadBigPrev w bq.next == q)) = true := by
        rw [hnb1, hnb2]
        simp
      rw [hcond]
      rw [show World.assertCheck w true = w from rfl]
      rw [hPv, hNv]
      have hs1 : storeBigNext w (A + OFF_BIG_HEAD) (A + OFF_BIG_TAIL) =
          updArena w A (fun s => { s with big_head_next := A + OFF_BIG_TAIL }) := by
        unfold storeBigNext
        rw [hrhead]
      rw [hs1]
      have hA5 : getArena (updArena w A
          (fun s => { s with big_head_next := A + OFF_BIG_TAIL })) A =
          some { a with big_head_next := A + OFF_BIG_TAIL } :=
        getArena_upd_self _ hR.harena
      set W5 : World := updArena w A
        (fun s => { s with big_head_next := A + OFF_BIG_TAIL }) with hW5def
      have hW5look : ∀ k, W5.arenas.lookup k =
          if k = A then some { a with big_head_next := A + OFF_BIG_TAIL }
          else w.arenas.lookup k := fun k => updArena_arenas_lookup hR.harena _ k
      have hrt5 : resolveBig W5 (A + OFF_BIG_TAIL) = Loc.tailOf A := by
        refine resolveBig_tail ?_ ?_
        · rw [hW5look, if_pos rfl]
          rfl
        · rw [hW5look, if_neg (by omega)]
          exact hR.ha24
      have hs2 : storeBigPrev W5 (A + OFF_BIG_TAIL) (A + OFF_BIG_HEAD) =
          updArena W5 A (fun s => { s with big_tail_prev := A + OFF_BIG_HEAD }) := by
        unfold storeBigPrev
        rw [hrt5]
      rw [hs2]
      set W6 : World := updArena W5 A
        (fun s => { s with big_tail_prev := A + OFF_BIG_HEAD }) with hW6def
      refine ⟨{ a with big_head_next := A + OFF_BIG_TAIL, big_tail_prev := A + OFF_BIG_HEAD }, ?_, ?_⟩
      · refine ring_release_core w W6 A a _ [] [] q (A + OFF_BIG_HEAD)
          (A + OFF_BIG_TAIL) hR hp hsegv
          (fun p1 hp1 => by simp at hp1)
          ?_ ?_ ?_ ?_ ?_
          (fun j hj _ => absurd hj (List.not_mem_nil j))
          (fun p1 hp1 => by simp at hp1)
          (fun v1 hv1 => by simp at hv1)
          (fun j hj => absurd hj (List.not_mem_nil j))
          (by rw [if_pos rfl]) rfl (by rw [if_pos rfl])
        · intro k
          rw [show W6.arenas.lookup k = _ from updArena_arenas_lookup hA5 _ k,
            hW5look]
          by_cases hk : k = A
          · rw [if_pos hk, if_pos hk]
          · rw [if_neg hk, if_neg hk, if_neg hk]
        · exact (updArena_smalls hA5 _).trans (updArena_smalls hR.harena _)
        · exact (updArena_nextAddr hA5 _).trans (updArena_nextAddr hR.harena _)
        · intro x
          rw [show W6.bigs = w.bigs from
            (updArena_bigs hA5 _).trans (updArena_bigs hR.harena _)]
        · intro x bx b6 hbx hb6
          rw [show W6.bigs = w.bigs from
            (updArena_bigs hA5 _).trans (updArena_bigs hR.harena _), hbx] at hb6
          injection hb6 with hb6
          rw [← hb6]
      · exact (updArena_assertOk hA5 _).trans (updArena_assertOk hR.harena _)
    | cons v0 v1 =>
      obtain ⟨hv0e, hv0p, hv1seg⟩ := hsegv
      have hNv : bq.next = v0 := hNq.symm.trans hv0e
      obtain ⟨hbv0, hv088, hv0112, hv0s, hv0cap⟩ := hR.hmem v0
        (List.mem_append_right _ (List.mem_cons_of_mem _ (List.mem_cons_self _ _)))
      obtain ⟨bv0, hbv02⟩ := Option.isSome_iff_exists.mp hbv0
      have hrv0 : resolveBig w v0 = Loc.bigAt v0 :=
        resolveBig_node hv088 hv0112 hbv0
      have hnb2 : loadBigPrev w bq.next = q := by
        rw [hNv]
        exact hv0p
      have hcond : ((loadBigNext w bq.prev == q) &&
          (loadBigPrev w bq.next == q)) = true := by
        rw [hnb1, hnb2]
        simp
      rw [hcond]
      rw [show World.assertCheck w true = w from rfl]
      rw [hPv, hNv]
      have hs1 : storeBigNext w (A + OFF_BIG_HEAD) v0 =
          updArena w A (fun s => { s with big_head_next := v0 }) := by
        unfold storeBigNext
        rw [hrhead]
      rw [hs1]
      have hA5 : getArena (updArena w A
          (fun s => { s with big_head_next := v0 })) A =
          some { a with big_head_next := v0 } :=
        getArena_upd_self _ hR.harena
      set W5 : World := updArena w A (fun s => { s with big_head_next := v0 })
        with hW5def
      have hW5look : ∀ k, W5.arenas.lookup k =
          if k = A then some { a with big_head_next := v0 }
          else w.arenas.lookup k := fun k => updArena_arenas_lookup hR.harena _ k
      have hW5none : ∀ k, w.arenas.lookup k = none →
          W5.arenas.lookup k = none := by
        intro k hk
        rw [hW5look]
        by_cases hkA : k = A
        · exfalso
          rw [hkA, show w.arenas.lookup A = some a from hR.harena] at hk
          cases hk
        · rw [if_neg hkA]
          exact hk
      have hW5B : W5.bigs = w.bigs := updArena_bigs hR.harena _
      have hrv05 : resolveBig W5 v0 = Loc.bigAt v0 :=
        resolveBig_node (hW5none _ hv088) (hW5none _ hv0112)
          (by rw [hW5B]; exact hbv0)
      have hs2 : storeBigPrev W5 v0 (A + OFF_BIG_HEAD) =
          { W5 with bigs := (setAssoc W5.bigs v0
            { bv0 with prev := A + OFF_BIG_HEAD }) } := by
        unfold storeBigPrev
        rw [hrv05]
        dsimp only
        rw [show W5.bigs.lookup v0 = some bv0 from by rw [hW5B]; exact hbv02]
      rw [hs2]
      set W6 : World := { W5 with bigs := (setAssoc W5.bigs v0
        { bv0 with prev := A + OFF_BIG_HEAD }) } with hW6def
      have hW6B : ∀ x, W6.bigs.lookup x =
          if x = v0 then some { bv0 with prev := A + OFF_BIG_HEAD }
          else w.bigs.lookup x := by
        intro x
        show (setAssoc W5.bigs v0 _).lookup x = _
        rw [lookup_setAssoc, hW5B]
      have hW6look : ∀ k, W6.arenas.lookup k =
          if k = A then some { a with big_head_next := v0 }
          else w.arenas.lookup k := hW5look
      have hW6none : ∀ k, w.arenas.lookup k = none →
          W6.arenas.lookup k = none := hW5none
      have hv0q : v0 ≠ q := by
        have h0 := hR.hnd
        rw [List.nil_append] at h0
        intro he
        exact (List.nodup_cons.mp h0).1 (he ▸ List.mem_cons_self v0 v1)
      refine ⟨{ a with big_head_next := v0 }, ?_, ?_⟩
      · refine ring_release_core w W6 A a _ [] (v0 :: v1) q (A + OFF_BIG_HEAD)
          v0 hR hp (hNq.trans hNv)
          (fun p1 hp1 => by simp at hp1)
          hW6look ?_ ?_ ?_ ?_
          (fun j hj _ => absurd hj (List.not_mem_nil j))
          (fun p1 hp1 => by simp at hp1)
          ?_ ?_
          (by rw [if_pos rfl]) rfl
          (by rw [if_neg (List.cons_ne_nil v0 v1)])
        · exact updArena_smalls hR.harena _
        · exact updArena_nextAddr hR.harena _
        · intro x
          rw [hW6B]
          by_cases hx : x = v0
          · rw [if_pos hx, hx, hbv02]
            rfl
          · rw [if_neg hx]
        · intro x bx b6 hbx hb6
          rw [hW6B] at hb6
          by_cases hx : x = v0
          · rw [if_pos hx] at hb6
            rw [hx, hbv02] at hbx
            injection hbx with hbx
            injection hb6 with hb6
            rw [← hb6, ← hbx]
          · rw [if_neg hx, hbx] at hb6
            injection hb6 with hb6
            rw [← hb6]
        · intro x hx
          have hxv0 : x = v0 := by
            have := hx
            simp at this
            omega
          subst hxv0
          constructor
          · rw [loadBigPrev_node ?_ (show W6.bigs.lookup x = some
              { bv0 with prev := A + OFF_BIG_HEAD } from by
                rw [hW6B, if_pos rfl])]
            case _ =>
              exact resolveBig_node (hW6none _ hv088) (hW6none _ hv0112)
                (by rw [hW6B, if_pos rfl]; rfl)
          · rw [loadBigNext_node ?_ (show W6.bigs.lookup x = some
              { bv0 with prev := A + OFF_BIG_HEAD } from by
                rw [hW6B, if_pos rfl]),
              loadBigNext_node hrv0 hbv02]
            case _ =>
              exact resolveBig_node (hW6none _ hv088) (hW6none _ hv0112)
                (by rw [hW6B, if_pos rfl]; rfl)
        · intro j hj
          have hjl : j ∈ [] ++ q :: v0 :: v1 :=
            List.mem_append_right _
              (List.mem_cons_of_mem _ (List.mem_cons_of_mem _ hj))
          obtain ⟨hbj, hj88, hj112, _, _⟩ := hR.hmem j hjl
          have hjv0 : j ≠ v0 := by
            have h0 := hR.hnd
            rw [List.nil_append] at h0
            have h1 := (List.nodup_cons.mp h0).2
            intro he
            exact (List.nodup_cons.mp h1).1 (he ▸ hj)
          exact loadBig_both_congr_node hj88 hj112 (hW6none _ hj88)
            (hW6none _ hj112) (by rw [hW6B, if_neg hjv0]) hbj
      · exact updArena_assertOk hR.harena _
  · -- the node has a big-block predecessor
    have hu0ne : u ≠ [] := List.ne_nil_of_mem hp0u
    have hPv : bq.prev = p0 := hPq.symm.trans hp
    have hp0l : p0 ∈ u ++ q :: v := List.mem_append_left _ hp0u
    obtain ⟨hbp0, hp088, hp0112, hp0s, hp0cap⟩ := hR.hmem p0 hp0l
    obtain ⟨bp0, hbp02⟩ := Option.isSome_iff_exists.mp hbp0
    have hrp0 : resolveBig w p0 = Loc.bigAt p0 :=
      resolveBig_node hp088 hp0112 hbp0
    have hnb1 : loadBigNext w bq.prev = q := by
      rw [hPv]
      exact hn
    have hnd2 := hR.hnd
    rw [List.nodup_append] at hnd2
    cases v with
    | nil =>
      have hNv : bq.next = A + OFF_BIG_TAIL := hNq.symm.trans hsegv
      have hrtail : resolveBig w (A + OFF_BIG_TAIL) = Loc.tailOf A :=
        resolveBig_tail hAsome hR.ha24
      have hnb2 : loadBigPrev w bq.next = q := by
        rw [hNv, loadBigPrev_tail hrtail hR.harena]
        refine hR.htp q ?_
        rw [getLast?_append_cons u q []]
        rfl
      have hcond : ((loadBigNext w bq.prev == q) &&
          (loadBigPrev w bq.next == q)) = true := by
        rw [hnb1, hnb2]
        simp
      rw [hcond]
      rw [show World.assertCheck w true = w from rfl]
      rw [hPv, hNv]
      have hs1 : storeBigNext w p0 (A + OFF_BIG_TAIL) =
          { w with bigs := (setAssoc w.bigs p0
            { bp0 with next := A + OFF_BIG_TAIL }) } := by
        unfold storeBigNext
        rw [hrp0]
        dsimp only
        rw [hbp02]
      rw [hs1]
      set W5 : World := { w with bigs := (setAssoc w.bigs p0
        { bp0 with next := A + OFF_BIG_TAIL }) } with hW5def
      have hW5B : ∀ x, W5.bigs.lookup x =
          if x = p0 then some { bp0 with next := A + OFF_BIG_TAIL }
          else w.bigs.lookup x := by
        intro x
        show (setAssoc w.bigs p0 _).lookup x = _
        rw [lookup_setAssoc]
      have hrt5 : resolveBig W5 (A + OFF_BIG_TAIL) = Loc.tailOf A := by
        refine resolveBig_tail ?_ ?_
        · exact hAsome
        · exact hR.ha24
      have hs2 : storeBigPrev W5 (A + OFF_BIG_TAIL) p0 =
          updArena W5 A (fun s => { s with big_tail_prev := p0 }) := by
        unfold storeBigPrev
        rw [hrt5]
      rw [hs2]
      have hA5 : getArena W5 A = some a := hR.harena
      set W6 : World := updArena W5 A (fun s => { s with big_tail_prev := p0 })
        with hW6def
      have hW6look : ∀ k, W6.arenas.lookup k =
          if k = A then some { a with big_tail_prev := p0 }
          else w.arenas.lookup k := fun k => updArena_arenas_lookup hA5 _ k
      have hW6none : ∀ k, w.arenas.lookup k = none →
          W6.arenas.lookup k = none := by
        intro k hk
        rw [hW6look]
        by_cases hkA : k = A
        · exfalso
          rw [hkA, show w.arenas.lookup A = some a from hR.harena] at hk
          cases hk
        · rw [if_neg hkA]
          exact hk
      have hW6B : ∀ x, W6.bigs.lookup x =
          if x = p0 then some { bp0 with next := A + OFF_BIG_TAIL }
          else w.bigs.lookup x := by
        intro x
        rw [show W6.bigs = W5.bigs from updArena_bigs hA5 _]
        exact hW5B x
      have hlk6 : W6.bigs.lookup p0 =
          some { bp0 with next := A + OFF_BIG_TAIL } := by
        rw [hW6B, if_pos rfl]
      have hr6 : resolveBig W6 p0 = Loc.bigAt p0 :=
        resolveBig_node (hW6none _ hp088) (hW6none _ hp0112)
          (by rw [hlk6]; rfl)
      refine ⟨{ a with big_tail_prev := p0 }, ?_, ?_⟩
      · refine ring_release_core w W6 A a _ u [] q p0 (A + OFF_BIG_TAIL)
          hR hp hsegv
          (fun p1 hp1 => by rw [hql] at hp1; exact Option.some.inj hp1)
          hW6look ?_ ?_ ?_ ?_ ?_ ?_
          (fun v1 hv1 => by simp at hv1)
          (fun j hj => absurd hj (List.not_mem_nil j))
          (by rw [if_neg hu0ne]) rfl (by rw [if_pos rfl])
        · exact updArena_smalls hA5 _
        · exact updArena_nextAddr hA5 _
        · intro x
          rw [hW6B]
          by_cases hx : x = p0
          · rw [if_pos hx, hx, hbp02]
            rfl
          · rw [if_neg hx]
        · intro x bx b6 hbx hb6
          rw [hW6B] at hb6
          by_cases hx : x = p0
          · rw [if_pos hx] at hb6
            rw [hx, hbp02] at hbx
            injection hbx with hbx
            injection hb6 with hb6
            rw [← hb6, ← hbx]
          · rw [if_neg hx, hbx] at hb6
            injection hb6 with hb6
            rw [← hb6]
        · intro j hj hjne
          have hjp0 : j ≠ p0 := fun he => hjne (by rw [he]; exact hql)
          obtain ⟨hbj, hj88, hj112, _, _⟩ :=
            hR.hmem j (List.mem_append_left _ hj)
          exact loadBig_both_congr_node hj88 hj112 (hW6none _ hj88)
            (hW6none _ hj112) (by rw [hW6B, if_neg hjp0]) hbj
        · intro p1 hp1
          have hp1e : p1 = p0 := by
            rw [hql] at hp1
            exact (Option.some.inj hp1).symm
          subst hp1e
          constructor
          · rw [loadBigPrev_node hr6 hlk6, loadBigPrev_node hrp0 hbp02]
          · rw [loadBigNext_node hr6 hlk6]
      · exact updArena_assertOk hA5 _
    | cons v0 v1 =>
      obtain ⟨hv0e, hv0p, hv1seg⟩ := hsegv
      have hNv : bq.next = v0 := hNq.symm.trans hv0e
      obtain ⟨hbv0, hv088, hv0112, hv0s, hv0cap⟩ := hR.hmem v0
        (List.mem_append_right _
          (List.mem_cons_of_mem _ (List.mem_cons_self _ _)))
      obtain ⟨bv0, hbv02⟩ := Option.isSome_iff_exists.mp hbv0
      have hrv0 : resolveBig w v0 = Loc.bigAt v0 :=
        resolveBig_node hv088 hv0112 hbv0
      have hv0p0 : v0 ≠ p0 := fun he =>
        hnd2.2.2 hp0u (by
          rw [← he]
          exact List.mem_cons_of_mem _ (List.mem_cons_self _ _))
      have hp0v0 : p0 ≠ v0 := fun he => hv0p0 he.symm
      have hnb2 : loadBigPrev w bq.next = q := by
        rw [hNv]
        exact hv0p
      have hcond : ((loadBigNext w bq.prev == q) &&
          (loadBigPrev w bq.next == q)) = true := by
        rw [hnb1, hnb2]
        simp
      rw [hcond]
      rw [show World.assertCheck w true = w from rfl]
      rw [hPv, hNv]
      have hs1 : storeBigNext w p0 v0 =
          { w with bigs := (setAssoc w.bigs p0 { bp0 with next := v0 }) } := by
        unfold storeBigNext
        rw [hrp0]
        dsimp only
        rw [hbp02]
      rw [hs1]
      set W5 : World := { w with bigs := (setAssoc w.bigs p0
        { bp0 with next := v0 }) } with hW5def
      have hW5B : ∀ x, W5.bigs.lookup x =
          if x = p0 then some { bp0 with next := v0 }
          else w.bigs.lookup x := by
        intro x
        show (setAssoc w.bigs p0 _).lookup x = _
        rw [lookup_setAssoc]
      have hrv05 : resolveBig W5 v0 = Loc.bigAt v0 :=
        resolveBig_node hv088 hv0112
          (by rw [hW5B v0, if_neg hv0p0]; exact hbv0)
      have hs2 : storeBigPrev W5 v0 p0 =
          { W5 with bigs := (setAssoc W5.bigs v0 { bv0 with prev := p0 }) } := by
        unfold storeBigPrev
        rw [hrv05]
        dsimp only
        rw [show W5.bigs.lookup v0 = some bv0 from by
          rw [hW5B v0, if_neg hv0p0]
          exact hbv02]
      rw [hs2]
      set W6 : World := { W5 with bigs := (setAssoc W5.bigs v0
        { bv0 with prev := p0 }) } with hW6def
      have hW6B : ∀ x, W6.bigs.lookup x =
          if x = v0 then some { bv0 with prev := p0 }
          else if x = p0 then some { bp0 with next := v0 }
          else w.bigs.lookup x := by
        intro x
        show (setAssoc W5.bigs v0 _).lookup x = _
        rw [lookup_setAssoc]
        by_cases hx : x = v0
        · rw [if_pos hx, if_pos hx]
        · rw [if_neg hx, if_neg hx, hW5B]
      have hW6look : ∀ k, W6.arenas.lookup k =
          if k = A then some a else w.arenas.lookup k := by
        intro k
        show w.arenas.lookup k = _
        by_cases hkA : k = A
        · rw [if_pos hkA, hkA]
          exact hR.harena
        · rw [if_neg hkA]
      have hlk6p : W6.bigs.lookup p0 = some { bp0 with next := v0 } := by
        rw [hW6B, if_neg hp0v0, if_pos rfl]
      have hlk6v : W6.bigs.lookup v0 = some { bv0 with prev := p0 } := by
        rw [hW6B, if_pos rfl]
      have hr6p : resolveBig W6 p0 = Loc.bigAt p0 :=
        resolveBig_node hp088 hp0112 (by rw [hlk6p]; rfl)
      have hr6v : resolveBig W6 v0 = Loc.bigAt v0 :=
        resolveBig_node hv088 hv0112 (by rw [hlk6v]; rfl)
      refine ⟨a, ?_, ?_⟩
      · refine ring_release_core w W6 A a a u (v0 :: v1) q p0 v0
          hR hp (hNq.trans hNv)
          (fun p1 hp1 => by rw [hql] at hp1; exact Option.some.inj hp1)
          hW6look rfl rfl ?_ ?_ ?_ ?_ ?_ ?_
          (by rw [if_neg hu0ne]) rfl
          (by rw [if_neg (List.cons_ne_nil v0 v1)])
        · intro x
          rw [hW6B]
          by_cases hx : x = v0
          · rw [if_pos hx, hx, hbv02]
            rfl
          · rw [if_neg hx]
            by_cases hx2 : x = p0
            · rw [if_pos hx2, hx2, hbp02]
              rfl
            · rw [if_neg hx2]
        · intro x bx b6 hbx hb6
          rw [hW6B] at hb6
          by_cases hx : x = v0
          · rw [if_pos hx] at hb6
            rw [hx, hbv02] at hbx
            injection hbx with hbx
            injection hb6 with hb6
            rw [← hb6, ← hbx]
          · rw [if_neg hx] at hb6
            by_cases hx2 : x = p0
            · rw [if_pos hx2] at hb6
              rw [hx2, hbp02] at hbx
              injection hbx with hbx
              injection hb6 with hb6
              rw [← hb6, ← hbx]
            · rw [if_neg hx2, hbx] at hb6
              injection hb6 with hb6
              rw [← hb6]
        · intro j hj hjne
          have hjp0 : j ≠ p0 := fun he => hjne (by rw [he]; exact hql)
          have hjv0 : j ≠ v0 := fun he =>
            hnd2.2.2 (he ▸ hj)
              (List.mem_cons_of_mem _ (List.mem_cons_self _ _))
          obtain ⟨hbj, hj88, hj112, _, _⟩ :=
            hR.hmem j (List.mem_append_left _ hj)
          exact loadBig_both_congr_node hj88 hj112 hj88 hj112
            (by rw [hW6B, if_neg hjv0, if_neg hjp0]) hbj
        · intro p1 hp1
          have hp1e : p1 = p0 := by
            rw [hql] at hp1
            exact (Option.some.inj hp1).symm
          subst hp1e
          constructor
          · rw [loadBigPrev_node hr6p hlk6p, loadBigPrev_node hrp0 hbp02]
          · rw [loadBigNext_node hr6p hlk6p]
        · intro x hx
          have hxv0 : x = v0 := by
            have := hx
            simp at this
            omega
          subst hxv0
          constructor
          · rw [loadBigPrev_node hr6v hlk6v]
          · rw [loadBigNext_node hr6v hlk6v, loadBigNext_node hrv0 hbv02]
        · intro j hj
          have hjv0 : j ≠ v0 := fun he =>
            (List.nodup_cons.mp (List.nodup_cons.mp hnd2.2.1).2).1 (he ▸ hj)
          have hjp0 : j ≠ p0 := fun he =>
            hnd2.2.2 hp0u
              (he ▸ (List.mem_cons_of_mem _ (List.mem_cons_of_mem _ hj)))
          obtain ⟨hbj, hj88, hj112, _, _⟩ := hR.hmem j
            (List.mem_append_right _
              (List.mem_cons_of_mem _ (List.mem_cons_of_mem _ hj)))
          exact loadBig_both_congr_node hj88 hj112 hj88 hj112
            (by rw [hW6B, if_neg hjv0, if_neg hjp0]) hbj
      · rfl

/-- The concrete world `c8w` satisfies the big-ring invariant with an
empty ring. -/
theorem bigRing_c8w : BigRing c8w 1024 c8a [] :=
  ⟨rfl, by decide,
    (by
      intro k hk
      by_cases h : k = 1024
      · subst h
        decide
      · exfalso
        rw [show c8w.arenas.lookup k = none from by
          show List.lookup k [(1024, c8a)] = none
          simp [List.lookup, beq_eq_false_iff_ne.mpr h]] at hk
        simp at hk),
    (by intro q hq; simp [c8w, List.lookup] at hq),
    (by intro k hk; simp [c8w, List.lookup] at hk),
    rfl, List.nodup_nil,
    (fun q hq => absurd hq (List.not_mem_nil q)),
    (by show c8a.big_head_next = 1024 + OFF_BIG_TAIL; rfl), rfl,
    (fun x hx => Option.noConfusion hx)⟩

/-- **C8.** Big-object ring validity: under `BigRing` the nodes form a
well-linked chain from the head sentinel to the tail sentinel whose `next`
closes the circle back to the head, with `head.next = tail` when the ring
is empty; `arenaimp_init` establishes the empty ring; the big-object branch
of `aalloc_uninit_size` preserves the invariant, linking the fresh node
right behind the head; and `afree` of a member preserves it, unlinking
exactly that node with the neighbour-pointer assertion passing. -/
theorem big_ring_invariant (w : World) (A : Nat) (a : ArenaS) (l : List Nat)
    (hR : BigRing w A a l) :
    (IsRingSeg w (A + OFF_BIG_TAIL) (A + OFF_BIG_HEAD) a.big_head_next l ∧
      a.big_tail_next = A + OFF_BIG_HEAD ∧
      (l = [] → a.big_head_next = A + OFF_BIG_TAIL)) ∧
    (∀ w0 B b, getArena w0 B = some b →
      ∃ b1, getArena (arenaimp_init w0 B) B = some b1 ∧
        b1.big_head_next = B + OFF_BIG_TAIL ∧
        b1.big_tail_next = B + OFF_BIG_HEAD ∧
        IsRingSeg (arenaimp_init w0 B) (B + OFF_BIG_TAIL) (B + OFF_BIG_HEAD)
          b1.big_head_next []) ∧
    (∀ fuel size count r w1,
      aalloc_uninit_size (fuel + 1) w A size count = (r, w1) →
      ¬(u64 (SIZEOF_SMALL_HEADER + u64 (size * count)) ≤
        ARENAIMP_LARGEST_SIZECLASS) →
      SIZEOF_BIG_HEADER + u64 (size * count) < U64 →
      (r = none ∧ BigRing w1 A a l) ∨
      (∃ p a1, r = some (p + SIZEOF_BIG_HEADER) ∧ BigRing w1 A a1 (p :: l))) ∧
    (∀ q, q ∈ l →
      ∃ a1, BigRing (afree w A (q + SIZEOF_BIG_HEADER)) A a1 (l.erase q) ∧
        (afree w A (q + SIZEOF_BIG_HEADER)).assertOk = w.assertOk) := by
  refine ⟨⟨hR.hseg, hR.htn, ?_⟩, ?_, ?_, ?_⟩
  · intro hl
    subst hl
    exact hR.hseg
  · intro w0 B b hB
    exact ⟨_, getArena_upd_self _ hB, rfl, rfl, rfl⟩
  · intro fuel size count r w1 hE hbig hnov
    rcases ring_insert_spec fuel w A a l size count r w1 hR hbig hnov hE with
      ⟨hn, hRR⟩ | ⟨p, a1, hr, hRR, _⟩
    · exact Or.inl ⟨hn, hRR⟩
    · exact Or.inr ⟨p, a1, hr, hRR⟩
  · intro q hq
    exact ring_release_spec w A a l q hR hq

/-- The big-ring invariant instantiated on the concrete one-arena world
`c8w`, whose ring is empty. -/
theorem big_ring_invariant_witness :
    (IsRingSeg c8w (1024 + OFF_BIG_TAIL) (1024 + OFF_BIG_HEAD)
        c8a.big_head_next [] ∧
      c8a.big_tail_next = 1024 + OFF_BIG_HEAD ∧
      (([] : List Nat) = [] → c8a.big_head_next = 1024 + OFF_BIG_TAIL)) ∧
    (∀ w0 B b, getArena w0 B = some b →
      ∃ b1, getArena (arenaimp_init w0 B) B = some b1 ∧
        b1.big_head_next = B + OFF_BIG_TAIL ∧
        b1.big_tail_next = B + OFF_BIG_HEAD ∧
        IsRingSeg (arenaimp_init w0 B) (B + OFF_BIG_TAIL) (B + OFF_BIG_HEAD)
          b1.big_head_next []) ∧
    (∀ fuel size count r w1,
      aalloc_uninit_size (fuel + 1) c8w 1024 size count = (r, w1) →
      ¬(u64 (SIZEOF_SMALL_HEADER + u64 (size * count)) ≤
        ARENAIMP_LARGEST_SIZECLASS) →
      SIZEOF_BIG_HEADER + u64 (size * count) < U64 →
      (r = none ∧ BigRing w1 1024 c8a []) ∨
      (∃ p a1, r = some (p + SIZEOF_BIG_HEADER) ∧
        BigRing w1 1024 a1 (p :: []))) ∧
    (∀ q, q ∈ ([] : List Nat) →
      ∃ a1, BigRing (afree c8w 1024 (q + SIZEOF_BIG_HEADER)) 1024 a1
          (([] : List Nat).erase q) ∧
        (afree c8w 1024 (q + SIZEOF_BIG_HEADER)).assertOk = c8w.assertOk) :=
  big_ring_invariant c8w 1024 c8a [] bigRing_c8w

/-- `BigRing` transfer across an arena-record update that leaves the three
ring fields unchanged. -/
theorem bigRing_updArena_other {w : World} {A : Nat} {a : ArenaS} {l : List Nat}
    (h : BigRing w A a l) (f : ArenaS → ArenaS)
    (hf1 : (f a).big_head_next = a.big_head_next)
    (hf2 : (f a).big_tail_next = a.big_tail_next)
    (hf3 : (f a).big_tail_prev = a.big_tail_prev) :
    BigRing (updArena w A f) A (f a) l := by
  have e88 : OFF_BIG_HEAD = 88 := rfl
  have e112 : OFF_BIG_TAIL = 112 := rfl
  have hlook : ∀ k, (updArena w A f).arenas.lookup k =
      if k = A then some (f a) else w.arenas.lookup k :=
    fun k => updArena_arenas_lookup h.harena f k
  have hnone : ∀ k, w.arenas.lookup k = none →
      (updArena w A f).arenas.lookup k = none := by
    intro k hk
    rw [hlook]
    by_cases hkA : k = A
    · exfalso
      rw [hkA, show w.arenas.lookup A = some a from h.harena] at hk
      cases hk
    · rw [if_neg hkA]
      exact hk
  have hB : (updArena w A f).bigs = w.bigs := updArena_bigs h.harena f
  have hS : (updArena w A f).smalls = w.smalls := updArena_smalls h.harena f
  have hN : (updArena w A f).nextAddr = w.nextAddr := updArena_nextAddr h.harena f
  refine ⟨?_, h.hAnz, ?_, ?_, ?_, ?_, h.hnd, ?_, ?_, ?_, ?_⟩
  · show (updArena w A f).arenas.lookup A = some (f a)
    rw [hlook, if_pos rfl]
  · intro k hk
    rw [hlook] at hk
    rw [hN]
    by_cases hkA : k = A
    · rw [hkA]
      exact h.hbA A (by rw [show w.arenas.lookup A = some a from h.harena]; rfl)
    · rw [if_neg hkA] at hk
      exact h.hbA k hk
  · intro q hq
    rw [hB] at hq
    rw [hN]
    exact h.hbB q hq
  · intro k hk
    rw [hS] at hk
    rw [hN]
    exact h.hbS k hk
  · rw [hlook, if_neg (by omega)]
    exact h.ha24
  · intro q hq
    obtain ⟨m1, m2, m3, m4, m5⟩ := h.hmem q hq
    refine ⟨by rw [hB]; exact m1, hnone _ m2, hnone _ m3, by rw [hS]; exact m4, ?_⟩
    rw [hB]
    exact m5
  · rw [hf1]
    refine ringSeg_congr _ _ _ _ h.hseg ?_
    intro j hj
    obtain ⟨m1, m2, m3, _, _⟩ := h.hmem j hj
    exact loadBig_both_congr_node m2 m3 (hnone _ m2) (hnone _ m3) (by rw [hB]) m1
  · rw [hf2]
    exact h.htn
  · intro x hx
    rw [hf3]
    exact h.htp x hx

/-- `BigRing` transfer across the insertion of a fresh small header: the
new key must not shadow a ring node's capacity word. -/
theorem bigRing_set_small {w : World} {A : Nat} {a : ArenaS} {l : List Nat}
    (h : BigRing w A a l) (k : Nat) (sh : SmallHdr)
    (hk : k < w.nextAddr)
    (hkq : ∀ q, q ∈ l → k ≠ q + SIZEOF_BIG_HEADER - SIZEOF_SMALL_HEADER) :
    BigRing { w with smalls := (setAssoc w.smalls k sh) } A a l := by
  refine ⟨h.harena, h.hAnz, h.hbA, h.hbB, ?_, h.ha24, h.hnd, ?_, ?_, h.htn, h.htp⟩
  · intro k2 hk2
    show k2 < w.nextAddr
    have hk2b : ((setAssoc w.smalls k sh).lookup k2).isSome := hk2
    rw [lookup_setAssoc] at hk2b
    by_cases he : k2 = k
    · rw [he]
      exact hk
    · rw [if_neg he] at hk2b
      exact h.hbS k2 hk2b
  · intro q hq
    obtain ⟨m1, m2, m3, m4, m5⟩ := h.hmem q hq
    refine ⟨m1, m2, m3, ?_, m5⟩
    show (setAssoc w.smalls k sh).lookup _ = none
    have hne : ¬(q + SIZEOF_BIG_HEADER - SIZEOF_SMALL_HEADER = k) :=
      fun he => hkq q hq he.symm
    rw [lookup_setAssoc, if_neg hne]
    exact m4
  · exact ringSeg_congr _ _ _ _ h.hseg (fun q _ => ⟨rfl, rfl⟩)

theorem lookup_foldl_remove_none {β : Type} :
    ∀ (l : List Nat) (m : List (Nat × β)) (q : Nat),
    m.lookup q = none →
    (l.foldl (fun m2 x => removeAssoc m2 x) m).lookup q = none
  | [], _, _, h => h
  | x :: l, m, q, h => by
    rw [List.foldl_cons]
    refine lookup_foldl_remove_none l _ q ?_
    rw [lookup_removeAssoc]
    by_cases he : q = x
    · rw [if_pos he]
    · rw [if_neg he]
      exact h

theorem lookup_foldl_remove {β : Type} :
    ∀ (l : List Nat) (m : List (Nat × β)) (q : Nat), q ∈ l →
    (l.foldl (fun m2 x => removeAssoc m2 x) m).lookup q = none
  | [], _, q, hq => absurd hq (List.not_mem_nil q)
  | x :: l, m, q, hq => by
    rw [List.foldl_cons]
    by_cases hql : q ∈ l
    · exact lookup_foldl_remove l _ q hql
    · have hqx : q = x := by
        rcases List.mem_cons.mp hq with h | h
        · exact h
        · exact absurd h hql
      subst hqx
      exact lookup_foldl_remove_none l _ q (by rw [lookup_removeAssoc, if_pos rfl])

/-- The big-object sweep walks the whole segment, emitting one `free` per
node and dropping exactly the nodes' headers. -/
theorem free_bigs_sweep :
    ∀ (l : List Nat) (fuel : Nat) (w : World) (A p c : Nat),
    IsRingSeg w (A + OFF_BIG_TAIL) p c l →
    l.Nodup →
    (w.arenas.lookup A).isSome →
    (∀ q, q ∈ l → (w.bigs.lookup q).isSome ∧
      w.arenas.lookup (q - OFF_BIG_HEAD) = none ∧
      w.arenas.lookup (q - OFF_BIG_TAIL) = none) →
    arenaimp_free_bigs (fuel + l.length + 1) w c (A + OFF_BIG_TAIL) =
      { w with trace := (w.trace ++ l.map Event.freeEv),
               bigs := (l.foldl (fun m x => removeAssoc m x) w.bigs),
               commons := (l.foldl (fun m x => removeAssoc m x) w.commons) }
  | [], fuel, w, A, p, c, hseg, hnd, hA, hmem => by
    have hc : c = A + OFF_BIG_TAIL := hseg
    simp only [arenaimp_free_bigs]
    rw [if_pos hc]
    simp
  | q :: l, fuel, w, A, p, c, hseg, hnd, hA, hmem => by
    obtain ⟨hc, hqp, hrest⟩ := hseg
    rw [hc]
    obtain ⟨hbq, hq88, hq112⟩ := hmem q (List.mem_cons_self q l)
    have hqt : q ≠ A + OFF_BIG_TAIL := by
      intro he
      rw [he, show A + OFF_BIG_TAIL - OFF_BIG_TAIL = A from by omega] at hq112
      rw [hq112] at hA
      simp at hA
    have hlen : fuel + (q :: l).length + 1 = (fuel + l.length + 1) + 1 := by
      simp [List.length_cons]
      omega
    rw [hlen]
    rw [show arenaimp_free_bigs ((fuel + l.length + 1) + 1) w q (A + OFF_BIG_TAIL) =
      if q = A + OFF_BIG_TAIL then w
      else arenaimp_free_bigs (fuel + l.length + 1) (freeW w q) (loadBigNext w q)
        (A + OFF_BIG_TAIL) from rfl]
    rw [if_neg hqt]
    have hrest2 : IsRingSeg (freeW w q) (A + OFF_BIG_TAIL) q (loadBigNext w q) l := by
      refine ringSeg_congr _ _ _ _ hrest ?_
      intro j hj
      obtain ⟨m1, m2, m3⟩ := hmem j (List.mem_cons_of_mem _ hj)
      have hjq : j ≠ q := fun he => (List.nodup_cons.mp hnd).1 (he ▸ hj)
      refine loadBig_both_congr_node m2 m3 m2 m3 ?_ m1
      show (removeAssoc w.bigs q).lookup j = _
      rw [lookup_removeAssoc, if_neg hjq]
    rw [free_bigs_sweep l fuel (freeW w q) A q (loadBigNext w q) hrest2
      (List.nodup_cons.mp hnd).2 hA ?hm]
    case hm =>
      intro j hj
      obtain ⟨m1, m2, m3⟩ := hmem j (List.mem_cons_of_mem _ hj)
      have hjq : j ≠ q := fun he => (List.nodup_cons.mp hnd).1 (he ▸ hj)
      refine ⟨?_, m2, m3⟩
      show ((removeAssoc w.bigs q).lookup j).isSome
      rw [lookup_removeAssoc, if_neg hjq]
      exact m1
    simp [freeW, List.append_assoc]

/-- **C10.** Grown pages go through the big-object path and are swept:
when the small path must grow (empty free list, full page), the chosen
`page_size` is at least `max(512, requested footprint)` and above the
largest size class 448, so the page is allocated by the big-object branch
and, on success, sits in the ring as a node of capacity `page_size`; and
the big-object sweep of `arena_free` (`arenaimp_free_bigs`) frees every
node of the walked ring segment without removing anything else. -/
theorem grown_pages_swept_big_ring (fuel : Nat) (w : World) (A : Nat)
    (a : ArenaS) (l : List Nat) (size count : Nat) (r : Option Nat) (w1 : World)
    (hR : BigRing w A a l)
    (hsm : u64 (SIZEOF_SMALL_HEADER + u64 (size * count)) ≤
      ARENAIMP_LARGEST_SIZECLASS)
    (hfl : a.next_free.getD (arenaimp_size_to_class.getD
      (arenaimp_quantize (u64 (SIZEOF_SMALL_HEADER + u64 (size * count)))) 0) 0 = 0)
    (hnofit : ¬((arenaimp_size_classes.getD (arenaimp_size_to_class.getD
        (arenaimp_quantize (u64 (SIZEOF_SMALL_HEADER + u64 (size * count)))) 0) 0) *
      ARENAIMP_SIZECLASS_QUANTIZATION ≤ u64sub a.size a.pos))
    (hns1 : ARENAIMP_FIRST_PAGE_SIZE / 2 ≤ a.next_size)
    (hns2 : a.next_size ≤ ARENAIMP_MAX_PAGE_SIZE)
    (hE : aalloc_uninit_size (fuel + 1 + 1) w A size count = (r, w1)) :
    (∃ page_size,
      ARENAIMP_FIRST_PAGE_SIZE ≤ page_size ∧
      u64 (SIZEOF_SMALL_HEADER + u64 (size * count)) ≤ page_size ∧
      ARENAIMP_LARGEST_SIZECLASS < page_size ∧
      (r = none ∨
       (∃ p a1 b, r = some (p + SIZEOF_BIG_HEADER + SIZEOF_SMALL_HEADER) ∧
         BigRing w1 A a1 (p :: l) ∧
         w1.bigs.lookup p = some b ∧ b.capacity = page_size))) ∧
    (∀ fuel2 (w0 : World) (B p c : Nat) (lb : List Nat),
      IsRingSeg w0 (B + OFF_BIG_TAIL) p c lb → lb.Nodup →
      (w0.arenas.lookup B).isSome →
      (∀ q, q ∈ lb → (w0.bigs.lookup q).isSome ∧
        w0.arenas.lookup (q - OFF_BIG_HEAD) = none ∧
        w0.arenas.lookup (q - OFF_BIG_TAIL) = none) →
      (arenaimp_free_bigs (fuel2 + lb.length + 1) w0 c (B + OFF_BIG_TAIL)).trace =
        w0.trace ++ lb.map Event.freeEv ∧
      (∀ q, q ∈ lb → (arenaimp_free_bigs (fuel2 + lb.length + 1) w0 c
        (B + OFF_BIG_TAIL)).bigs.lookup q = none) ∧
      (arenaimp_free_bigs (fuel2 + lb.length + 1) w0 c
        (B + OFF_BIG_TAIL)).crashed = w0.crashed) := by
  have e8 : SIZEOF_SMALL_HEADER = 8 := rfl
  have e24 : SIZEOF_BIG_HEADER = 24 := rfl
  have e448 : ARENAIMP_LARGEST_SIZECLASS = 448 := rfl
  have e512 : ARENAIMP_FIRST_PAGE_SIZE = 512 := rfl
  have e4096 : ARENAIMP_MAX_PAGE_SIZE = 4096 := rfl
  have eU : U64 = 18446744073709551616 := rfl
  refine ⟨?_, ?_⟩
  · rw [aalloc_uninit_size] at hE
    rw [if_neg hR.hAnz, hR.harena] at hE
    dsimp only at hE
    rw [if_pos hsm] at hE
    rw [if_neg (show ¬(a.next_free.getD (arenaimp_size_to_class.getD
      (arenaimp_quantize (u64 (SIZEOF_SMALL_HEADER + u64 (size * count)))) 0) 0 ≠ 0)
      from fun hne => hne hfl)] at hE
    rw [if_neg hnofit] at hE
    have hns0eq : u64 (a.next_size * 2) = a.next_size * 2 :=
      Nat.mod_eq_of_lt (by omega)
    rw [hns0eq] at hE
    set NS : Nat := if ARENAIMP_MAX_PAGE_SIZE < a.next_size * 2 then
      ARENAIMP_MAX_PAGE_SIZE else a.next_size * 2 with hNSdef
    have hNSlo : ARENAIMP_FIRST_PAGE_SIZE ≤ NS := by
      rw [hNSdef]
      split <;> omega
    have hNShi : NS ≤ ARENAIMP_MAX_PAGE_SIZE := by
      rw [hNSdef]
      split <;> omega
    rw [if_neg (show ¬(NS < u64 (SIZEOF_SMALL_HEADER + u64 (size * count)))
      from by omega)] at hE
    have hRA : BigRing (w.assertCheck (a.magic == ARENAIMP_MAGIC_ARENA)) A a l :=
      bigRing_relax (assertCheck_arenas w _) (assertCheck_bigs w _)
        (assertCheck_smalls w _) (le_of_eq (assertCheck_nextAddr w _).symm) hR
    have hRU : BigRing (updArena (w.assertCheck (a.magic == ARENAIMP_MAGIC_ARENA))
        A (fun s => { s with next_size := NS })) A { a with next_size := NS } l :=
      bigRing_updArena_other hRA _ rfl rfl rfl
    have hRin : BigRing ((updArena (w.assertCheck
        (a.magic == ARENAIMP_MAGIC_ARENA)) A
        (fun s => { s with next_size := NS })).assertCheck
        (decide (ARENAIMP_LARGEST_SIZECLASS < NS))) A
        { a with next_size := NS } l :=
      bigRing_relax (assertCheck_arenas _ _) (assertCheck_bigs _ _)
        (assertCheck_smalls _ _) (le_of_eq (assertCheck_nextAddr _ _).symm) hRU
    have hu64NS : u64 (1 * NS) = NS := by
      rw [one_mul]
      exact Nat.mod_eq_of_lt (by omega)
    split at hE
    · rename_i w2 heq
      injection hE with hE1 hE2
      exact ⟨NS, hNSlo, by omega, by omega, Or.inl hE1.symm⟩
    · rename_i new_page w2 heq
      have hbigin : ¬(u64 (SIZEOF_SMALL_HEADER + u64 (1 * NS)) ≤
          ARENAIMP_LARGEST_SIZECLASS) := by
        rw [hu64NS]
        have h2 : u64 (SIZEOF_SMALL_HEADER + NS) = SIZEOF_SMALL_HEADER + NS :=
          Nat.mod_eq_of_lt (by omega)
        rw [h2]
        omega
      have hnovin : SIZEOF_BIG_HEADER + u64 (1 * NS) < U64 := by
        rw [hu64NS]
        omega
      rcases ring_insert_spec fuel _ A { a with next_size := NS } l 1 NS
          (some new_page) w2 hRin hbigin hnovin heq with
        ⟨hnone, _⟩ | ⟨p, a1, hrin, hRR, hfr, hbound, b, hblk, hbcap⟩
      · simp at hnone
      · have hnp : new_page = p + SIZEOF_BIG_HEADER := Option.some.inj hrin
        subst hnp
        have hA3 : getArena { w2 with smalls := (setAssoc w2.smalls
            (p + SIZEOF_BIG_HEADER) (SmallHdr.active (u64 (size * count))
            (List.replicate (u64 (size * count)) 0))) } A = some a1 := hRR.harena
        rw [hA3] at hE
        dsimp only at hE
        have hRW3 : BigRing { w2 with smalls := (setAssoc w2.smalls
            (p + SIZEOF_BIG_HEADER) (SmallHdr.active (u64 (size * count))
            (List.replicate (u64 (size * count)) 0))) } A a1 (p :: l) := by
          refine bigRing_set_small hRR _ _ ?_ ?_
          · omega
          · intro q hq
            rcases List.mem_cons.mp hq with hqp | hql
            · omega
            · have := hfr q hql
              omega
        injection hE with hE1 hE2
        subst hE1
        rw [← hE2]
        by_cases hsw : u64sub a1.size a1.pos <
            u64sub NS (u64 (SIZEOF_SMALL_HEADER + u64 (size * count)))
        · rw [if_pos hsw]
          refine ⟨NS, hNSlo, by omega, by omega, Or.inr ⟨p, _, b, rfl,
            bigRing_updArena_other hRW3 _ rfl rfl rfl, ?_, ?_⟩⟩
          · rw [updArena_bigs hA3 _]
            exact hblk
          · rw [hbcap]
            exact hu64NS
        · rw [if_neg hsw]
          refine ⟨NS, hNSlo, by omega, by omega, Or.inr ⟨p, a1, b, rfl, hRW3, ?_, ?_⟩⟩
          · exact hblk
          · rw [hbcap]
            exact hu64NS
  · intro fuel2 w0 B p c lb hseg hnd hA hmem
    rw [free_bigs_sweep lb fuel2 w0 B p c hseg hnd hA hmem]
    refine ⟨rfl, ?_, rfl⟩
    intro q hq
    exact lookup_foldl_remove lb w0.bigs q hq

/-- Witness for C10: on the fresh one-arena world `c8w`, an allocation of
300 bytes with empty free lists and a full first page takes the growth
path, and the sweep characterization holds. -/
theorem grown_pages_swept_big_ring_witness :
    (∃ page_size,
      ARENAIMP_FIRST_PAGE_SIZE ≤ page_size ∧
      u64 (SIZEOF_SMALL_HEADER + u64 (300 * 1)) ≤ page_size ∧
      ARENAIMP_LARGEST_SIZECLASS < page_size ∧
      ((aalloc_uninit_size (0 + 1 + 1) c8w 1024 300 1).1 = none ∨
       (∃ p a1 b, (aalloc_uninit_size (0 + 1 + 1) c8w 1024 300 1).1 =
           some (p + SIZEOF_BIG_HEADER + SIZEOF_SMALL_HEADER) ∧
         BigRing (aalloc_uninit_size (0 + 1 + 1) c8w 1024 300 1).2 1024 a1
           (p :: []) ∧
         ((aalloc_uninit_size (0 + 1 + 1) c8w 1024 300 1).2).bigs.lookup p =
           some b ∧
         b.capacity = page_size))) ∧
    (∀ fuel2 (w0 : World) (B p c : Nat) (lb : List Nat),
      IsRingSeg w0 (B + OFF_BIG_TAIL) p c lb → lb.Nodup →
      (w0.arenas.lookup B).isSome →
      (∀ q, q ∈ lb → (w0.bigs.lookup q).isSome ∧
        w0.arenas.lookup (q - OFF_BIG_HEAD) = none ∧
        w0.arenas.lookup (q - OFF_BIG_TAIL) = none) →
      (arenaimp_free_bigs (fuel2 + lb.length + 1) w0 c (B + OFF_BIG_TAIL)).trace =
        w0.trace ++ lb.map Event.freeEv ∧
      (∀ q, q ∈ lb → (arenaimp_free_bigs (fuel2 + lb.length + 1) w0 c
        (B + OFF_BIG_TAIL)).bigs.lookup q = none) ∧
      (arenaimp_free_bigs (fuel2 + lb.length + 1) w0 c
        (B + OFF_BIG_TAIL)).crashed = w0.crashed) :=
  grown_pages_swept_big_ring 0 c8w 1024 c8a [] 300 1
    (aalloc_uninit_size (0 + 1 + 1) c8w 1024 300 1).1
    (aalloc_uninit_size (0 + 1 + 1) c8w 1024 300 1).2
    bigRing_c8w (by decide) (by decide) (by decide) (by decide) (by decide) rfl

/-! ### Reallocation (C6)

`arealloc_size` either hands the pointer back unchanged (when the request
still fits the stored capacity) or allocates `max(2 * capacity, total)`
fresh bytes, copies the old payload, and releases the old block.  The
lemmas below record that the block `aalloc_uninit_size` returns always
carries the requested byte count as its stored capacity, on every one of
its five paths. -/

/-- `updArena` never touches the small-header map, whether or not the
arena exists. -/
theorem updArena_smalls_any (w : World) (A : Nat) (f : ArenaS → ArenaS) :
    (updArena w A f).smalls = w.smalls := by
  unfold updArena
  split
  · rfl
  · rfl

/-- `updArena` never touches the big-header map, whether or not the arena
exists. -/
theorem updArena_bigs_any (w : World) (A : Nat) (f : ArenaS → ArenaS) :
    (updArena w A f).bigs = w.bigs := by
  unfold updArena
  split
  · rfl
  · rfl

/-- A conditional page switch never touches the small-header map. -/
theorem ite_smalls (c : Prop) [Decidable c] (w : World) (A : Nat)
    (f : ArenaS → ArenaS) :
    (if c then updArena w A f else w).smalls = w.smalls := by
  split
  · exact updArena_smalls_any _ _ _
  · rfl

/-- Writing a ring `prev` field never touches the small-header map. -/
theorem storeBigPrev_smalls (w : World) (p v : Nat) :
    (storeBigPrev w p v).smalls = w.smalls := by
  unfold storeBigPrev
  split
  · exact updArena_smalls_any _ _ _
  · exact updArena_smalls_any _ _ _
  · split
    · rfl
    · rfl
  · rfl

/-- Writing a ring `prev` field preserves the capacity stored in any big
header. -/
theorem storeBigPrev_capAt (w : World) (p v q : Nat) (b : BigHdr)
    (h : w.bigs.lookup q = some b) :
    ∃ b1, (storeBigPrev w p v).bigs.lookup q = some b1 ∧
      b1.capacity = b.capacity := by
  unfold storeBigPrev
  split
  · exact ⟨b, by rw [updArena_bigs_any]; exact h, rfl⟩
  · exact ⟨b, by rw [updArena_bigs_any]; exact h, rfl⟩
  · rename_i q1 hloc
    split
    · rename_i b1 hb1
      by_cases hqq : q = q1
      · subst hqq
        rw [h] at hb1
        injection hb1 with hb1e
        refine ⟨{ b1 with prev := v }, ?_, by rw [hb1e]⟩
        show (setAssoc w.bigs q { b1 with prev := v }).lookup q = _
        rw [lookup_setAssoc]
        simp
      · refine ⟨b, ?_, rfl⟩
        show (setAssoc w.bigs q1 { b1 with prev := v }).lookup q = some b
        rw [lookup_setAssoc, if_neg hqq]
        exact h
    · exact ⟨b, h, rfl⟩
  · exact ⟨b, h, rfl⟩

/-- A pointer one small header past a live small block reads that block's
capacity. -/
theorem readCapacityAt_smallHit (w : World) (k c : Nat) (bytes : List Nat)
    (h : w.smalls.lookup k = some (SmallHdr.active c bytes)) :
    readCapacityAt w (k + SIZEOF_SMALL_HEADER) = some c := by
  unfold readCapacityAt
  rw [Nat.add_sub_cancel, h]

/-- A pointer one big header past a live big block, with no small header
shadowing it, reads that block's capacity. -/
theorem readCapacityAt_bigHit (w : World) (q : Nat) (b : BigHdr)
    (hs : w.smalls.lookup (q + SIZEOF_BIG_HEADER - SIZEOF_SMALL_HEADER) = none)
    (hb : w.bigs.lookup q = some b) :
    readCapacityAt w (q + SIZEOF_BIG_HEADER) = some b.capacity := by
  unfold readCapacityAt
  rw [hs, Nat.add_sub_cancel, hb]

/-- Every successful `aalloc_uninit_size` returns a block whose stored
capacity is exactly the requested `size * count` bytes, provided the
pre-state's header maps live below the bump frontier. -/
theorem aalloc_capacity_spec (fuel : Nat) (w : World) (A size count np : Nat)
    (w1 : World)
    (hS : ∀ k, w.nextAddr ≤ k → w.smalls.lookup k = none)
    (hB : ∀ k, w.nextAddr < k + SIZEOF_BIG_HEADER → w.bigs.lookup k = none)
    (hE : aalloc_uninit_size (fuel + 1) w A size count = (some np, w1)) :
    readCapacityAt w1 np = some (u64 (size * count)) := by
  have e8 : SIZEOF_SMALL_HEADER = 8 := rfl
  have e16 : SIZEOF_COMMON_HEADER = 8 := rfl
  have e24 : SIZEOF_BIG_HEADER = 24 := rfl
  rw [aalloc_uninit_size] at hE
  by_cases hA0 : A = 0
  · rw [if_pos hA0] at hE
    try dsimp only at hE
    rcases hm : mallocW w (u64 (SIZEOF_COMMON_HEADER + u64 (size * count)))
      with ⟨o, wm⟩
    rw [hm] at hE
    cases o with
    | none =>
      try dsimp only at hE
      simp at hE
    | some alloc =>
      try dsimp only at hE
      injection hE with h1 h2
      have hnp : alloc + SIZEOF_COMMON_HEADER = np := Option.some.inj h1
      subst hnp
      subst h2
      unfold mallocW at hm
      split at hm
      · injection hm with hm1 hm2
        have hall : w.nextAddr = alloc := Option.some.inj hm1
        subst hm2
        have hs1 : w.smalls.lookup
            (alloc + SIZEOF_COMMON_HEADER - SIZEOF_SMALL_HEADER) = none :=
          hS _ (by omega)
        have hb1 : w.bigs.lookup
            (alloc + SIZEOF_COMMON_HEADER - SIZEOF_BIG_HEADER) = none :=
          hB _ (by omega)
        simp only [readCapacityAt, hs1, hb1, Nat.add_sub_cancel, lookup_setAssoc,
          if_pos]
      · injection hm with hm1 hm2
        exact Option.noConfusion hm1
  · rw [if_neg hA0] at hE
    cases hga : getArena w A with
    | none =>
      rw [hga] at hE
      simp at hE
    | some a =>
      rw [hga] at hE
      try dsimp only at hE
      have hSA : ∀ k, w.nextAddr ≤ k →
          (w.assertCheck (a.magic == ARENAIMP_MAGIC_ARENA)).smalls.lookup k =
            none := by
        intro k hk
        rw [assertCheck_smalls]
        exact hS k hk
      by_cases hsm : u64 (SIZEOF_SMALL_HEADER + u64 (size * count)) ≤
          ARENAIMP_LARGEST_SIZECLASS
      · rw [if_pos hsm] at hE
        by_cases hnx : a.next_free.getD (arenaimp_size_to_class.getD
            (arenaimp_quantize (u64 (SIZEOF_SMALL_HEADER + u64 (size * count))))
            0) 0 ≠ 0
        · rw [if_pos hnx] at hE
          split at hE
          · rename_i nf hfr
            injection hE with h1 h2
            have hnp : _ + SIZEOF_SMALL_HEADER = np := Option.some.inj h1
            subst hnp
            subst h2
            refine readCapacityAt_smallHit _ _ _ (List.replicate (u64 (size * count)) 0) ?_
            show (setAssoc _ _ _).lookup _ = _
            rw [lookup_setAssoc]
            simp
          · simp at hE
        · rw [if_neg hnx] at hE
          by_cases hfit : (arenaimp_size_classes.getD
              (arenaimp_size_to_class.getD (arenaimp_quantize
                (u64 (SIZEOF_SMALL_HEADER + u64 (size * count)))) 0) 0) *
              ARENAIMP_SIZECLASS_QUANTIZATION ≤ u64sub a.size a.pos
          · rw [if_pos hfit] at hE
            try dsimp only at hE
            injection hE with h1 h2
            have hnp : _ + SIZEOF_SMALL_HEADER = np := Option.some.inj h1
            subst hnp
            subst h2
            refine readCapacityAt_smallHit _ _ _ (List.replicate (u64 (size * count)) 0) ?_
            show (setAssoc _ _ _).lookup _ = _
            rw [lookup_setAssoc]
            simp
          · rw [if_neg hfit] at hE
            try dsimp only at hE
            split at hE
            · simp at hE
            · rename_i new_page w2 hrec
              try dsimp only at hE
              split at hE
              · simp at hE
              · rename_i a3 hga3
                try dsimp only at hE
                injection hE with h1 h2
                have hnp : new_page + SIZEOF_SMALL_HEADER = np :=
                  Option.some.inj h1
                subst hnp
                subst h2
                refine readCapacityAt_smallHit _ _ _ (List.replicate (u64 (size * count)) 0) ?_
                rw [ite_smalls]
                show (setAssoc _ _ _).lookup _ = _
                rw [lookup_setAssoc]
                simp
      · rw [if_neg hsm] at hE
        rcases hm : mallocW (w.assertCheck (a.magic == ARENAIMP_MAGIC_ARENA))
            (u64 (SIZEOF_BIG_HEADER + u64 (size * count))) with ⟨o, wm⟩
        rw [hm] at hE
        cases o with
        | none =>
          try dsimp only at hE
          simp at hE
        | some alloc =>
          try dsimp only at hE
          split at hE
          · simp at hE
          · rename_i a1 hga1
            try dsimp only at hE
            injection hE with h1 h2
            have hnp : alloc + SIZEOF_BIG_HEADER = np := Option.some.inj h1
            subst hnp
            subst h2
            unfold mallocW at hm
            split at hm
            · injection hm with hm1 hm2
              have hall : (w.assertCheck
                  (a.magic == ARENAIMP_MAGIC_ARENA)).nextAddr = alloc :=
                Option.some.inj hm1
              rw [assertCheck_nextAddr] at hall
              obtain ⟨b1, hb1, hcap⟩ := storeBigPrev_capAt
                { wm with bigs := (setAssoc wm.bigs alloc
                    ⟨A + OFF_BIG_HEAD, a1.big_head_next, u64 (size * count),
                      List.replicate (u64 (size * count)) 0⟩) }
                a1.big_head_next alloc alloc
                ⟨A + OFF_BIG_HEAD, a1.big_head_next, u64 (size * count),
                  List.replicate (u64 (size * count)) 0⟩
                (by show (setAssoc wm.bigs alloc _).lookup alloc = _
                    rw [lookup_setAssoc]
                    simp)
              refine Eq.trans (readCapacityAt_bigHit _ alloc b1 ?_ ?_)
                (by rw [hcap])
              · rw [updArena_smalls_any, storeBigPrev_smalls]
                have hwmS : wm.smalls = (w.assertCheck
                    (a.magic == ARENAIMP_MAGIC_ARENA)).smalls := by
                  rw [← hm2]
                show wm.smalls.lookup _ = none
                rw [hwmS]
                exact hSA _ (by omega)
              · rw [updArena_bigs_any]
                exact hb1
            · injection hm with hm1 hm2
              exact Option.noConfusion hm1

/-- The world after carving a 40-byte small block from the fresh arena
`c8w` at 1024: the block's header sits at 1248 and its payload at 1256. -/
def c6w1 : World := (aalloc_uninit_size 2 c8w 1024 40 1).2

/-- Resizing that 40-byte block to 44 bytes. -/
def c6run : Option Nat × World := arealloc_size 2 c6w1 1024 44 1 1256

/-- **C6.** The reallocation contract of `arealloc_size`: a request that
still fits the stored capacity returns the same pointer with the world
untouched; a larger request allocates exactly `max(2 * capacity, total)`
bytes (so the new block's stored capacity is that maximum, at least
double and at least the request), copies the old payload into it with
`memcpy` and releases the old block with `afree`; and resizing a 40-byte
block to 44 bytes concretely yields capacity 80, a verbatim copy of the
old payload and the old block back on its free list. -/
theorem arealloc_grow_contract :
    (∀ fuel (w : World) (A size count ptr c : Nat),
      ptr ≠ 0 → readCapacityAt w ptr = some c →
      u64 (size * count) ≤ c →
      arealloc_size fuel w A size count ptr = (some ptr, w)) ∧
    (∀ fuel (w : World) (A size count ptr c : Nat) (r : Option Nat) (w1 : World),
      (∀ k, w.nextAddr ≤ k → w.smalls.lookup k = none) →
      (∀ k, w.nextAddr < k + SIZEOF_BIG_HEADER → w.bigs.lookup k = none) →
      ptr ≠ 0 → readCapacityAt w ptr = some c →
      ¬(u64 (size * count) ≤ c) →
      2 * c < U64 → size * count < U64 →
      arealloc_size (fuel + 1) w A size count ptr = (r, w1) →
      r = none ∨
      ∃ np w2, aalloc_uninit_size (fuel + 1) w A 1
          (max (2 * c) (size * count)) = (some np, w2) ∧
        r = some np ∧
        w1 = afree (writeMem w2 np (readMem w2 ptr c)) A ptr ∧
        readCapacityAt w2 np = some (max (2 * c) (size * count))) ∧
    ((aalloc_uninit_size 2 c8w 1024 40 1).1 = some 1256 ∧
     readCapacityAt c6w1 1256 = some 40 ∧
     c6run.1 = some 1304 ∧
     readCapacityAt c6run.2 1304 = some 80 ∧
     readMem c6run.2 1304 40 = readMem c6w1 1256 40 ∧
     c6run.2.smalls.lookup 1248 = some (SmallHdr.freed 0) ∧
     ((getArena c6run.2 1024).map (fun s => s.next_free.getD 3 0)).getD 0 =
       1248 ∧
     c6run.2.crashed = false ∧
     c6run.2.assertOk = true) := by
  refine ⟨?_, ?_, ?_⟩
  · intro fuel w A size count ptr c hp hc hle
    unfold arealloc_size
    rw [if_neg hp, hc]
    dsimp only
    rw [if_pos hle]
  · intro fuel w A size count ptr c r w1 hS hB hp hc hgt h2c ht hE
    unfold arealloc_size at hE
    rw [if_neg hp, hc] at hE
    dsimp only at hE
    rw [if_neg hgt] at hE
    have hcc : u64 (c * 2) = 2 * c :=
      (Nat.mod_eq_of_lt (by omega)).trans (Nat.mul_comm c 2)
    have htt : u64 (size * count) = size * count := Nat.mod_eq_of_lt ht
    rw [hcc, htt] at hE
    have hmax : (if 2 * c ≤ size * count then size * count else 2 * c) =
        max (2 * c) (size * count) := by
      rw [Nat.max_def]
    rw [hmax] at hE
    split at hE
    · rename_i w2 heq
      injection hE with h1 h2
      exact Or.inl h1.symm
    · rename_i np w2 heq
      injection hE with h1 h2
      refine Or.inr ⟨np, w2, heq, h1.symm, h2.symm, ?_⟩
      have hcap := aalloc_capacity_spec fuel w A 1 (max (2 * c) (size * count))
        np w2 hS hB heq
      rw [one_mul] at hcap
      rwa [show u64 (max (2 * c) (size * count)) = max (2 * c) (size * count)
        from Nat.mod_eq_of_lt (Nat.max_lt.mpr ⟨h2c, ht⟩)] at hcap
  · exact ⟨by decide, by decide, by decide, by decide, by decide, by decide,
      by decide, by decide, by decide⟩

/-- Witness for C6: in the world `c6w1`, a resize of the 40-byte block at
1256 down to 30 bytes hands the pointer back unchanged, and the resize to
44 bytes goes through the grow path with `max(2 * 40, 44) = 80` fresh
bytes. -/
theorem arealloc_grow_contract_witness :
    arealloc_size 1 c6w1 1024 1 30 1256 = (some 1256, c6w1) ∧
    ((arealloc_size (1 + 1) c6w1 1024 44 1 1256).1 = none ∨
     ∃ np w2, aalloc_uninit_size (1 + 1) c6w1 1024 1 (max (2 * 40) (44 * 1)) =
         (some np, w2) ∧
       (arealloc_size (1 + 1) c6w1 1024 44 1 1256).1 = some np ∧
       (arealloc_size (1 + 1) c6w1 1024 44 1 1256).2 =
         afree (writeMem w2 np (readMem w2 1256 40)) 1024 1256 ∧
       readCapacityAt w2 np = some (max (2 * 40) (44 * 1))) :=
  ⟨arealloc_grow_contract.1 1 c6w1 1024 1 30 1256 40 (by decide) (by decide)
      (by decide),
   arealloc_grow_contract.2.1 1 c6w1 1024 44 1 1256 40
     (arealloc_size (1 + 1) c6w1 1024 44 1 1256).1
     (arealloc_size (1 + 1) c6w1 1024 44 1 1256).2
     (by
       intro k hk
       have hn : c6w1.nextAddr = 2048 := by decide
       rw [hn] at hk
       rw [show c6w1.smalls =
         [(1248, SmallHdr.active 40 (List.replicate 40 0))] from rfl]
       simp [List.lookup, beq_eq_false_iff_ne.mpr (show k ≠ 1248 by omega)])
     (by
       intro k hk
       rw [show c6w1.bigs = ([] : List (Nat × BigHdr)) from rfl]
       rfl)
     (by decide) (by decide) (by decide) (by decide) (by decide) rfl⟩

end ArenaC
